import Mathlib

/-!
# goconvertis2: decoding of FLUKE `.IS2` thermal images

A shallow embedding of `convertis2/convertis2.go`.

Modelling conventions.

* A file is the list of its bytes; `file.Seek(offset, 0)` is `List.drop offset`, and a
  `binary.Read` that finds too few bytes left is a read error.
* Unsigned machine integers are natural numbers, reduced modulo `2 ^ w` where the source
  computes in `w` bits.
* `float64` values are idealised as elements of a linearly ordered field (`ℝ` where
  `math.Pow` is involved): rounding of the floating-point operations is not modelled. The
  pixel loop, where a temperature can be `+Inf` and the divisor of `colorstep` can vanish, is
  modelled with the infinities and NaN of IEEE 754 (`F64`, `pixelIndexOf`); an emission
  factor of 0 is outside the model.
* Drawing, font handling and JPEG encoding are calls into libraries; the model keeps the
  values handed to them (palette colours, sizes) and not the rasterised picture.
* The file system appears as the list of changes a function makes to it (`FsOp`); the
  answers of the operating system that the code depends on are inputs of the model. What a
  path holds after the changes (nothing, a directory, a file) is `nodeAt`.
-/

namespace Convertis2

/-! ## Data model -/

/-- One byte of a file. -/
abbrev Byte := Fin 256

/-- The fluke hot iron palette, the literal `ironpalette` of both IR decoders. -/
def ironpalette : List String :=
  ["#00000a", "#000014", "#00001e", "#000025", "#00002a", "#00002e", "#000032", "#000036",
   "#00003a", "#00003e", "#000042", "#000046", "#00004a", "#00004f", "#000052", "#010055",
   "#010057", "#020059", "#02005c", "#03005e", "#040061", "#040063", "#050065", "#060067",
   "#070069", "#08006b", "#09006e", "#0a0070", "#0b0073", "#0c0074", "#0d0075", "#0d0076",
   "#0e0077", "#100078", "#120079", "#13007b", "#15007c", "#17007d", "#19007e", "#1b0080",
   "#1c0081", "#1e0083", "#200084", "#220085", "#240086", "#260087", "#280089", "#2a0089",
   "#2c008a", "#2e008b", "#30008c", "#32008d", "#34008e", "#36008e", "#38008f", "#390090",
   "#3b0091", "#3c0092", "#3e0093", "#3f0093", "#410094", "#420095", "#440095", "#450096",
   "#470096", "#490096", "#4a0096", "#4c0097", "#4e0097", "#4f0097", "#510097", "#520098",
   "#540098", "#560098", "#580099", "#5a0099", "#5c0099", "#5d009a", "#5f009a", "#61009b",
   "#63009b", "#64009b", "#66009b", "#68009b", "#6a009b", "#6c009c", "#6d009c", "#6f009c",
   "#70009c", "#71009d", "#73009d", "#75009d", "#77009d", "#78009d", "#7a009d", "#7c009d",
   "#7e009d", "#7f009d", "#81009d", "#83009d", "#84009d", "#86009d", "#87009d", "#89009d",
   "#8a009d", "#8b009d", "#8d009d", "#8f009c", "#91009c", "#93009c", "#95009c", "#96009b",
   "#98009b", "#99009b", "#9b009b", "#9c009b", "#9d009b", "#9f009b", "#a0009b", "#a2009b",
   "#a3009b", "#a4009b", "#a6009a", "#a7009a", "#a8009a", "#a90099", "#aa0099", "#ab0099",
   "#ad0099", "#ae0198", "#af0198", "#b00198", "#b00198", "#b10197", "#b20197", "#b30196",
   "#b40296", "#b50295", "#b60295", "#b70395", "#b80395", "#b90495", "#ba0495", "#ba0494",
   "#bb0593", "#bc0593", "#bd0593", "#be0692", "#bf0692", "#bf0692", "#c00791", "#c00791",
   "#c10890", "#c10990", "#c20a8f", "#c30a8e", "#c30b8e", "#c40c8d", "#c50c8c", "#c60d8b",
   "#c60e8a", "#c70f89", "#c81088", "#c91187", "#ca1286", "#ca1385", "#cb1385", "#cb1484",
   "#cc1582", "#cd1681", "#ce1780", "#ce187e", "#cf187c", "#cf197b", "#d01a79", "#d11b78",
   "#d11c76", "#d21c75", "#d21d74", "#d31e72", "#d32071", "#d4216f", "#d4226e", "#d5236b",
   "#d52469", "#d62567", "#d72665", "#d82764", "#d82862", "#d92a60", "#da2b5e", "#da2c5c",
   "#db2e5a", "#db2f57", "#dc2f54", "#dd3051", "#dd314e", "#de324a", "#de3347", "#df3444",
   "#df3541", "#df363d", "#e0373a", "#e03837", "#e03933", "#e13a30", "#e23b2d", "#e23c2a",
   "#e33d26", "#e33e23", "#e43f20", "#e4411d", "#e4421c", "#e5431b", "#e54419", "#e54518",
   "#e64616", "#e74715", "#e74814", "#e74913", "#e84a12", "#e84c10", "#e84c0f", "#e94d0e",
   "#e94d0d", "#ea4e0c", "#ea4f0c", "#eb500b", "#eb510a", "#eb520a", "#eb5309", "#ec5409",
   "#ec5608", "#ec5708", "#ec5808", "#ed5907", "#ed5a07", "#ed5b06", "#ee5c06", "#ee5c05",
   "#ee5d05", "#ee5e05", "#ef5f04", "#ef6004", "#ef6104", "#ef6204", "#f06303", "#f06403",
   "#f06503", "#f16603", "#f16603", "#f16703", "#f16803", "#f16902", "#f16a02", "#f16b02",
   "#f16b02", "#f26c01", "#f26d01", "#f26e01", "#f36f01", "#f37001", "#f37101", "#f37201",
   "#f47300", "#f47400", "#f47500", "#f47600", "#f47700", "#f47800", "#f47a00", "#f57b00",
   "#f57c00", "#f57e00", "#f57f00", "#f68000", "#f68100", "#f68200", "#f78300", "#f78400",
   "#f78500", "#f78600", "#f88700", "#f88800", "#f88800", "#f88900", "#f88a00", "#f88b00",
   "#f88c00", "#f98d00", "#f98d00", "#f98e00", "#f98f00", "#f99000", "#f99100", "#f99200",
   "#f99300", "#fa9400", "#fa9500", "#fa9600", "#fb9800", "#fb9900", "#fb9a00", "#fb9c00",
   "#fc9d00", "#fc9f00", "#fca000", "#fca100", "#fda200", "#fda300", "#fda400", "#fda600",
   "#fda700", "#fda800", "#fdaa00", "#fdab00", "#fdac00", "#fdad00", "#fdae00", "#feaf00",
   "#feb000", "#feb100", "#feb200", "#feb300", "#feb400", "#feb500", "#feb600", "#feb800",
   "#feb900", "#feb900", "#feba00", "#febb00", "#febc00", "#febd00", "#febe00", "#fec000",
   "#fec100", "#fec200", "#fec300", "#fec400", "#fec500", "#fec600", "#fec700", "#fec800",
   "#fec901", "#feca01", "#feca01", "#fecb01", "#fecc02", "#fecd02", "#fece03", "#fecf04",
   "#fecf04", "#fed005", "#fed106", "#fed308", "#fed409", "#fed50a", "#fed60a", "#fed70b",
   "#fed80c", "#fed90d", "#ffda0e", "#ffda0e", "#ffdb10", "#ffdc12", "#ffdc14", "#ffdd16",
   "#ffde19", "#ffde1b", "#ffdf1e", "#ffe020", "#ffe122", "#ffe224", "#ffe226", "#ffe328",
   "#ffe42b", "#ffe42e", "#ffe531", "#ffe635", "#ffe638", "#ffe73c", "#ffe83f", "#ffe943",
   "#ffea46", "#ffeb49", "#ffeb4d", "#ffec50", "#ffed54", "#ffee57", "#ffee5b", "#ffee5f",
   "#ffef63", "#ffef67", "#fff06a", "#fff06e", "#fff172", "#fff177", "#fff17b", "#fff280",
   "#fff285", "#fff28a", "#fff38e", "#fff492", "#fff496", "#fff49a", "#fff59e", "#fff5a2",
   "#fff5a6", "#fff6aa", "#fff6af", "#fff7b3", "#fff7b6", "#fff8ba", "#fff8bd", "#fff8c1",
   "#fff8c4", "#fff9c7", "#fff9ca", "#fff9cd", "#fffad1", "#fffad4", "#fffbd8", "#fffcdb",
   "#fffcdf", "#fffde2", "#fffde5", "#fffde8", "#fffeeb", "#fffeee", "#fffef1", "#fffef4",
   "#fffff6"]

/-- Result of the min/max pass over the 320x240 raw counts: the local variables
`minvalue`, `maxvalue` and the four marker coordinates. -/
structure MinMax where
  minvalue : ℕ
  maxvalue : ℕ
  mintemppointx : ℕ
  mintemppointy : ℕ
  maxtemppointx : ℕ
  maxtemppointy : ℕ
  deriving DecidableEq, Repr

/-- How an IR decode can stop early: a failed `binary.Read` (returned as `err`), a run-time
panic of the slice access `ironpalette[...]`, or an index obtained by converting a NaN, an
infinity or a number that does not fit into 64 bits, which Go leaves to the
implementation. -/
inductive DecodeError where
  | read
  | indexOutOfRange
  | nanIndex
  deriving DecidableEq, Repr

/-- Outcome of the sentinel scan at the head of `decodeOldIS2`: the loop is left by `break`
with `offset = i`, by the `Offset not found` error, or by a failed read. -/
inductive ScanOutcome where
  | found (offset : ℕ)
  | offsetNotFound
  | readError
  deriving DecidableEq, Repr

/-! ## Conversions and small helpers -/

/-- `binary.Read(file, binary.LittleEndian, &w)` for `w : uint16`: two bytes, low byte
first; the rest of the file is returned as the new read position. -/
def readUint16 : List Byte → Option (ℕ × List Byte)
  | b0 :: b1 :: rest => some (b0.val + 256 * b1.val, rest)
  | _ => none

/-- `binary.LittleEndian.PutUint16(b, w)`: the two bytes of `w`, low byte first. -/
def putUint16 (w : ℕ) : List Byte :=
  [Fin.ofNat (w % 256), Fin.ofNat ((w / 256) % 256)]

/-- The conversion `uint16(f)` of a float: the fractional part is discarded; values are
reduced to 16 bits. -/
def floatToUint16 {K : Type} [LinearOrderedField K] [FloorRing K] (f : K) : ℕ :=
  ⌊f⌋₊ % 65536

/-- The conversions `int64(f)` and `int(f)` of a float: truncation toward zero. -/
def floatToInt {K : Type} [LinearOrderedField K] [FloorRing K] (f : K) : ℤ :=
  if 0 ≤ f then ⌊f⌋ else ⌈f⌉

/-- Abs returns the absolute value of x. -/
def Abs (x : ℤ) : ℤ :=
  if x < 0 then -x else x

/-- AbsFloat64 returns the absolute value of x. -/
def AbsFloat64 {K : Type} [LinearOrderedField K] (x : K) : K :=
  if x < 0 then -x else x

/-- The slice access `ironpalette[i]`; `none` stands for the index-out-of-range panic. -/
def paletteAt (i : ℤ) : Option String :=
  if 0 ≤ i then ironpalette[i.toNat]? else none

/-! ## Radiometric conversion -/

/-- The function `raypower2degrees`: converts a raypower value to degree celsius using the
Stefan-Boltzmann law. -/
noncomputable def raypower2degrees (P : ℕ) (backgroundtemp emissionfactor : ℝ) : ℝ :=
  let sigma : ℝ := 5.67e-8
  let t : ℝ := ((P : ℝ) / (sigma * 2.4)) ^ ((1.0 : ℝ) / 4)
  let t : ℝ := t - 273.15
  let t : ℝ := ((t - backgroundtemp) / emissionfactor) + backgroundtemp
  if t < -30 then -30 else t

/-- The expression `raypower2degrees(uint16(float64(w)*scale+bias), bgtemp, emission)` that
both IR decoders apply to a raw count `w`, with the calibration constants as parameters. -/
noncomputable def temperatureOf (scale bias : ℝ) (w : ℕ) (bgtemp emission : ℝ) : ℝ :=
  raypower2degrees (floatToUint16 ((w : ℝ) * scale + bias)) bgtemp emission

/-- Temperature of a raw count in `decodeIS2IRBinaryData2JPG` (old format). -/
noncomputable def temperatureOld (w : ℕ) (bgtemp emission : ℝ) : ℝ :=
  temperatureOf 0.662 228 w bgtemp emission

/-- Temperature of a raw count in `decodeNEWIS2IRBinaryData2JPG` (zip based format). -/
noncomputable def temperatureNew (w : ℕ) (bgtemp emission : ℝ) : ℝ :=
  temperatureOf 0.201 154.035 w bgtemp emission

/-! ## Colour scale and palette index -/

/-- The selection of `(mintemperaturescale, maxtemperaturescale)`: the observed pair unless
`!(mintemp == 0.0 && maxtemp == 0.0)`. -/
def selectScale {K : Type} [LinearOrderedField K]
    (mintemperature maxtemperature mintemp maxtemp : K) : K × K :=
  if ¬(mintemp = 0 ∧ maxtemp = 0) then (mintemp, maxtemp)
  else (mintemperature, maxtemperature)

/-- The first value of `colorstep`: `433 / (maxtemperaturescale - mintemperaturescale)`. -/
def colorstepOf {K : Type} [LinearOrderedField K]
    (mintemperaturescale maxtemperaturescale : K) : K :=
  433 / (maxtemperaturescale - mintemperaturescale)

/-- Palette index of a thermal pixel, as in the body of the pixel loop:
`ci := AbsFloat64(mintemperaturescale-temperature) * colorstep`, `if ci > 432 { ci = 432 }`,
then `int64(ci)`. -/
def pixelIndex {K : Type} [LinearOrderedField K] [FloorRing K]
    (mintemperaturescale colorstep temperature : K) : ℤ :=
  let ci : K := AbsFloat64 (mintemperaturescale - temperature) * colorstep
  let ci : K := if ci > 432 then 432 else ci
  floatToInt ci

/-- Palette index of legend line `y`, as in the body of the legend loop:
`colorstep = 433.0 / 221.0`, `ci := 432 - colorstep*float64(y)`, `if ci >= 433 { ci = 432 }`,
then `int(ci)`. -/
def legendIndex (K : Type) [LinearOrderedField K] [FloorRing K] (y : ℕ) : ℤ :=
  let colorstep : K := 433.0 / 221.0
  let ci : K := 432 - colorstep * (y : K)
  let ci : K := if ci ≥ 433 then 432 else ci
  floatToInt ci

/-! ## The IR decoders -/

/-- Initial state of the min/max pass: `minvalue := uint16(65535)`, `maxvalue := uint16(0)`,
all coordinates zero. -/
def MinMax.init : MinMax := ⟨65535, 0, 0, 0, 0, 0⟩

/-- Body of the min/max pass for the raw count `w` read at column `x` of row `y`. -/
def MinMax.step (s : MinMax) (w x y : ℕ) : MinMax :=
  let s1 : MinMax :=
    if s.minvalue > w then ⟨w, s.maxvalue, x, y, s.maxtemppointx, s.maxtemppointy⟩ else s
  if s1.maxvalue < w then ⟨s1.minvalue, w, s1.mintemppointx, s1.mintemppointy, x, y⟩ else s1

/-- Inner loop `for x := ...; x < 320; x++` of the min/max pass, with `n` iterations left;
`none` is the early `return err`. -/
def minMaxRow (y : ℕ) : ℕ → ℕ → List Byte → MinMax → Option (MinMax × List Byte)
  | 0, _, file, s => some (s, file)
  | n + 1, x, file, s =>
    match readUint16 file with
    | none => none
    | some (w, rest) => minMaxRow y n (x + 1) rest (s.step w x y)

/-- Outer loop `for y := ...; y < 240; y++` of the min/max pass, with `n` rows left. -/
def minMaxRows : ℕ → ℕ → List Byte → MinMax → Option (MinMax × List Byte)
  | 0, _, file, s => some (s, file)
  | n + 1, y, file, s =>
    match minMaxRow y 320 0 file s with
    | none => none
    | some (s1, rest) => minMaxRows n (y + 1) rest s1

/-- The min/max pass of both IR decoders over the file positioned at the IR block. -/
def minMaxScan (file : List Byte) : Option MinMax :=
  (minMaxRows 240 0 file MinMax.init).map Prod.fst

/-! ### Infinities and NaN in the pixel loop

The temperatures and the scale are real numbers in this model. Where the pixel loop works on
them, a float64 can also be an infinity or a NaN: the temperature of a hot pixel overflows for
a tiny emission factor, and `colorstep` is a quotient whose divisor can vanish. The pixel
loop is therefore modelled on `F64`, with the special values of IEEE 754 arithmetic. -/

/-- A float64 as far as the pixel loop tells values apart: a finite number, an infinity, or
a NaN. -/
inductive F64 where
  | fin (x : ℝ)
  | posInf
  | negInf
  | nan

/-- The largest finite float64, `math.MaxFloat64`. -/
noncomputable def maxFloat64 : ℝ := 2 ^ 1024 - 2 ^ 971

/-- The float64 that stands for the exact result `x` of an operation: the number itself
(rounding is not modelled), or an infinity when `x` lies beyond the largest finite
float64. -/
noncomputable def F64.ofReal (x : ℝ) : F64 :=
  if maxFloat64 < x then .posInf else if x < -maxFloat64 then .negInf else .fin x

/-- Subtraction of float64 values. -/
noncomputable def F64.sub : F64 → F64 → F64
  | .fin x, .fin y => F64.ofReal (x - y)
  | .fin _, .posInf => .negInf
  | .fin _, .negInf => .posInf
  | .posInf, .fin _ => .posInf
  | .posInf, .negInf => .posInf
  | .negInf, .fin _ => .negInf
  | .negInf, .posInf => .negInf
  | _, _ => .nan

/-- The function `AbsFloat64` on float64 values: `if x < 0 { return -x }; return x`. -/
noncomputable def F64.abs : F64 → F64
  | .fin x => .fin (AbsFloat64 x)
  | .posInf => .posInf
  | .negInf => .posInf
  | .nan => .nan

/-- The product of an infinity of the given sign with the finite number `y`. -/
noncomputable def F64.infTimes (positive : Bool) (y : ℝ) : F64 :=
  if 0 < y then (if positive then .posInf else .negInf)
  else if y < 0 then (if positive then .negInf else .posInf)
  else .nan

/-- Multiplication of float64 values. -/
noncomputable def F64.mul : F64 → F64 → F64
  | .fin x, .fin y => F64.ofReal (x * y)
  | .fin x, .posInf => F64.infTimes true x
  | .fin x, .negInf => F64.infTimes false x
  | .posInf, .fin y => F64.infTimes true y
  | .negInf, .fin y => F64.infTimes false y
  | .posInf, .posInf => .posInf
  | .negInf, .negInf => .posInf
  | .posInf, .negInf => .negInf
  | .negInf, .posInf => .negInf
  | _, _ => .nan

/-- Division of float64 values; a zero divisor is taken as `+0`, which is what the
difference of two equal numbers is. -/
noncomputable def F64.div : F64 → F64 → F64
  | .fin x, .fin y =>
    if y = 0 then (if 0 < x then .posInf else if x < 0 then .negInf else .nan)
    else F64.ofReal (x / y)
  | .fin _, .posInf => .fin 0
  | .fin _, .negInf => .fin 0
  | .posInf, .fin y => if 0 ≤ y then .posInf else .negInf
  | .negInf, .fin y => if 0 ≤ y then .negInf else .posInf
  | _, _ => .nan

/-- The statement `if ci > 432 { ci = 432 }`: the comparison is false for a NaN. -/
noncomputable def F64.clamp432 : F64 → F64
  | .fin x => if x > 432 then .fin 432 else .fin x
  | .posInf => .fin 432
  | .negInf => .negInf
  | .nan => .nan

/-- The conversion `int64(ci)`: truncation toward zero for a number that fits into 64 bits;
for a NaN, an infinity or a number out of range Go leaves the value to the implementation:
`none`. -/
noncomputable def F64.toInt64 : F64 → Option ℤ
  | .fin x => if -(2 : ℝ) ^ 63 - 1 < x ∧ x < (2 : ℝ) ^ 63 then some (floatToInt x) else none
  | _ => none

/-- Palette index of a thermal pixel with temperature `t` under the colour scale
`(smin, smax)`, as the pixel loop computes it on float64 values:
`colorstep := 433 / (maxtemperaturescale - mintemperaturescale)`,
`ci := AbsFloat64(mintemperaturescale-temperature) * colorstep`, `if ci > 432 { ci = 432 }`,
then `int64(ci)`. A real number beyond the largest finite float64 stands for `+Inf`. When all
values are finite this is `pixelIndex` with `colorstep = colorstepOf smin smax`. -/
noncomputable def pixelIndexOf (smin smax t : ℝ) : Option ℤ :=
  let colorstep : F64 := F64.div (.fin 433) (F64.sub (F64.ofReal smax) (F64.ofReal smin))
  let ci : F64 := F64.mul (F64.abs (F64.sub (F64.ofReal smin) (F64.ofReal t))) colorstep
  F64.toInt64 (F64.clamp432 ci)

/-- Inner loop of the pixel pass: the palette colour of each pixel of one row, in column
order, with `n` iterations left. -/
noncomputable def pixelRow (scale bias bgtemp emission smin smax : ℝ) :
    ℕ → List Byte → Except DecodeError (List String × List Byte)
  | 0, file => .ok ([], file)
  | n + 1, file =>
    match readUint16 file with
    | none => .error .read
    | some (w, rest) =>
      let temperature := temperatureOf scale bias w bgtemp emission
      match pixelIndexOf smin smax temperature with
      | none => .error .nanIndex
      | some ci =>
        match paletteAt ci with
        | none => .error .indexOutOfRange
        | some colour =>
          match pixelRow scale bias bgtemp emission smin smax n rest with
          | .error err => .error err
          | .ok (colours, rest1) => .ok (colour :: colours, rest1)

/-- Outer loop of the pixel pass: the rows of palette colours, with `n` rows left. -/
noncomputable def pixelRows (scale bias bgtemp emission smin smax : ℝ) :
    ℕ → List Byte → Except DecodeError (List (List String))
  | 0, _ => .ok []
  | n + 1, file =>
    match pixelRow scale bias bgtemp emission smin smax 320 file with
    | .error err => .error err
    | .ok (row, rest) =>
      match pixelRows scale bias bgtemp emission smin smax n rest with
      | .error err => .error err
      | .ok rows => .ok (row :: rows)

/-- The legend loop `for y := 0; y < 221; y++`: the palette colour of each legend line, top
line first, for the lines `y, y+1, ..` with `n` iterations left. -/
noncomputable def legendLines : ℕ → ℕ → Except DecodeError (List String)
  | 0, _ => .ok []
  | n + 1, y =>
    match paletteAt (legendIndex ℝ y) with
    | none => .error .indexOutOfRange
    | some colour =>
      match legendLines n (y + 1) with
      | .error err => .error err
      | .ok colours => .ok (colour :: colours)

/-- The tick loop `for i := 24; i < 224; i = i + 25` of both IR decoders, entered at `i` with
`n` units of fuel: each iteration draws a tick at height `i` and the label
`temp := (tempstep * ((((224 - float64(i)) - 24) / 25) + 1)) + mintemperaturescale`. The
result lists the ticks as (height, label value) from top to bottom; the label is the number
handed to `fmt.Sprintf("%.0f", temp)`. -/
def tickLoop {K : Type} [LinearOrderedField K] (mintemperaturescale tempstep : K) :
    ℕ → ℕ → List (ℕ × K)
  | 0, _ => []
  | n + 1, i =>
    if i < 224 then
      (i, (tempstep * ((((224 - (i : K)) - 24) / 25) + 1)) + mintemperaturescale) ::
        tickLoop mintemperaturescale tempstep n (i + 25)
    else []

/-- The interior ticks of the legend axis: `tempstep := (maxtemperaturescale -
mintemperaturescale) / 9`, then the tick loop from `i := 24`. The fuel 224 is more than the
loop can use, since `i` grows in each iteration. -/
def legendTicks {K : Type} [LinearOrderedField K]
    (mintemperaturescale maxtemperaturescale : K) : List (ℕ × K) :=
  tickLoop mintemperaturescale ((maxtemperaturescale - mintemperaturescale) / 9) 224 24

/-- The values an IR decoder has fixed when it reaches the pixel pass: the result of the
min/max pass, the two observed temperatures and the colour scale. -/
structure IRHeader where
  minmax : MinMax
  mintemperature : ℝ
  maxtemperature : ℝ
  mintemperaturescale : ℝ
  maxtemperaturescale : ℝ

/-- What an IR decoder computes before the picture is drawn and encoded. -/
structure IRImage where
  header : IRHeader
  pixels : List (List String)
  legend : List String
  ticks : List (ℕ × ℝ)

/-- First part of the common body of the two IR decoders, up to the choice of the colour
scale; `none` is the `return err` of a failed read. -/
noncomputable def irHeader (scale bias : ℝ) (offset : ℕ) (file : List Byte)
    (bgtemp emission mintemp maxtemp : ℝ) : Option IRHeader :=
  match minMaxScan (file.drop offset) with
  | none => none
  | some mm =>
    let mintemperature := temperatureOf scale bias mm.minvalue bgtemp emission
    let maxtemperature := temperatureOf scale bias mm.maxvalue bgtemp emission
    let sc := selectScale mintemperature maxtemperature mintemp maxtemp
    some ⟨mm, mintemperature, maxtemperature, sc.1, sc.2⟩

/-- The common body of `decodeIS2IRBinaryData2JPG` and `decodeNEWIS2IRBinaryData2JPG`, which
differ in the two calibration constants only. -/
noncomputable def decodeIR (scale bias : ℝ) (offset : ℕ) (file : List Byte)
    (bgtemp emission mintemp maxtemp : ℝ) : Except DecodeError IRImage :=
  match irHeader scale bias offset file bgtemp emission mintemp maxtemp with
  | none => .error .read
  | some h =>
    match pixelRows scale bias bgtemp emission h.mintemperaturescale h.maxtemperaturescale
        240 (file.drop offset) with
    | .error err => .error err
    | .ok pixels =>
      match legendLines 221 0 with
      | .error err => .error err
      | .ok legend =>
        .ok ⟨h, pixels, legend, legendTicks h.mintemperaturescale h.maxtemperaturescale⟩

/-- The IR decoder of the old format. -/
noncomputable def decodeIS2IRBinaryData2JPG (offset : ℕ) (file : List Byte)
    (bgtemp emission mintemp maxtemp : ℝ) : Except DecodeError IRImage :=
  decodeIR 0.662 228 offset file bgtemp emission mintemp maxtemp

/-- The IR decoder of the zip based format. -/
noncomputable def decodeNEWIS2IRBinaryData2JPG (offset : ℕ) (file : List Byte)
    (bgtemp emission mintemp maxtemp : ℝ) : Except DecodeError IRImage :=
  decodeIR 0.201 154.035 offset file bgtemp emission mintemp maxtemp

/-! ## The old format: sentinel scan, visual picture, audio -/

/-- The scan loop at the head of `decodeOldIS2`, entered with run length `c` and `i` bytes
consumed. One iteration: `i = i + 1`, read a byte, update `c`, `break` when `c >= 20`, fail
when `i == 1000`. -/
def sentinelLoop : List Byte → ℕ → ℕ → ScanOutcome
  | [], _, _ => .readError
  | bval :: rest, c, i =>
    let i1 := i + 1
    let c1 := if bval = 0xFF then c + 1 else 0
    if c1 ≥ 20 then .found i1
    else if i1 = 1000 then .offsetNotFound
    else sentinelLoop rest c1 i1

/-- The sentinel scan of `decodeOldIS2` from the start of the file (`c := 0`, `i := 0`). -/
def sentinelScan (file : List Byte) : ScanOutcome :=
  sentinelLoop file 0 0

/-- The run length `c` of the scan after it has consumed the bytes `pre`. -/
def runLength (pre : List Byte) : ℕ :=
  pre.foldl (fun c bval => if bval = 0xFF then c + 1 else 0) 0

/-- The bytes `p-20 .. p-1` of the file exist and are all `0xFF`. -/
def RunEndsAt (file : List Byte) (p : ℕ) : Prop :=
  20 ≤ p ∧ ∀ k < 20, file[p - 20 + k]? = some 0xFF

instance (file : List Byte) (p : ℕ) : Decidable (RunEndsAt file p) := by
  unfold RunEndsAt; infer_instance

/-- The visual pixel of `decodeOldIS2` for the RGB565 sample `w`: the three `uint16`
expressions, each converted by `uint8(...)`. -/
def rgb565 (w : ℕ) : ℕ × ℕ × ℕ :=
  let r := ((((w >>> 11) &&& 0x1F) * 8) % 65536) % 256
  let g := ((((w >>> 5) &&& 0x3F) * 4) % 65536) % 256
  let b := (((w &&& 0x1F) * 8) % 65536) % 256
  (r, g, b)

/-- What the audio block leaves behind: the bytes handed to the WAV writer, and whether a
read error other than `io.EOF` was reported. -/
structure AudioOut where
  payload : List Byte
  readErrorReported : Bool
  deriving DecidableEq, Repr

/-- The audio loop of `decodeOldIS2`: read a sample, re-encode it with `PutUint16`, write it;
`io.EOF` (no byte left) ends the loop silently, a lone last byte (`io.ErrUnexpectedEOF`) ends
it with a printed read error. -/
def audioLoop : List Byte → AudioOut
  | [] => ⟨[], false⟩
  | [_] => ⟨[], true⟩
  | b0 :: b1 :: rest =>
    let w := b0.val + 256 * b1.val
    let out := audioLoop rest
    ⟨putUint16 (w % 65536) ++ out.payload, out.readErrorReported⟩

/-- The audio block of `decodeOldIS2`: nothing is written unless `fi.Size() > 784080`;
otherwise the file is positioned at 784080 and streamed into the WAV writer. `none` means
that no `.wav` file is created. The block never makes `decodeOldIS2` return an error. -/
def audioBlock (file : List Byte) : Option AudioOut :=
  if file.length > 784080 then some (audioLoop (file.drop 784080)) else none

/-! ## Samples of a frame -/

/-- The `k`-th 16-bit sample of a file positioned at a block of samples: the value that
the `k+1`-st `binary.Read` of a `uint16` yields (bytes `2k` and `2k+1`, low byte first). -/
def sampleAt (file : List Byte) (k : ℕ) : ℕ :=
  (file.getD (2 * k) 0).val + 256 * (file.getD (2 * k + 1) 0).val

/-- State of the min/max pass after the first `m` samples of the file. -/
def ScanInv (file : List Byte) (m : ℕ) (s : MinMax) : Prop :=
  (∀ k, k < m → s.minvalue ≤ sampleAt file k ∧ sampleAt file k ≤ s.maxvalue) ∧
  s.mintemppointx < 320 ∧ s.maxtemppointx < 320 ∧
  (m = 0 → s = MinMax.init) ∧
  (0 < m →
    s.mintemppointy * 320 + s.mintemppointx < m ∧
    sampleAt file (s.mintemppointy * 320 + s.mintemppointx) = s.minvalue ∧
    (∀ k, k < s.mintemppointy * 320 + s.mintemppointx → s.minvalue < sampleAt file k) ∧
    s.maxtemppointy * 320 + s.maxtemppointx < m ∧
    sampleAt file (s.maxtemppointy * 320 + s.maxtemppointx) = s.maxvalue ∧
    (∀ k, k < s.maxtemppointy * 320 + s.maxtemppointx → sampleAt file k < s.maxvalue))

/-! ## Legend axis of the specification -/

/-- The label that the specification gives to a tick at height `y`: linear interpolation
between `scaleMax` at the max tick line `y = 8` and `scaleMin` at the min tick line
`y = 213`. -/
def specTickLabel {K : Type} [LinearOrderedField K] (scaleMin scaleMax : K) (y : ℕ) : K :=
  scaleMax - (((y : K) - 8) / (213 - 8)) * (scaleMax - scaleMin)

/-! ## Paths

Strings that are paths are lists of characters. The functions below stand for functions of
the Go standard library on a system whose separator is `/`, written after their
documentation. -/

/-- A path or file name. -/
abbrev Path := List Char

/-- The elements of a path: `strings.Split(path, "/")`. -/
def splitSlash : Path → List Path
  | [] => [[]]
  | c :: cs =>
    if c = '/' then [] :: splitSlash cs
    else
      match splitSlash cs with
      | [] => [[c]]
      | e :: es => (c :: e) :: es

/-- The inverse direction: `strings.Join(elems, "/")`. -/
def joinSlash : List Path → Path
  | [] => []
  | [e] => e
  | e :: es => e ++ '/' :: joinSlash es

/-- One step of the lexical processing of `filepath.Clean`, on the stack of the elements
kept so far (last one first): empty elements and `.` are dropped; `..` removes the element
before it when that is not itself `..`, is kept at the start of a relative path, and is
dropped at the start of a rooted path; any other element is kept. -/
def cleanStep (rooted : Bool) (stack : List Path) (elem : Path) : List Path :=
  if elem = [] ∨ elem = ['.'] then stack
  else if elem = ['.', '.'] then
    match stack with
    | [] => if rooted then [] else [elem]
    | top :: rest => if top = ['.', '.'] then (if rooted then stack else elem :: stack) else rest
  else elem :: stack

/-- The elements of the cleaned path, first one first. -/
def cleanElements (path : Path) : List Path :=
  ((splitSlash path).foldl (cleanStep (path.head? == some '/')) []).reverse

/-- The function `filepath.Clean`: the shortest path equivalent to `path` by purely lexical
processing; a rooted path keeps its leading separator, and an empty result is `.`. -/
def Clean (path : Path) : Path :=
  if path.head? == some '/' then '/' :: joinSlash (cleanElements path)
  else if cleanElements path = [] then ['.'] else joinSlash (cleanElements path)

/-- The function `filepath.Dir`: the path up to and including its last separator,
cleaned; `.` for a path without a separator. -/
def Dir (path : Path) : Path :=
  Clean (path.reverse.dropWhile (fun c => c != '/')).reverse

/-- The function `filepath.Join` for two elements: empty elements are ignored, the others
are joined by the separator and the result is cleaned; two empty elements give the empty
string. -/
def Join (a b : Path) : Path :=
  if a = [] then (if b = [] then [] else Clean b)
  else if b = [] then Clean a
  else Clean (a ++ '/' :: b)

/-! ## Extraction of an archive -/

/-- How the operating system answers the calls that `Unzip` makes for one file entry: all
succeed, or `os.MkdirAll`, `os.OpenFile`, `f.Open` or `io.Copy` (after `written` bytes)
fails. -/
inductive EntryIO where
  | ok
  | mkdirFails
  | openFileFails
  | openFails
  | copyFails (written : ℕ)
  deriving DecidableEq, Repr

/-- An entry of `r.File` as `Unzip` sees it: its name, whether `f.FileInfo().IsDir()`, its
content, and the answers of the operating system while it is extracted. -/
structure ZipEntry where
  name : Path
  isDir : Bool
  content : List Byte
  io : EntryIO
  deriving DecidableEq, Repr

/-- A change that the program makes to the file system. -/
inductive FsOp where
  | mkdirAll (path : Path)
  | mkdirAllDir (fpath : Path)
  | create (path : Path)
  | write (path : Path) (data : List Byte)
  | removeAll (path : Path)
  deriving DecidableEq, Repr

/-- The path that a change names: the directory made, the file created or written, the
tree removed. For `mkdirAllDir fpath`, the call `os.MkdirAll(filepath.Dir(fpath), ..)`, it is
the directory `filepath.Dir(fpath)`; `os.MkdirAll` also makes the missing ancestors of that
directory. -/
def FsOp.path : FsOp → Path
  | .mkdirAll p => p
  | .mkdirAllDir p => Dir p
  | .create p => p
  | .write p _ => p
  | .removeAll p => p

/-- The errors that `Unzip` returns. -/
inductive UnzipError where
  | notAnArchive
  | badDirectory (fpath : Path)
  | io
  deriving DecidableEq, Repr

/-- What a call of `Unzip` leaves behind: the returned file names and error, and the changes
made to the file system, in order. -/
structure UnzipResult where
  filenames : List Path
  err : Option UnzipError
  ops : List FsOp
  deriving DecidableEq, Repr

/-- The loop `for _, f := range r.File` of `Unzip`, with the `filenames` collected so far. -/
def unzipLoop (dest : Path) : List ZipEntry → List Path → UnzipResult
  | [], filenames => ⟨filenames, none, []⟩
  | f :: rest, filenames =>
    let fpath := Join dest f.name
    if !(List.isPrefixOf (Clean dest ++ ['/']) fpath) then
      ⟨filenames, some (.badDirectory fpath), []⟩
    else
      if f.isDir then
        let r := unzipLoop dest rest (filenames ++ [fpath])
        ⟨r.filenames, r.err, .mkdirAll fpath :: r.ops⟩
      else
        match f.io with
        | .mkdirFails => ⟨filenames ++ [fpath], some .io, []⟩
        | .openFileFails => ⟨filenames ++ [fpath], some .io, [.mkdirAllDir fpath]⟩
        | .openFails => ⟨filenames ++ [fpath], some .io, [.mkdirAllDir fpath, .create fpath]⟩
        | .copyFails written =>
          ⟨filenames ++ [fpath], some .io,
            [.mkdirAllDir fpath, .create fpath, .write fpath (f.content.take written)]⟩
        | .ok =>
          let r := unzipLoop dest rest (filenames ++ [fpath])
          ⟨r.filenames, r.err,
            .mkdirAllDir fpath :: .create fpath :: .write fpath f.content :: r.ops⟩

/-- The function `Unzip`. The archive is given as `zip.OpenReader(src)` presents it: `none`
when opening fails, otherwise the list `r.File`. -/
def Unzip (src : Option (List ZipEntry)) (dest : Path) : UnzipResult :=
  match src with
  | none => ⟨[], some .notAnArchive, []⟩
  | some files => unzipLoop dest files []

/-! ## The two file decoders and the dispatcher -/

/-- The function `strings.Replace(s, old, new, -1)` for a non-empty `old`, scanning `s` from
the left; `skip` counts the characters of a match that are still to be passed over. -/
def replaceGo (old new : List Char) : ℕ → List Char → List Char
  | _, [] => []
  | skip + 1, _ :: cs => replaceGo old new skip cs
  | 0, c :: cs =>
    if List.isPrefixOf old (c :: cs) then new ++ replaceGo old new (old.length - 1) cs
    else c :: replaceGo old new 0 cs

/-- The function `strings.Replace(s, old, new, -1)` for a non-empty `old`. -/
def Replace (s old new : List Char) : List Char :=
  replaceGo old new 0 s

/-- The function `filepath.Base`: the last element of the path, after removal of trailing
separators; `.` for the empty path and a single separator for a path of separators only. -/
def Base (path : Path) : Path :=
  if path = [] then ['.']
  else
    let p := (path.reverse.dropWhile (fun c => c == '/')).reverse
    if p = [] then ['/'] else (splitSlash p).getLastD []

/-- The temporary directory of `decodeNewIS2`: `"./temp_"` followed by the base name of the
input with `.IS2` and `.is2` removed. -/
def tempDir (filename : Path) : Path :=
  "./temp_".toList ++
    Replace (Replace (Base filename) ".IS2".toList []) ".is2".toList []

/-- The name of an IR picture written into a directory (`friendlyname`): the base name with
`.IS2` and then `.is2` replaced by `.jpg`. -/
def friendlyname (filename : Path) : Path :=
  Replace (Replace (Base filename) ".IS2".toList ".jpg".toList) ".is2".toList ".jpg".toList

/-- The name of a visual picture written into a directory: the base name with `.IS2`
replaced by `.jpg`. -/
def visualname (filename : Path) : Path :=
  Replace (Base filename) ".IS2".toList ".jpg".toList

/-- What the decoders learn from the operating system about an output path: whether
`os.Stat` succeeds on it and reports a directory. -/
structure Env where
  isDir : Path → Bool

/-- The output path after the `os.Stat` switch: a directory gets the picture name appended,
any other path is used as it is. -/
def resolveOut (env : Env) (path name : Path) : Path :=
  if env.isDir path then path ++ '/' :: name else path

/-- An input file: its bytes, and what `zip.OpenReader` makes of it (`none` when it is not
a zip archive). -/
structure IS2File where
  bytes : List Byte
  zip : Option (List ZipEntry)

/-- How a decoder or the dispatcher ends: it returns `nil`, it returns an error, the process
is ended by `log.Fatalln`, it is ended by the panic of an out-of-range `ironpalette` index,
or it reaches the conversion of a NaN index, which Go leaves to the implementation. -/
inductive Ending where
  | returnedNil
  | returnedErr
  | fatal
  | panic
  | nanIndex
  deriving DecidableEq, Repr

/-- The tail of both IR decoders after the decoding `r`: `os.Create(filename)`, whose error
is dropped, and `jpeg.Encode`, whose failure is fatal. In the model `os.Create` fails on the
empty path and on no other; a picture written is recorded as the creation of the file. -/
def irFinish {α : Type} (r : Except DecodeError α) (path : Path) : Ending × List FsOp :=
  match r with
  | .error .read => (.returnedErr, [])
  | .error .indexOutOfRange => (.panic, [])
  | .error .nanIndex => (.nanIndex, [])
  | .ok _ => if path = [] then (.fatal, []) else (.returnedNil, [.create path])

/-- What the file system holds at a path: nothing, a directory, or a file with its
content. -/
inductive Node where
  | absent
  | dir
  | file (data : List Byte)
  deriving DecidableEq, Repr

/-- The effect of one change on what the file system holds at the cleaned path `path`:
making `path` or something below it makes `path` a directory, unless a file is there;
creating or writing the file `path` sets its content; removing `path` or a directory above
it leaves nothing. -/
def nodeStep (path : Path) (node : Node) (op : FsOp) : Node :=
  match op with
  | .removeAll p =>
    if Clean p = path ∨ List.isPrefixOf (Clean p ++ ['/']) path then .absent else node
  | .create p =>
    if Clean p = path then .file []
    else if List.isPrefixOf (path ++ ['/']) (Clean p) then
      (match node with
        | .absent => .dir
        | other => other)
    else node
  | .write p data =>
    if Clean p = path then .file data
    else if List.isPrefixOf (path ++ ['/']) (Clean p) then
      (match node with
        | .absent => .dir
        | other => other)
    else node
  | other =>
    if Clean other.path = path ∨ List.isPrefixOf (path ++ ['/']) (Clean other.path) then
      (match node with
        | .file data => .file data
        | _ => .dir)
    else node

/-- What the file system holds at the cleaned path `path` after the changes `ops`, when it
held nothing there before. -/
def nodeAt (ops : List FsOp) (path : Path) : Node :=
  ops.foldl (nodeStep path) .absent

/-- Whether the directory `dir` exists after the changes `ops`, when it did not before. -/
def dirPresent (dir : Path) (ops : List FsOp) : Bool :=
  match nodeAt ops (Clean dir) with
  | .absent => false
  | _ => true

/-- The function `Copyfile` as `decodeNewIS2` uses it, from a path of the extraction to
`dst`; it changes nothing when the source is not a regular file or `os.Create(dst)` fails. -/
def Copyfile (ops : List FsOp) (src dst : Path) : List FsOp :=
  match nodeAt ops (Clean src) with
  | .file data => if dst = [] then [] else [.create dst, .write dst data]
  | _ => []

/-- What a run of a file decoder leaves behind: how it ended, the changes to the file
system in order, whether the IR decoder was called, and for the old format the visual pixels
and the audio. -/
structure Run where
  ending : Ending
  ops : List FsOp
  irDecoded : Bool
  visual : Option (List (ℕ × ℕ × ℕ))
  wav : Option AudioOut

/-- Reads `n` little-endian 16-bit samples; `none` when the file ends before. -/
def readSamples : ℕ → List Byte → Option (List ℕ)
  | 0, _ => some []
  | n + 1, file =>
    match readUint16 file with
    | none => none
    | some (w, rest) =>
      match readSamples n rest with
      | none => none
      | some ws => some (w :: ws)

/-- The function `decodeNewIS2` (zip based format). The temporary directory is taken not to
exist before the call. `os.Open` of `IR.data` fails when the extraction left nothing at that
path. When it left a directory there, `os.Open` succeeds, the first read of the IR decoder
fails, the decoder returns that error, and `decodeNewIS2` removes the temporary directory and
ends in `log.Fatalln`. -/
noncomputable def decodeNewIS2 (env : Env) (src : IS2File)
    (filename irfilepath visfilepath : Path) (bgtemp emission mintemp maxtemp : ℝ) : Run :=
  let tempdir := tempDir filename
  let u := Unzip src.zip tempdir
  match u.err with
  | some _ => ⟨.returnedErr, u.ops, false, none, none⟩
  | none =>
    match nodeAt u.ops (Clean (tempdir ++ "/Images/Main/IR.data".toList)) with
    | .absent => ⟨.returnedErr, u.ops, false, none, none⟩
    | .dir => ⟨.fatal, u.ops ++ [.removeAll tempdir], true, none, none⟩
    | .file irdata =>
      let irpath := resolveOut env irfilepath (friendlyname filename)
      match irFinish (decodeNEWIS2IRBinaryData2JPG 640 irdata bgtemp emission mintemp maxtemp)
          irpath with
      | (.returnedErr, ops) =>
        ⟨.fatal, u.ops ++ ops ++ [.removeAll tempdir], true, none, none⟩
      | (.returnedNil, ops) =>
        let visops :=
          if visfilepath ≠ [] then
            Copyfile u.ops (tempdir ++ "/Images/Main/028001E0.jpg".toList)
              (resolveOut env visfilepath (visualname filename))
          else []
        ⟨.returnedNil, u.ops ++ ops ++ visops ++ [.removeAll tempdir], true, none, none⟩
      | (ending, ops) => ⟨ending, u.ops ++ ops, true, none, none⟩

/-- The IR part of `decodeOldIS2`, skipped for an empty `irfilepath`; a decoder that returns
an error is answered by `log.Fatalln`. -/
noncomputable def oldIR (env : Env) (file : List Byte) (offset : ℕ)
    (filename irfilepath : Path) (bgtemp emission mintemp maxtemp : ℝ) :
    Ending × List FsOp × Bool :=
  if irfilepath ≠ [] then
    match irFinish
        (decodeIS2IRBinaryData2JPG (offset + 15828) file bgtemp emission mintemp maxtemp)
        (resolveOut env irfilepath (friendlyname filename)) with
    | (.returnedErr, ops) => (.fatal, ops, true)
    | (ending, ops) => (ending, ops, true)
  else (.returnedNil, [], false)

/-- The visual part of `decodeOldIS2`, skipped for an empty `visfilepath`: 640x480 samples
from `offset+169484`, each expanded by `rgb565`; a failed read is fatal. -/
def oldVisual (env : Env) (file : List Byte) (offset : ℕ) (filename visfilepath : Path) :
    Ending × List FsOp × Option (List (ℕ × ℕ × ℕ)) :=
  if visfilepath ≠ [] then
    match readSamples (480 * 640) (file.drop (offset + 169484)) with
    | none => (.fatal, [], none)
    | some ws =>
      (.returnedNil, [.create (resolveOut env visfilepath (visualname filename))],
        some (ws.map rgb565))
  else (.returnedNil, [], none)

/-- The audio part of `decodeOldIS2`: the `.wav` file beside the input. -/
def oldAudio (file : List Byte) (filename : Path) : List FsOp × Option AudioOut :=
  match audioBlock file with
  | none => ([], none)
  | some out =>
    ([.create (filename ++ ".wav".toList), .write (filename ++ ".wav".toList) out.payload],
      some out)

/-- The function `decodeOldIS2` (raw binary format), on a file that can be opened. -/
noncomputable def decodeOldIS2 (env : Env) (src : IS2File)
    (filename irfilepath visfilepath : Path) (bgtemp emission mintemp maxtemp : ℝ) : Run :=
  match sentinelScan src.bytes with
  | .readError => ⟨.returnedErr, [], false, none, none⟩
  | .offsetNotFound => ⟨.returnedErr, [], false, none, none⟩
  | .found offset =>
    match oldIR env src.bytes offset filename irfilepath bgtemp emission mintemp maxtemp with
    | (.returnedNil, irops, irDecoded) =>
      match oldVisual env src.bytes offset filename visfilepath with
      | (.returnedNil, visops, visual) =>
        let audio := oldAudio src.bytes filename
        ⟨.returnedNil, irops ++ visops ++ audio.1, irDecoded, visual, audio.2⟩
      | (ending, visops, visual) => ⟨ending, irops ++ visops, irDecoded, visual, none⟩
    | (ending, irops, irDecoded) => ⟨ending, irops, irDecoded, none, none⟩

/-- What a call of `ConvertIS2` leaves behind: the run of `decodeNewIS2`, the run of
`decodeOldIS2` when that decoder was called, and how the call ended. -/
structure Conversion where
  newRun : Run
  oldRun : Option Run
  ending : Ending

/-- The function `ConvertIS2`: `decodeNewIS2` first, and `decodeOldIS2` when that returned
an error; an error of `decodeOldIS2` is answered by `log.Fatalln`. -/
noncomputable def ConvertIS2 (env : Env) (src : IS2File)
    (filename irfilepath visfilepath : Path) (bgtemp emission mintemp maxtemp : ℝ) :
    Conversion :=
  let r := decodeNewIS2 env src filename irfilepath visfilepath bgtemp emission mintemp maxtemp
  match r.ending with
  | .returnedErr =>
    let o := decodeOldIS2 env src filename irfilepath visfilepath bgtemp emission mintemp
      maxtemp
    match o.ending with
    | .returnedErr => ⟨r, some o, .fatal⟩
    | ending => ⟨r, some o, ending⟩
  | ending => ⟨r, none, ending⟩

/-! ## The formulas of the specification -/

/-- The corrected temperature of the specification for an effective radiance `adjusted`:
`t_kelvin = (adjusted / (σ·2.4))^(1/4)` with σ = 5.67e-8, `t_celsius = t_kelvin − 273.15`,
`t_corrected = ((t_celsius − backgroundTemp) / emissivity) + backgroundTemp`. -/
noncomputable def specCorrected (adjusted backgroundTemp emissivity : ℝ) : ℝ :=
  (((adjusted / (5.67e-8 * 2.4)) ^ ((1 : ℝ) / 4) - 273.15) - backgroundTemp) / emissivity
    + backgroundTemp

/-- The temperature of the specification: the corrected temperature, floored at −30. -/
noncomputable def specTemperature (adjusted backgroundTemp emissivity : ℝ) : ℝ :=
  max (-30) (specCorrected adjusted backgroundTemp emissivity)

/-! # Theorems -/

/-! ## Sentinel scan -/

theorem runLength_concat (pre : List Byte) (b : Byte) :
    runLength (pre ++ [b]) = if b = 0xFF then runLength pre + 1 else 0 := by
  simp [runLength, List.foldl_append]

theorem le_runLength_iff (l : List Byte) (n : ℕ) :
    n ≤ runLength l ↔ n ≤ l.length ∧ ∀ k < n, l[l.length - n + k]? = some 0xFF := by
  induction l using List.reverseRecOn generalizing n with
  | nil =>
    constructor
    · intro h
      have h0 : n = 0 := by simpa [runLength] using h
      subst h0
      simp
    · rintro ⟨h, -⟩
      have h0 : n = 0 := by simpa using h
      subst h0
      simp
  | append_singleton l b ih =>
    rw [runLength_concat]
    rcases n with _ | m
    · simp
    · by_cases hb : b = 0xFF
      · rw [if_pos hb, Nat.add_le_add_iff_right, ih m]
        simp only [List.length_append, List.length_singleton]
        constructor
        · rintro ⟨hm, hk⟩
          refine ⟨by omega, fun k hk1 => ?_⟩
          by_cases hkm : k < m
          · have := hk k hkm
            rw [List.getElem?_append_left (by omega)]
            have e : l.length + 1 - (m + 1) + k = l.length - m + k := by omega
            rw [e]; exact this
          · have e : l.length + 1 - (m + 1) + k = l.length := by omega
            rw [e, List.getElem?_append_right (le_refl _)]
            simp [hb]
        · rintro ⟨hm, hk⟩
          refine ⟨by omega, fun k hk1 => ?_⟩
          have := hk k (by omega)
          rw [List.getElem?_append_left (by omega)] at this
          have e : l.length + 1 - (m + 1) + k = l.length - m + k := by omega
          rw [e] at this; exact this
      · rw [if_neg hb]
        simp only [List.length_append, List.length_singleton]
        constructor
        · intro h; omega
        · rintro ⟨hm, hk⟩
          exfalso
          have := hk m (by omega)
          have e : l.length + 1 - (m + 1) + m = l.length := by omega
          rw [e, List.getElem?_append_right (le_refl _)] at this
          simp at this
          exact hb this

theorem runEndsAt_iff (file : List Byte) (p : ℕ) :
    RunEndsAt file p ↔ p ≤ file.length ∧ 20 ≤ runLength (file.take p) := by
  rw [le_runLength_iff]
  constructor
  · rintro ⟨h20, hk⟩
    have hlen : p ≤ file.length := by
      have h19 := hk 19 (by omega)
      have hlt : p - 20 + 19 < file.length := by
        by_contra hcon
        rw [List.getElem?_eq_none (by omega)] at h19
        exact absurd h19 (by simp)
      omega
    refine ⟨hlen, ?_, fun k hk1 => ?_⟩
    · rw [List.length_take]; omega
    · have hl : (file.take p).length = p := by rw [List.length_take]; omega
      rw [hl, List.getElem?_take_of_lt (by omega)]
      exact hk k hk1
  · rintro ⟨hlen, h20, hk⟩
    have hl : (file.take p).length = p := by rw [List.length_take]; omega
    rw [hl] at h20 hk
    refine ⟨h20, fun k hk1 => ?_⟩
    have := hk k hk1
    rwa [List.getElem?_take_of_lt (by omega)] at this

theorem sentinelLoop_cons (b : Byte) (rest : List Byte) (c i : ℕ) :
    sentinelLoop (b :: rest) c i =
      if (if b = 0xFF then c + 1 else 0) ≥ 20 then .found (i + 1)
      else if i + 1 = 1000 then .offsetNotFound
      else sentinelLoop rest (if b = 0xFF then c + 1 else 0) (i + 1) := by
  rw [sentinelLoop]

/-- The scan entered after the bytes `pre` (fewer than 1000, no run reached yet): each way of
leaving the loop, read off from the run lengths of the prefixes of the file. -/
theorem sentinelLoop_spec (rest pre : List Byte) (hi : pre.length < 1000)
    (hc : runLength pre < 20) :
    (∀ p, sentinelLoop rest (runLength pre) pre.length = .found p →
        pre.length < p ∧ p ≤ 1000 ∧ p ≤ (pre ++ rest).length ∧
        20 ≤ runLength ((pre ++ rest).take p) ∧
        ∀ q, pre.length < q → q < p → runLength ((pre ++ rest).take q) < 20) ∧
    (sentinelLoop rest (runLength pre) pre.length = .offsetNotFound →
        1000 ≤ (pre ++ rest).length ∧
        ∀ q, pre.length < q → q ≤ 1000 → runLength ((pre ++ rest).take q) < 20) ∧
    (sentinelLoop rest (runLength pre) pre.length = .readError →
        (pre ++ rest).length < 1000 ∧
        ∀ q, pre.length < q → q ≤ (pre ++ rest).length →
          runLength ((pre ++ rest).take q) < 20) := by
  induction rest generalizing pre with
  | nil =>
    refine ⟨fun p h => ?_, fun h => ?_, fun _ => ?_⟩
    · simp [sentinelLoop] at h
    · simp [sentinelLoop] at h
    · simp only [List.append_nil]
      exact ⟨hi, fun q h1 h2 => by omega⟩
  | cons b rest ih =>
    have happ : pre ++ b :: rest = (pre ++ [b]) ++ rest := by simp
    have hlen : (pre ++ [b]).length = pre.length + 1 := by simp
    have htake : (pre ++ b :: rest).take (pre.length + 1) = pre ++ [b] := by
      rw [happ, ← hlen, List.take_left]
    have hrun := runLength_concat pre b
    rw [sentinelLoop_cons, ← hrun]
    by_cases h20 : runLength (pre ++ [b]) ≥ 20
    · rw [if_pos h20]
      refine ⟨fun p h => ?_, fun h => by simp at h, fun h => by simp at h⟩
      have hp : p = pre.length + 1 := by
        injection h with h; exact h.symm
      subst hp
      refine ⟨by omega, by omega, ?_, ?_, fun q h1 h2 => by omega⟩
      · simp
      · rw [htake]; exact h20
    · rw [if_neg h20]
      by_cases h1000 : pre.length + 1 = 1000
      · rw [if_pos h1000]
        refine ⟨fun p h => by simp at h, fun _ => ?_, fun h => by simp at h⟩
        refine ⟨by simp; omega, fun q h1 h2 => ?_⟩
        have hq : q = pre.length + 1 := by omega
        rw [hq, htake]; omega
      · rw [if_neg h1000]
        have ih1 := ih (pre ++ [b]) (by rw [hlen]; omega) (by omega)
        rw [hlen, ← happ] at ih1
        obtain ⟨hf, hn, hr⟩ := ih1
        have hstep : ∀ q, pre.length < q → ¬ pre.length + 1 < q →
            runLength ((pre ++ b :: rest).take q) < 20 := by
          intro q h1 h2
          have hq : q = pre.length + 1 := by omega
          rw [hq, htake]; omega
        refine ⟨fun p h => ?_, fun h => ?_, fun h => ?_⟩
        · obtain ⟨a1, a2, a3, a4, a5⟩ := hf p h
          refine ⟨by omega, a2, a3, a4, fun q h1 h2 => ?_⟩
          by_cases hq : pre.length + 1 < q
          · exact a5 q hq h2
          · exact hstep q h1 hq
        · obtain ⟨a1, a2⟩ := hn h
          refine ⟨a1, fun q h1 h2 => ?_⟩
          by_cases hq : pre.length + 1 < q
          · exact a2 q hq h2
          · exact hstep q h1 hq
        · obtain ⟨a1, a2⟩ := hr h
          refine ⟨a1, fun q h1 h2 => ?_⟩
          by_cases hq : pre.length + 1 < q
          · exact a2 q hq h2
          · exact hstep q h1 hq

/-- The three ways the scan of a whole file can end, in terms of `RunEndsAt`. -/
theorem sentinelScan_spec (file : List Byte) :
    (∀ p, sentinelScan file = .found p →
        p ≤ 1000 ∧ RunEndsAt file p ∧ ∀ q, q < p → ¬ RunEndsAt file q) ∧
    (sentinelScan file = .offsetNotFound →
        1000 ≤ file.length ∧ ∀ q, q ≤ 1000 → ¬ RunEndsAt file q) ∧
    (sentinelScan file = .readError →
        file.length < 1000 ∧ ∀ q, ¬ RunEndsAt file q) := by
  have h := sentinelLoop_spec file [] (by simp) (by simp [runLength])
  have h0 : runLength ([] : List Byte) = 0 := by simp [runLength]
  simp only [h0, List.length_nil, List.nil_append] at h
  obtain ⟨hf, hn, hr⟩ := h
  have hzero : ¬ RunEndsAt file 0 := fun hq => by
    have := hq.1; omega
  refine ⟨fun p hp => ?_, fun hp => ?_, fun hp => ?_⟩
  · obtain ⟨a1, a2, a3, a4, a5⟩ := hf p hp
    refine ⟨a2, (runEndsAt_iff file p).2 ⟨a3, a4⟩, fun q hq hrun => ?_⟩
    rcases Nat.eq_zero_or_pos q with h | h
    · subst h; exact hzero hrun
    · have := a5 q h hq
      have := ((runEndsAt_iff file q).1 hrun).2
      omega
  · obtain ⟨a1, a2⟩ := hn hp
    refine ⟨a1, fun q hq hrun => ?_⟩
    rcases Nat.eq_zero_or_pos q with h | h
    · subst h; exact hzero hrun
    · have := a2 q h hq
      have := ((runEndsAt_iff file q).1 hrun).2
      omega
  · obtain ⟨a1, a2⟩ := hr hp
    refine ⟨a1, fun q hrun => ?_⟩
    rcases Nat.eq_zero_or_pos q with h | h
    · subst h; exact hzero hrun
    · have hle := ((runEndsAt_iff file q).1 hrun).1
      have := a2 q h hle
      have := ((runEndsAt_iff file q).1 hrun).2
      omega

theorem sentinelLoop_take (rest : List Byte) (c i : ℕ) (hi : i < 1000) :
    sentinelLoop (rest.take (1000 - i)) c i = sentinelLoop rest c i := by
  induction rest generalizing c i with
  | nil => simp
  | cons b rest ih =>
    have e : 1000 - i = (1000 - (i + 1)) + 1 := by omega
    rw [e, List.take_succ_cons, sentinelLoop_cons, sentinelLoop_cons]
    by_cases h20 : (if b = 0xFF then c + 1 else 0) ≥ 20
    · rw [if_pos h20, if_pos h20]
    · rw [if_neg h20, if_neg h20]
      by_cases h1000 : i + 1 = 1000
      · rw [if_pos h1000, if_pos h1000]
      · rw [if_neg h1000, if_neg h1000]
        exact ih _ _ (by omega)

/-- C5: whenever some run of 20 consecutive 0xFF bytes ends at or before the 1000th byte,
the Legacy sentinel scan returns the smallest position `p` such that the bytes
`p-20 .. p-1` are all 0xFF; and on 19 x 0xFF, one other byte, 20 x 0xFF it returns 40, the
position right after the 20th byte of the second run. -/
theorem sentinelScan_returns_first_run_end :
    (∀ file : List Byte, (∃ p0, p0 ≤ 1000 ∧ RunEndsAt file p0) →
      ∃ p, sentinelScan file = .found p ∧ p ≤ 1000 ∧ RunEndsAt file p ∧
        ∀ q, q < p → ¬ RunEndsAt file q) ∧
    (∀ b : Byte, b ≠ 0xFF →
      sentinelScan (List.replicate 19 0xFF ++ [b] ++ List.replicate 20 0xFF) = .found 40) := by
  constructor
  · rintro file ⟨p0, hp0, hrun⟩
    obtain ⟨hf, hn, hr⟩ := sentinelScan_spec file
    cases hres : sentinelScan file with
    | found p =>
      obtain ⟨a1, a2, a3⟩ := hf p hres
      exact ⟨p, rfl, a1, a2, a3⟩
    | offsetNotFound => exact absurd hrun ((hn hres).2 p0 hp0)
    | readError => exact absurd hrun ((hr hres).2 p0)
  · intro b hb
    simp [sentinelScan, sentinelLoop, List.replicate, hb]

/-- C5, at a concrete file: 20 bytes 0xFF followed by a zero byte. -/
theorem sentinelScan_returns_first_run_end_witness :
    ∃ p, sentinelScan (List.replicate 20 0xFF ++ [0]) = .found p ∧ p ≤ 1000 ∧
      RunEndsAt (List.replicate 20 0xFF ++ [0]) p ∧
      ∀ q, q < p → ¬ RunEndsAt (List.replicate 20 0xFF ++ [0]) q :=
  sentinelScan_returns_first_run_end.1 _ ⟨20, by decide, by decide⟩

/-- C6: on a file of at least 1000 bytes the Legacy sentinel scan fails with
`Offset not found` exactly when no run of 20 consecutive 0xFF bytes ends within the first
1000 bytes; its outcome is that of the scan of the first 1000 bytes alone (no 1001st byte is
read, and a found offset is at most 1000); and a run whose 20th byte is the 1000th byte is
accepted. -/
theorem sentinelScan_offsetNotFound_iff (file : List Byte) (hlen : 1000 ≤ file.length) :
    (sentinelScan file = .offsetNotFound ↔ ¬ ∃ p, p ≤ 1000 ∧ RunEndsAt file p) ∧
    sentinelScan file = sentinelScan (file.take 1000) ∧
    (∀ p, sentinelScan file = .found p → p ≤ 1000) ∧
    (RunEndsAt file 1000 → ∃ p, sentinelScan file = .found p) := by
  obtain ⟨hf, hn, hr⟩ := sentinelScan_spec file
  have hiff : sentinelScan file = .offsetNotFound ↔ ¬ ∃ p, p ≤ 1000 ∧ RunEndsAt file p := by
    constructor
    · rintro h ⟨p, hp, hrun⟩
      exact (hn h).2 p hp hrun
    · intro hno
      cases hres : sentinelScan file with
      | found p =>
        obtain ⟨a1, a2, -⟩ := hf p hres
        exact absurd ⟨p, a1, a2⟩ hno
      | offsetNotFound => rfl
      | readError =>
        have := (hr hres).1
        omega
  refine ⟨hiff, ?_, fun p hp => (hf p hp).1, fun hrun => ?_⟩
  · exact (sentinelLoop_take file 0 0 (by omega)).symm
  · cases hres : sentinelScan file with
    | found p => exact ⟨p, rfl⟩
    | offsetNotFound => exact absurd ⟨1000, le_refl _, hrun⟩ (hiff.1 hres)
    | readError =>
      have := (hr hres).1
      omega

/-- C6, at a concrete file: 1000 zero bytes. -/
theorem sentinelScan_offsetNotFound_iff_witness :
    (sentinelScan (List.replicate 1000 (0 : Byte)) = .offsetNotFound ↔
      ¬ ∃ p, p ≤ 1000 ∧ RunEndsAt (List.replicate 1000 (0 : Byte)) p) ∧
    sentinelScan (List.replicate 1000 (0 : Byte)) =
      sentinelScan ((List.replicate 1000 (0 : Byte)).take 1000) ∧
    (∀ p, sentinelScan (List.replicate 1000 (0 : Byte)) = .found p → p ≤ 1000) ∧
    (RunEndsAt (List.replicate 1000 (0 : Byte)) 1000 →
      ∃ p, sentinelScan (List.replicate 1000 (0 : Byte)) = .found p) :=
  sentinelScan_offsetNotFound_iff (List.replicate 1000 0) (by rw [List.length_replicate])

/-! ## Visual picture of the old format -/

/-- C7: for every 16-bit sample the Legacy visual decoder yields
`R = ((raw>>11)&0x1F)*8`, `G = ((raw>>5)&0x3F)*4`, `B = (raw&0x1F)*8`; neither the `uint16`
arithmetic nor the conversion to `uint8` loses anything (`R, B <= 248`, `G <= 252`); and
0xF800, 0x07E0, 0x001F decode to (248,0,0), (0,252,0), (0,0,248). -/
theorem rgb565_exact :
    (∀ raw : ℕ, raw < 65536 →
      rgb565 raw =
        (((raw >>> 11) &&& 0x1F) * 8, ((raw >>> 5) &&& 0x3F) * 4, (raw &&& 0x1F) * 8) ∧
      (rgb565 raw).1 ≤ 248 ∧ (rgb565 raw).2.1 ≤ 252 ∧ (rgb565 raw).2.2 ≤ 248) ∧
    rgb565 0xF800 = (248, 0, 0) ∧ rgb565 0x07E0 = (0, 252, 0) ∧
    rgb565 0x001F = (0, 0, 248) := by
  refine ⟨fun raw _ => ?_, by decide, by decide, by decide⟩
  have hr : (raw >>> 11) &&& 0x1F ≤ 0x1F := Nat.and_le_right
  have hg : (raw >>> 5) &&& 0x3F ≤ 0x3F := Nat.and_le_right
  have hb : raw &&& 0x1F ≤ 0x1F := Nat.and_le_right
  have er : ((((raw >>> 11) &&& 0x1F) * 8) % 65536) % 256 = ((raw >>> 11) &&& 0x1F) * 8 := by
    omega
  have eg : ((((raw >>> 5) &&& 0x3F) * 4) % 65536) % 256 = ((raw >>> 5) &&& 0x3F) * 4 := by
    omega
  have eb : (((raw &&& 0x1F) * 8) % 65536) % 256 = (raw &&& 0x1F) * 8 := by
    omega
  simp only [rgb565, er, eg, eb]
  refine ⟨trivial, ?_, ?_, ?_⟩ <;> omega

/-- C7, at the sample 0xFFFF. -/
theorem rgb565_exact_witness :
    rgb565 0xFFFF =
        (((0xFFFF >>> 11) &&& 0x1F) * 8, ((0xFFFF >>> 5) &&& 0x3F) * 4, (0xFFFF &&& 0x1F) * 8) ∧
      (rgb565 0xFFFF).1 ≤ 248 ∧ (rgb565 0xFFFF).2.1 ≤ 252 ∧ (rgb565 0xFFFF).2.2 ≤ 248 :=
  rgb565_exact.1 0xFFFF (by decide)

/-! ## Audio track of the old format -/

theorem putUint16_readUint16 (b0 b1 : Byte) :
    putUint16 ((b0.val + 256 * b1.val) % 65536) = [b0, b1] := by
  have h0 := b0.isLt
  have h1 := b1.isLt
  have e0 : (b0.val + 256 * b1.val) % 65536 % 256 = b0.val := by omega
  have e1 : (b0.val + 256 * b1.val) % 65536 / 256 % 256 = b1.val := by omega
  simp only [putUint16, e0, e1]
  have c0 : (Fin.ofNat b0.val : Byte) = b0 := by
    apply Fin.ext; simp [Fin.ofNat, Nat.mod_eq_of_lt h0]
  have c1 : (Fin.ofNat b1.val : Byte) = b1 := by
    apply Fin.ext; simp [Fin.ofNat, Nat.mod_eq_of_lt h1]
  rw [c0, c1]

theorem audioLoop_even (n : ℕ) :
    ∀ l : List Byte, l.length = 2 * n → audioLoop l = ⟨l, false⟩ := by
  induction n with
  | zero =>
    intro l hl
    have : l = [] := List.length_eq_zero.1 (by simpa using hl)
    subst this
    rfl
  | succ n ih =>
    intro l hl
    match l, hl with
    | b0 :: b1 :: rest, hl =>
      have hrest : rest.length = 2 * n := by
        simp only [List.length_cons] at hl; omega
      rw [audioLoop, ih rest hrest, putUint16_readUint16]
      rfl

/-- C10: for a Legacy file of 784080 + 2N bytes with N > 0, the audio block hands to the WAV
writer exactly the 2N bytes from offset 784080 on, in unchanged order (re-encoding a decoded
sample gives back its two source bytes), and end-of-file ends the stream with no read error
reported; a file of at most 784080 bytes produces no audio. -/
theorem audioBlock_payload :
    (∀ (file : List Byte) (N : ℕ), 0 < N → file.length = 784080 + 2 * N →
      audioBlock file = some ⟨file.drop 784080, false⟩ ∧
      (file.drop 784080).length = 2 * N) ∧
    (∀ b0 b1 : Byte, readUint16 [b0, b1] = some (b0.val + 256 * b1.val, []) ∧
      putUint16 (b0.val + 256 * b1.val) = [b0, b1]) ∧
    (∀ file : List Byte, file.length ≤ 784080 → audioBlock file = none) := by
  refine ⟨fun file N hN hlen => ?_, fun b0 b1 => ⟨rfl, ?_⟩, fun file hlen => ?_⟩
  · have hdrop : (file.drop 784080).length = 2 * N := by
      rw [List.length_drop]; omega
    refine ⟨?_, hdrop⟩
    rw [audioBlock, if_pos (by omega), audioLoop_even N _ hdrop]
  · have h := putUint16_readUint16 b0 b1
    have h0 := b0.isLt
    have h1 := b1.isLt
    rwa [Nat.mod_eq_of_lt (by omega)] at h
  · rw [audioBlock, if_neg (by omega)]

/-- C10, at a concrete file: 784082 zero bytes, that is one trailing sample. -/
theorem audioBlock_payload_witness :
    audioBlock (List.replicate 784082 (0 : Byte)) =
        some ⟨(List.replicate 784082 (0 : Byte)).drop 784080, false⟩ ∧
      ((List.replicate 784082 (0 : Byte)).drop 784080).length = 2 * 1 :=
  audioBlock_payload.1 (List.replicate 784082 0) 1 (by decide)
    (by rw [List.length_replicate])

/-! ## Radiometric conversion -/

theorem raypower2degrees_eq (P : ℕ) (bg e : ℝ) :
    raypower2degrees P bg e = specTemperature (P : ℝ) bg e := by
  have h14 : ((1.0 : ℝ) / 4) = (1 : ℝ) / 4 := by norm_num
  simp only [raypower2degrees, specTemperature, specCorrected, h14]
  split_ifs with h
  · rw [max_eq_left (le_of_lt h)]
  · rw [max_eq_right (not_lt.1 h)]

theorem specCorrected_mono (bg e : ℝ) (he : 0 < e) {a b : ℝ} (ha : 0 ≤ a) (hab : a ≤ b) :
    specCorrected a bg e ≤ specCorrected b bg e := by
  have hc : (0 : ℝ) < 5.67e-8 * 2.4 := by norm_num
  have h1 : a / (5.67e-8 * 2.4) ≤ b / (5.67e-8 * 2.4) :=
    div_le_div_of_nonneg_right hab hc.le
  have h2 : (a / (5.67e-8 * 2.4)) ^ ((1 : ℝ) / 4) ≤ (b / (5.67e-8 * 2.4)) ^ ((1 : ℝ) / 4) :=
    Real.rpow_le_rpow (div_nonneg ha hc.le) h1 (by norm_num)
  unfold specCorrected
  have h3 : ((a / (5.67e-8 * 2.4)) ^ ((1 : ℝ) / 4) - 273.15 - bg) / e ≤
      ((b / (5.67e-8 * 2.4)) ^ ((1 : ℝ) / 4) - 273.15 - bg) / e :=
    div_le_div_of_nonneg_right (by linarith) he.le
  linarith

theorem specCorrected_strictMono (bg e : ℝ) (he : 0 < e) {a b : ℝ} (ha : 0 ≤ a)
    (hab : a < b) : specCorrected a bg e < specCorrected b bg e := by
  have hc : (0 : ℝ) < 5.67e-8 * 2.4 := by norm_num
  have h1 : a / (5.67e-8 * 2.4) < b / (5.67e-8 * 2.4) :=
    div_lt_div_of_pos_right hab hc
  have h2 : (a / (5.67e-8 * 2.4)) ^ ((1 : ℝ) / 4) < (b / (5.67e-8 * 2.4)) ^ ((1 : ℝ) / 4) :=
    Real.rpow_lt_rpow (div_nonneg ha hc.le) h1 (by norm_num)
  unfold specCorrected
  have h3 : ((a / (5.67e-8 * 2.4)) ^ ((1 : ℝ) / 4) - 273.15 - bg) / e <
      ((b / (5.67e-8 * 2.4)) ^ ((1 : ℝ) / 4) - 273.15 - bg) / e :=
    div_lt_div_of_pos_right (by linarith) he
  linarith

theorem specTemperature_mono (bg e : ℝ) (he : 0 < e) {a b : ℝ} (ha : 0 ≤ a) (hab : a ≤ b) :
    specTemperature a bg e ≤ specTemperature b bg e :=
  max_le_max (le_refl _) (specCorrected_mono bg e he ha hab)

/-- The conversion `uint16(float64(w)*scale+bias)` does not wrap for a 16-bit raw count when
the calibration keeps `65535*scale+bias` below 65536. -/
theorem floatToUint16_calibrated (scale bias : ℝ) (hs : 0 ≤ scale) (hb : 0 ≤ bias)
    (hmax : 65535 * scale + bias < 65536) (w : ℕ) (hw : w ≤ 65535) :
    floatToUint16 ((w : ℝ) * scale + bias) = ⌊(w : ℝ) * scale + bias⌋₊ := by
  have hw1 : (w : ℝ) ≤ 65535 := by exact_mod_cast hw
  have h0 : 0 ≤ (w : ℝ) * scale + bias := by positivity
  have hlt : (w : ℝ) * scale + bias < (65536 : ℕ) := by
    have := mul_le_mul_of_nonneg_right hw1 hs
    push_cast
    linarith
  exact Nat.mod_eq_of_lt ((Nat.floor_lt h0).2 hlt)

theorem temperatureOf_eq (scale bias : ℝ) (hs : 0 ≤ scale) (hb : 0 ≤ bias)
    (hmax : 65535 * scale + bias < 65536) (w : ℕ) (hw : w ≤ 65535) (bg e : ℝ) :
    temperatureOf scale bias w bg e =
      specTemperature ((⌊(w : ℝ) * scale + bias⌋₊ : ℕ) : ℝ) bg e := by
  rw [temperatureOf, raypower2degrees_eq, floatToUint16_calibrated scale bias hs hb hmax w hw]

theorem temperatureOf_mono (scale bias : ℝ) (hs : 0 ≤ scale) (hb : 0 ≤ bias)
    (hmax : 65535 * scale + bias < 65536) (bg e : ℝ) (he : 0 < e)
    (w1 w2 : ℕ) (h12 : w1 ≤ w2) (h2 : w2 ≤ 65535) :
    temperatureOf scale bias w1 bg e ≤ temperatureOf scale bias w2 bg e := by
  rw [temperatureOf_eq scale bias hs hb hmax w1 (le_trans h12 h2),
    temperatureOf_eq scale bias hs hb hmax w2 h2]
  apply specTemperature_mono bg e he (Nat.cast_nonneg _)
  have h12r : (w1 : ℝ) ≤ w2 := by exact_mod_cast h12
  have : (w1 : ℝ) * scale + bias ≤ (w2 : ℝ) * scale + bias := by
    have := mul_le_mul_of_nonneg_right h12r hs
    linarith
  exact_mod_cast Nat.floor_mono this

/-- C2: for a 16-bit `P`, any background temperature and an emissivity in (0,1],
`raypower2degrees` returns `max(-30, corrected)` with
`corrected = ((P/(5.67e-8*2.4))^(1/4) - 273.15 - bg)/e + bg`; the result is never below -30
and is exactly -30 whenever `corrected < -30`. -/
theorem raypower2degrees_floor (P : ℕ) (_hP : P ≤ 65535) (bg e : ℝ) (_he0 : 0 < e)
    (_he1 : e ≤ 1) :
    raypower2degrees P bg e =
      max (-30) ((((P : ℝ) / (5.67e-8 * 2.4)) ^ ((1 : ℝ) / 4) - 273.15 - bg) / e + bg) ∧
    -30 ≤ raypower2degrees P bg e ∧
    ((((P : ℝ) / (5.67e-8 * 2.4)) ^ ((1 : ℝ) / 4) - 273.15 - bg) / e + bg < -30 →
      raypower2degrees P bg e = -30) := by
  have h := raypower2degrees_eq P bg e
  simp only [specTemperature, specCorrected] at h
  refine ⟨h, ?_, fun hlt => ?_⟩
  · rw [h]; exact le_max_left _ _
  · rw [h]; exact max_eq_left hlt.le

/-- C2, at `P = 890` with the default background temperature 20 and emissivity 0.95. -/
theorem raypower2degrees_floor_witness :
    raypower2degrees 890 20 0.95 =
      max (-30) (((((890 : ℕ) : ℝ) / (5.67e-8 * 2.4)) ^ ((1 : ℝ) / 4) - 273.15 - 20) / 0.95
        + 20) ∧
    -30 ≤ raypower2degrees 890 20 0.95 ∧
    (((((890 : ℕ) : ℝ) / (5.67e-8 * 2.4)) ^ ((1 : ℝ) / 4) - 273.15 - 20) / 0.95 + 20 < -30 →
      raypower2degrees 890 20 0.95 = -30) :=
  raypower2degrees_floor 890 (by norm_num) 20 0.95 (by norm_num) (by norm_num)

theorem floor_adjusted_1001 : ⌊((1001 : ℕ) : ℝ) * 0.662 + 228⌋₊ = 890 := by
  rw [Nat.floor_eq_iff (by norm_num)]
  constructor <;> norm_num

theorem specCorrected_890_ge : -30 ≤ specCorrected 890 20 0.95 := by
  have hroot : ((245.65 : ℝ) ^ 4) ^ ((1 : ℝ) / 4) = 245.65 := by
    rw [← Real.rpow_natCast, ← Real.rpow_mul (by norm_num)]
    norm_num
  have hX : (245.65 : ℝ) ≤ ((890 : ℝ) / (5.67e-8 * 2.4)) ^ ((1 : ℝ) / 4) := by
    calc (245.65 : ℝ) = ((245.65 : ℝ) ^ 4) ^ ((1 : ℝ) / 4) := hroot.symm
      _ ≤ _ := Real.rpow_le_rpow (by positivity) (by norm_num) (by norm_num)
  unfold specCorrected
  have h3 : ((245.65 : ℝ) - 273.15 - 20) / 0.95 ≤
      (((890 : ℝ) / (5.67e-8 * 2.4)) ^ ((1 : ℝ) / 4) - 273.15 - 20) / 0.95 :=
    div_le_div_of_nonneg_right (by linarith) (by norm_num)
  have h4 : ((245.65 : ℝ) - 273.15 - 20) / 0.95 = -50 := by norm_num
  linarith

/-- C1, counterexample: for the raw count 1001 of an old-format file (background 20,
emissivity 0.95) the decoder works with `uint16(890.662) = 890`, and its temperature differs
from the formula of the specification applied to the un-rounded 890.662. -/
theorem temperatureOld_ne_unrounded :
    temperatureOld 1001 20 0.95 ≠ specTemperature (1001 * 0.662 + 228) 20 0.95 := by
  have hcode : temperatureOld 1001 20 0.95 = specCorrected 890 20 0.95 := by
    rw [temperatureOld, temperatureOf_eq 0.662 228 (by norm_num) (by norm_num) (by norm_num)
      1001 (by norm_num), floor_adjusted_1001, specTemperature]
    push_cast
    exact max_eq_right specCorrected_890_ge
  have hlt : specCorrected 890 20 0.95 < specCorrected (1001 * 0.662 + 228) 20 0.95 :=
    specCorrected_strictMono 20 0.95 (by norm_num) (by norm_num) (by norm_num)
  have hspec : specCorrected (1001 * 0.662 + 228) 20 0.95 ≤
      specTemperature (1001 * 0.662 + 228) 20 0.95 := le_max_right _ _
  rw [hcode]
  exact ne_of_lt (lt_of_lt_of_le hlt hspec)

/-- C1, amended: for every raw count `w` in [0,65535], every background temperature and
every emissivity in (0,1], the temperature the pipeline computes for `w` is the formula of
the specification applied to the integer part of `w*scale + bias` (old format 0.662/228,
zip based format 0.201/154.035):
`t = max(-30, (((adjusted / (5.67e-8 * 2.4))^(1/4) - 273.15) - bg) / e + bg)` with
`adjusted = floor(w*scale + bias)`. -/
theorem temperature_of_truncated (w : ℕ) (hw : w ≤ 65535) (bg e : ℝ) (_he0 : 0 < e)
    (_he1 : e ≤ 1) :
    temperatureOld w bg e =
      max (-30) ((((((⌊(w : ℝ) * 0.662 + 228⌋₊ : ℕ) : ℝ) / (5.67e-8 * 2.4)) ^ ((1 : ℝ) / 4)
        - 273.15) - bg) / e + bg) ∧
    temperatureNew w bg e =
      max (-30) ((((((⌊(w : ℝ) * 0.201 + 154.035⌋₊ : ℕ) : ℝ) / (5.67e-8 * 2.4)) ^ ((1 : ℝ) / 4)
        - 273.15) - bg) / e + bg) := by
  constructor
  · rw [temperatureOld, temperatureOf_eq 0.662 228 (by norm_num) (by norm_num) (by norm_num)
      w hw]
    rfl
  · rw [temperatureNew, temperatureOf_eq 0.201 154.035 (by norm_num) (by norm_num)
      (by norm_num) w hw]
    rfl

/-- C1 amended, at the raw count 1001 with background 20 and emissivity 0.95. -/
theorem temperature_of_truncated_witness :
    temperatureOld 1001 20 0.95 =
      max (-30) ((((((⌊((1001 : ℕ) : ℝ) * 0.662 + 228⌋₊ : ℕ) : ℝ) / (5.67e-8 * 2.4))
        ^ ((1 : ℝ) / 4) - 273.15) - 20) / 0.95 + 20) ∧
    temperatureNew 1001 20 0.95 =
      max (-30) ((((((⌊((1001 : ℕ) : ℝ) * 0.201 + 154.035⌋₊ : ℕ) : ℝ) / (5.67e-8 * 2.4))
        ^ ((1 : ℝ) / 4) - 273.15) - 20) / 0.95 + 20) :=
  temperature_of_truncated 1001 (by norm_num) 20 0.95 (by norm_num) (by norm_num)

/-- C3: for each variant (old format 0.662/228, zip based format 0.201/154.035), every
background temperature and every emissivity in (0,1], the computed temperature
`raypower2degrees(uint16(w*scale + bias), bg, e)` is non-decreasing in the raw count on
[0,65535]. -/
theorem temperature_monotone (bg e : ℝ) (he0 : 0 < e) (_he1 : e ≤ 1) (w1 w2 : ℕ)
    (h12 : w1 ≤ w2) (h2 : w2 ≤ 65535) :
    raypower2degrees (floatToUint16 ((w1 : ℝ) * 0.662 + 228)) bg e ≤
      raypower2degrees (floatToUint16 ((w2 : ℝ) * 0.662 + 228)) bg e ∧
    raypower2degrees (floatToUint16 ((w1 : ℝ) * 0.201 + 154.035)) bg e ≤
      raypower2degrees (floatToUint16 ((w2 : ℝ) * 0.201 + 154.035)) bg e :=
  ⟨temperatureOf_mono 0.662 228 (by norm_num) (by norm_num) (by norm_num) bg e he0 w1 w2
      h12 h2,
    temperatureOf_mono 0.201 154.035 (by norm_num) (by norm_num) (by norm_num) bg e he0
      w1 w2 h12 h2⟩

/-- C3, at the raw counts 1000 and 1001 with background 20 and emissivity 0.95. -/
theorem temperature_monotone_witness :
    raypower2degrees (floatToUint16 (((1000 : ℕ) : ℝ) * 0.662 + 228)) 20 0.95 ≤
      raypower2degrees (floatToUint16 (((1001 : ℕ) : ℝ) * 0.662 + 228)) 20 0.95 ∧
    raypower2degrees (floatToUint16 (((1000 : ℕ) : ℝ) * 0.201 + 154.035)) 20 0.95 ≤
      raypower2degrees (floatToUint16 (((1001 : ℕ) : ℝ) * 0.201 + 154.035)) 20 0.95 :=
  temperature_monotone 20 0.95 (by norm_num) (by norm_num) 1000 1001 (by norm_num)
    (by norm_num)

/-! ## Legend -/

/-- The index of a legend line in integer arithmetic. -/
theorem legendIndex_eq (K : Type) [LinearOrderedField K] [FloorRing K] (y : ℕ)
    (hy : y ≤ 220) : legendIndex K y = (95472 - 433 * (y : ℤ)) / 221 := by
  have hyK : (y : K) ≤ 220 := by exact_mod_cast hy
  have hy0 : (0 : K) ≤ (y : K) := Nat.cast_nonneg y
  have hci : (432 : K) - (433.0 / 221.0) * (y : K) = ((95472 - 433 * (y : ℤ) : ℤ) : K) / 221 := by
    push_cast
    norm_num
    field_simp
    ring
  have hnn : (0 : K) ≤ (432 : K) - (433.0 / 221.0) * (y : K) := by
    have : (433.0 / 221.0 : K) * (y : K) ≤ (433.0 / 221.0) * 220 :=
      mul_le_mul_of_nonneg_left hyK (by norm_num)
    have h2 : (433.0 / 221.0 : K) * 220 ≤ 432 := by norm_num
    linarith
  have hlt : ¬ ((432 : K) - (433.0 / 221.0) * (y : K) ≥ 433) := by
    have : (0 : K) ≤ (433.0 / 221.0) * (y : K) := mul_nonneg (by norm_num) hy0
    intro h
    linarith
  simp only [legendIndex, if_neg hlt, floatToInt, if_pos hnn]
  rw [hci, Int.floor_eq_iff]
  have h221 : (0 : K) < 221 := by norm_num
  set n : ℤ := 95472 - 433 * (y : ℤ) with hn
  have hdiv := Int.emod_add_ediv n 221
  have hr0 := Int.emod_nonneg n (by norm_num : (221 : ℤ) ≠ 0)
  have hr1 := Int.emod_lt_of_pos n (by norm_num : (0 : ℤ) < 221)
  constructor
  · rw [le_div_iff₀ h221]
    have : (n / 221) * 221 ≤ n := by omega
    exact_mod_cast this
  · rw [div_lt_iff₀ h221]
    have : n < (n / 221 + 1) * 221 := by omega
    exact_mod_cast this

theorem legend_floor_eq (y : ℕ) (hy : y ≤ 220) :
    ⌊(432 : ℝ) - (433 / 221) * (y : ℝ)⌋ = (95472 - 433 * (y : ℤ)) / 221 := by
  have h := legendIndex_eq ℝ y hy
  have hyK : (y : ℝ) ≤ 220 := by exact_mod_cast hy
  have hy0 : (0 : ℝ) ≤ (y : ℝ) := Nat.cast_nonneg y
  have hnn : (0 : ℝ) ≤ (432 : ℝ) - (433.0 / 221.0) * (y : ℝ) := by
    have : (433.0 / 221.0 : ℝ) * (y : ℝ) ≤ (433.0 / 221.0) * 220 :=
      mul_le_mul_of_nonneg_left hyK (by norm_num)
    have h2 : (433.0 / 221.0 : ℝ) * 220 ≤ 432 := by norm_num
    linarith
  have hlt : ¬ ((432 : ℝ) - (433.0 / 221.0) * (y : ℝ) ≥ 433) := by
    have : (0 : ℝ) ≤ (433.0 / 221.0) * (y : ℝ) := mul_nonneg (by norm_num) hy0
    intro h
    linarith
  simp only [legendIndex, if_neg hlt, floatToInt, if_pos hnn] at h
  have e : (433.0 / 221.0 : ℝ) = 433 / 221 := by norm_num
  rw [e] at h
  exact h

/-- C9: for every legend line `y` in 0..220 the palette index used for the line equals
`clamp(floor(432 - (433/221)*y), 0, 432)`; the floor itself lies in [0,432], so the clamp is
never needed; the index is non-increasing in `y`, it is 432 for the top line `y = 0` and 0
for the bottom line `y = 220`. -/
theorem legendIndex_spec :
    (∀ y : ℕ, y ≤ 220 →
      legendIndex ℝ y = max 0 (min 432 ⌊(432 : ℝ) - (433 / 221) * (y : ℝ)⌋) ∧
      0 ≤ ⌊(432 : ℝ) - (433 / 221) * (y : ℝ)⌋ ∧
      ⌊(432 : ℝ) - (433 / 221) * (y : ℝ)⌋ ≤ 432 ∧
      0 ≤ legendIndex ℝ y ∧ legendIndex ℝ y ≤ 432) ∧
    (∀ y1 y2 : ℕ, y1 ≤ y2 → y2 ≤ 220 → legendIndex ℝ y2 ≤ legendIndex ℝ y1) ∧
    legendIndex ℝ 0 = 432 ∧ legendIndex ℝ 220 = 0 := by
  refine ⟨fun y hy => ?_, fun y1 y2 h12 h2 => ?_, ?_, ?_⟩
  · rw [legend_floor_eq y hy, legendIndex_eq ℝ y hy]
    have hy1 : (y : ℤ) ≤ 220 := by exact_mod_cast hy
    have hy0 : (0 : ℤ) ≤ (y : ℤ) := Int.natCast_nonneg y
    have h0 : 0 ≤ (95472 - 433 * (y : ℤ)) / 221 := by omega
    have h1 : (95472 - 433 * (y : ℤ)) / 221 ≤ 432 := by omega
    refine ⟨?_, h0, h1, h0, h1⟩
    rw [min_eq_right h1, max_eq_right h0]
  · rw [legendIndex_eq ℝ y1 (le_trans h12 h2), legendIndex_eq ℝ y2 h2]
    have h12z : (y1 : ℤ) ≤ (y2 : ℤ) := by exact_mod_cast h12
    omega
  · rw [legendIndex_eq ℝ 0 (by norm_num)]; norm_num
  · rw [legendIndex_eq ℝ 220 (by norm_num)]; norm_num

/-- C9, at the middle legend line 110. -/
theorem legendIndex_spec_witness :
    legendIndex ℝ 110 = max 0 (min 432 ⌊(432 : ℝ) - (433 / 221) * ((110 : ℕ) : ℝ)⌋) ∧
      0 ≤ ⌊(432 : ℝ) - (433 / 221) * ((110 : ℕ) : ℝ)⌋ ∧
      ⌊(432 : ℝ) - (433 / 221) * ((110 : ℕ) : ℝ)⌋ ≤ 432 ∧
      0 ≤ legendIndex ℝ 110 ∧ legendIndex ℝ 110 ≤ 432 :=
  legendIndex_spec.1 110 (by norm_num)

/-! ## The IR decoders -/

theorem readUint16_of_length (file : List Byte) (h : 2 ≤ file.length) :
    ∃ w, readUint16 file = some (w, file.drop 2) := by
  match file, h with
  | b0 :: b1 :: rest, _ => exact ⟨b0.val + 256 * b1.val, rfl⟩

/-- A row of the min/max pass never fails when the file holds the `2 * n` bytes it reads. -/
theorem minMaxRow_total (y n : ℕ) :
    ∀ (x : ℕ) (file : List Byte) (s : MinMax), 2 * n ≤ file.length →
      ∃ s1, minMaxRow y n x file s = some (s1, file.drop (2 * n)) := by
  induction n with
  | zero => intro x file s _; exact ⟨s, by simp [minMaxRow]⟩
  | succ n ih =>
    intro x file s h
    obtain ⟨w, hw⟩ := readUint16_of_length file (by omega)
    obtain ⟨s1, hs1⟩ := ih (x + 1) (file.drop 2) (s.step w x y)
      (by rw [List.length_drop]; omega)
    refine ⟨s1, ?_⟩
    rw [minMaxRow, hw]
    simp only
    rw [hs1, List.drop_drop]
    congr 3
    omega

theorem minMaxRows_total (n : ℕ) :
    ∀ (y : ℕ) (file : List Byte) (s : MinMax), 640 * n ≤ file.length →
      ∃ s1, minMaxRows n y file s = some (s1, file.drop (640 * n)) := by
  induction n with
  | zero => intro y file s _; exact ⟨s, by simp [minMaxRows]⟩
  | succ n ih =>
    intro y file s h
    obtain ⟨s1, hs1⟩ := minMaxRow_total y 320 0 file s (by omega)
    obtain ⟨s2, hs2⟩ := ih (y + 1) (file.drop (2 * 320)) s1
      (by rw [List.length_drop]; omega)
    refine ⟨s2, ?_⟩
    rw [minMaxRows, hs1]
    simp only
    rw [hs2, List.drop_drop]
    congr 3
    omega

/-- The min/max pass succeeds on every file that holds the 320x240 samples. -/
theorem minMaxScan_total (file : List Byte) (h : 153600 ≤ file.length) :
    ∃ mm, minMaxScan file = some mm := by
  obtain ⟨s1, hs1⟩ := minMaxRows_total 240 0 file MinMax.init (by omega)
  exact ⟨s1, by rw [minMaxScan, hs1]; rfl⟩

theorem AbsFloat64_nonneg {K : Type} [LinearOrderedField K] (x : K) : 0 ≤ AbsFloat64 x := by
  unfold AbsFloat64
  split_ifs with h
  · linarith
  · exact not_lt.1 h

/-- For a scale with `smin < smax` the palette index of every temperature is in [0,432]. -/
theorem pixelIndex_bounds {K : Type} [LinearOrderedField K] [FloorRing K] (smin smax t : K)
    (h : smin < smax) :
    0 ≤ pixelIndex smin (colorstepOf smin smax) t ∧
      pixelIndex smin (colorstepOf smin smax) t ≤ 432 := by
  have hstep : 0 ≤ colorstepOf smin smax := by
    unfold colorstepOf
    exact div_nonneg (by norm_num) (by linarith)
  have hci : 0 ≤ AbsFloat64 (smin - t) * colorstepOf smin smax :=
    mul_nonneg (AbsFloat64_nonneg _) hstep
  simp only [pixelIndex]
  by_cases h1 : AbsFloat64 (smin - t) * colorstepOf smin smax > 432
  · rw [if_pos h1, floatToInt, if_pos (by norm_num)]
    constructor
    · exact Int.floor_nonneg.2 (by norm_num)
    · exact Int.floor_le_iff.2 (by norm_num)
  · rw [if_neg h1, floatToInt, if_pos hci]
    constructor
    · exact Int.floor_nonneg.2 hci
    · have hle : AbsFloat64 (smin - t) * colorstepOf smin smax ≤ 432 := not_lt.1 h1
      exact Int.floor_le_iff.2 (by push_cast; linarith)

/-! ## Float64 special values in the pixel loop -/

theorem maxFloat64_large : (2 : ℝ) ^ 64 < maxFloat64 := by
  unfold maxFloat64
  norm_num

theorem F64.small (x : ℝ) (h : -(2 : ℝ) ^ 64 ≤ x ∧ x ≤ (2 : ℝ) ^ 64) :
    -maxFloat64 ≤ x ∧ x ≤ maxFloat64 := by
  have hM := maxFloat64_large
  exact ⟨by linarith [h.1], by linarith [h.2]⟩

theorem F64.ofReal_fin (x : ℝ) (h1 : -maxFloat64 ≤ x) (h2 : x ≤ maxFloat64) :
    F64.ofReal x = .fin x := by
  rw [F64.ofReal, if_neg (not_lt.2 h2), if_neg (not_lt.2 h1)]

theorem F64.ofReal_posInf (x : ℝ) (h : maxFloat64 < x) : F64.ofReal x = .posInf := by
  rw [F64.ofReal, if_pos h]

theorem F64.ofReal_nonneg (x : ℝ) (h : 0 ≤ x) :
    F64.ofReal x = .posInf ∨ F64.ofReal x = .fin x := by
  have hM := maxFloat64_large
  by_cases hx : maxFloat64 < x
  · exact Or.inl (F64.ofReal_posInf x hx)
  · exact Or.inr (F64.ofReal_fin x (by linarith [pow_pos (by norm_num : (0 : ℝ) < 2) 64])
      (not_lt.1 hx))

theorem F64.index_posInf : F64.toInt64 (F64.clamp432 .posInf) = some 432 := by
  have h432 : ((432 : ℤ) : ℝ) = 432 := by norm_num
  rw [F64.clamp432, F64.toInt64, if_pos (by norm_num), floatToInt, if_pos (by norm_num),
    ← h432, Int.floor_intCast]

/-- The clamp and the conversion on a finite `ci` that fits into 64 bits. -/
theorem F64.index_fin (p : ℝ) (hlo : -(2 : ℝ) ^ 63 - 1 < p) :
    F64.toInt64 (F64.clamp432 (.fin p)) =
      some (floatToInt (if p > 432 then 432 else p)) := by
  rw [F64.clamp432]
  by_cases hp : p > 432
  · rw [if_pos hp, if_pos hp, F64.toInt64, if_pos (by norm_num)]
  · rw [if_neg hp, if_neg hp, F64.toInt64, if_pos ⟨hlo, by
      have : p ≤ 432 := not_lt.1 hp
      have h63 : (432 : ℝ) < 2 ^ 63 := by norm_num
      linarith⟩]

theorem floatToInt_clamped_bounds (p : ℝ) (h : 0 ≤ p) :
    0 ≤ floatToInt (if p > 432 then 432 else p) ∧
      floatToInt (if p > 432 then 432 else p) ≤ 432 := by
  by_cases hp : p > 432
  · rw [if_pos hp, floatToInt, if_pos (by norm_num)]
    exact ⟨Int.floor_nonneg.2 (by norm_num), Int.floor_le_iff.2 (by norm_num)⟩
  · rw [if_neg hp, floatToInt, if_pos h]
    exact ⟨Int.floor_nonneg.2 h, Int.floor_le_iff.2 (by push_cast; linarith [not_lt.1 hp])⟩

/-- The index of a non-negative `ci`, finite or `+Inf`, is in [0,432]. -/
theorem F64.index_of_nonneg (ci : F64) (p : ℝ) (hp : 0 ≤ p)
    (h : ci = .posInf ∨ ci = .fin p) :
    ∃ i, F64.toInt64 (F64.clamp432 ci) = some i ∧ 0 ≤ i ∧ i ≤ 432 := by
  rcases h with h | h
  · exact ⟨432, by rw [h, F64.index_posInf], by norm_num, by norm_num⟩
  · refine ⟨_, by rw [h, F64.index_fin p (by
      have : (0 : ℝ) < 2 ^ 63 := by norm_num
      linarith)], ?_, ?_⟩
    · exact (floatToInt_clamped_bounds p hp).1
    · exact (floatToInt_clamped_bounds p hp).2

/-- When every value of the pixel loop is finite and `ci` fits into 64 bits, the index is
the one of real arithmetic. -/
theorem pixelIndexOf_finite (smin smax t : ℝ)
    (h1 : -maxFloat64 ≤ smin ∧ smin ≤ maxFloat64)
    (h2 : -maxFloat64 ≤ smax ∧ smax ≤ maxFloat64)
    (h3 : -maxFloat64 ≤ t ∧ t ≤ maxFloat64)
    (h4 : -maxFloat64 ≤ smax - smin ∧ smax - smin ≤ maxFloat64) (hne : smax - smin ≠ 0)
    (h5 : -maxFloat64 ≤ 433 / (smax - smin) ∧ 433 / (smax - smin) ≤ maxFloat64)
    (h6 : -maxFloat64 ≤ smin - t ∧ smin - t ≤ maxFloat64)
    (h7 : -maxFloat64 ≤ AbsFloat64 (smin - t) * (433 / (smax - smin)) ∧
      AbsFloat64 (smin - t) * (433 / (smax - smin)) ≤ maxFloat64)
    (h8 : -(2 : ℝ) ^ 63 - 1 < AbsFloat64 (smin - t) * (433 / (smax - smin))) :
    pixelIndexOf smin smax t = some (pixelIndex smin (colorstepOf smin smax) t) := by
  simp only [pixelIndexOf, F64.ofReal_fin _ h1.1 h1.2, F64.ofReal_fin _ h2.1 h2.2,
    F64.ofReal_fin _ h3.1 h3.2, F64.sub, F64.ofReal_fin _ h4.1 h4.2, F64.div, if_neg hne,
    F64.ofReal_fin _ h5.1 h5.2, F64.ofReal_fin _ h6.1 h6.2, F64.abs, F64.mul,
    F64.ofReal_fin _ h7.1 h7.2]
  rw [F64.index_fin _ h8]
  rfl

/-- A scale of two equal temperatures gives no defined index to a pixel of that
temperature: `colorstep` is `+Inf` (or NaN when the temperature is infinite) and `ci` is
NaN. -/
theorem pixelIndexOf_self (T : ℝ) : pixelIndexOf T T T = none := by
  unfold pixelIndexOf F64.ofReal
  by_cases h1 : maxFloat64 < T
  · simp [h1, F64.sub, F64.div, F64.abs, F64.mul, F64.clamp432, F64.toInt64]
  · by_cases h2 : T < -maxFloat64
    · simp [h1, h2, F64.sub, F64.div, F64.abs, F64.mul, F64.clamp432, F64.toInt64]
    · have hM := maxFloat64_large
      have h0 : ¬ maxFloat64 < (0 : ℝ) := by
        have : (0 : ℝ) < 2 ^ 64 := by norm_num
        linarith
      have h0' : ¬ (0 : ℝ) < -maxFloat64 := by
        have : (0 : ℝ) < 2 ^ 64 := by norm_num
        linarith
      simp [h1, h2, h0, h0', F64.sub, F64.ofReal, F64.div, F64.abs, F64.mul, F64.infTimes,
        AbsFloat64, F64.clamp432, F64.toInt64]

theorem temperatureOld_zero : temperatureOld 0 20 0.95 = -30 := by
  have hfl : ⌊((0 : ℕ) : ℝ) * 0.662 + 228⌋₊ = 228 := by
    rw [Nat.floor_eq_iff (by norm_num)]
    constructor <;> norm_num
  have hroot : ((245.65 : ℝ) ^ 4) ^ ((1 : ℝ) / 4) = 245.65 := by
    rw [← Real.rpow_natCast, ← Real.rpow_mul (by norm_num)]
    norm_num
  have hX : ((228 : ℝ) / (5.67e-8 * 2.4)) ^ ((1 : ℝ) / 4) ≤ 245.65 := by
    calc ((228 : ℝ) / (5.67e-8 * 2.4)) ^ ((1 : ℝ) / 4)
        ≤ ((245.65 : ℝ) ^ 4) ^ ((1 : ℝ) / 4) :=
          Real.rpow_le_rpow (by norm_num) (by norm_num) (by norm_num)
      _ = 245.65 := hroot
  have hcorr : specCorrected 228 20 0.95 ≤ -30 := by
    unfold specCorrected
    have h3 : (((228 : ℝ) / (5.67e-8 * 2.4)) ^ ((1 : ℝ) / 4) - 273.15 - 20) / 0.95 ≤
        ((245.65 : ℝ) - 273.15 - 20) / 0.95 :=
      div_le_div_of_nonneg_right (by linarith) (by norm_num)
    have h4 : ((245.65 : ℝ) - 273.15 - 20) / 0.95 = -50 := by norm_num
    linarith
  rw [temperatureOld, temperatureOf_eq 0.662 228 (by norm_num) (by norm_num) (by norm_num)
    0 (by norm_num), hfl, specTemperature]
  push_cast
  exact max_eq_left hcorr

theorem pixelIndex_reversed : pixelIndex (30 : ℝ) (colorstepOf 30 20) (-30) = -2598 := by
  have hci : AbsFloat64 ((30 : ℝ) - (-30)) * colorstepOf 30 20 = ((-2598 : ℤ) : ℝ) := by
    unfold AbsFloat64 colorstepOf
    norm_num
  have hneg : ¬ (0 : ℝ) ≤ ((-2598 : ℤ) : ℝ) := by norm_num
  have hgt : ¬ (((-2598 : ℤ) : ℝ) > 432) := by norm_num
  rw [pixelIndex]
  simp only [hci, if_neg hgt, floatToInt, if_neg hneg, Int.ceil_intCast]

/-- C4 (where the code departs from the claim): an old-format IR block whose raw counts are
all 0, decoded with background 20, emissivity 0.95 and the scale `-min 30 -max 20`. Every
pixel has the temperature -30, the pixel loop computes `ci = 60 * 433/(20-30) = -2598`, the
check `ci > 432` does not fire, `int64(ci)` is -2598, and `ironpalette[-2598]` stops the
decoder with an index-out-of-range panic: the index is not in [0,432]. -/
theorem pixelIndex_out_of_range_on_reversed_scale :
    temperatureOld 0 20 0.95 = -30 ∧
    pixelIndex (30 : ℝ) (colorstepOf 30 20) (temperatureOld 0 20 0.95) = -2598 ∧
    paletteAt (-2598) = none ∧
    decodeIS2IRBinaryData2JPG 0 (List.replicate 153600 0) 20 0.95 30 20 =
      .error .indexOutOfRange := by
  refine ⟨temperatureOld_zero, ?_, by decide, ?_⟩
  · rw [temperatureOld_zero]; exact pixelIndex_reversed
  · obtain ⟨mm, hmm⟩ := minMaxScan_total (List.replicate 153600 (0 : Byte))
      (by rw [List.length_replicate])
    have hsel : ∀ a b : ℝ, selectScale a b 30 20 = (30, 20) := by
      intro a b
      rw [selectScale, if_pos (by norm_num)]
    have hfile : List.replicate 153600 (0 : Byte) =
        0 :: 0 :: List.replicate 153598 (0 : Byte) := rfl
    have ht : temperatureOf 0.662 228 0 20 0.95 = -30 := temperatureOld_zero
    have hidx : pixelIndexOf (30 : ℝ) 20 (-30) = some (-2598) := by
      have ha : AbsFloat64 ((30 : ℝ) - (-30)) * (433 / (20 - 30)) = -2598 := by
        unfold AbsFloat64
        norm_num
      rw [pixelIndexOf_finite 30 20 (-30) (F64.small _ (by constructor <;> norm_num))
        (F64.small _ (by constructor <;> norm_num))
        (F64.small _ (by constructor <;> norm_num))
        (F64.small _ (by constructor <;> norm_num)) (by norm_num)
        (F64.small _ (by constructor <;> norm_num))
        (F64.small _ (by constructor <;> norm_num))
        (F64.small _ (by rw [ha]; constructor <;> norm_num))
        (by rw [ha]; norm_num), pixelIndex_reversed]
    have hpal : paletteAt (-2598) = none := by decide
    have hrow : ∀ n, pixelRow 0.662 228 20 0.95 30 20 (n + 1)
        (0 :: 0 :: List.replicate 153598 (0 : Byte)) = .error .indexOutOfRange := by
      intro n
      rw [pixelRow]
      simp only [readUint16, Fin.val_zero, mul_zero, add_zero, ht, hidx, hpal]
    rw [decodeIS2IRBinaryData2JPG, decodeIR, irHeader, List.drop_zero, hmm]
    simp only [hsel]
    rw [hfile, pixelRows, hrow 319]

theorem selectScale_auto {K : Type} [LinearOrderedField K] (a b : K) :
    selectScale a b 0 0 = (a, b) := by
  rw [selectScale, if_neg (by simp)]

theorem selectScale_manual {K : Type} [LinearOrderedField K] (a b mintemp maxtemp : K)
    (h : ¬(mintemp = 0 ∧ maxtemp = 0)) : selectScale a b mintemp maxtemp = (mintemp, maxtemp) := by
  rw [selectScale, if_pos h]

/-- The header of an IR decode on a file that holds the 320x240 samples: it exists, its
temperatures are those of the extreme raw counts, and its scale is the caller's pair unless
that pair is (0,0); a finished decode carries this header. -/
theorem irHeader_spec (scale bias : ℝ) (offset : ℕ) (file : List Byte)
    (bg e mintemp maxtemp : ℝ) (hlen : 153600 ≤ (file.drop offset).length) :
    ∃ h, irHeader scale bias offset file bg e mintemp maxtemp = some h ∧
      minMaxScan (file.drop offset) = some h.minmax ∧
      h.mintemperature = temperatureOf scale bias h.minmax.minvalue bg e ∧
      h.maxtemperature = temperatureOf scale bias h.minmax.maxvalue bg e ∧
      (mintemp = 0 ∧ maxtemp = 0 →
        h.mintemperaturescale = h.mintemperature ∧
          h.maxtemperaturescale = h.maxtemperature) ∧
      (¬(mintemp = 0 ∧ maxtemp = 0) →
        h.mintemperaturescale = mintemp ∧ h.maxtemperaturescale = maxtemp) ∧
      ∀ img, decodeIR scale bias offset file bg e mintemp maxtemp = .ok img →
        img.header = h := by
  obtain ⟨mm, hmm⟩ := minMaxScan_total (file.drop offset) hlen
  have hh : irHeader scale bias offset file bg e mintemp maxtemp =
      some ⟨mm, temperatureOf scale bias mm.minvalue bg e,
        temperatureOf scale bias mm.maxvalue bg e,
        (selectScale (temperatureOf scale bias mm.minvalue bg e)
          (temperatureOf scale bias mm.maxvalue bg e) mintemp maxtemp).1,
        (selectScale (temperatureOf scale bias mm.minvalue bg e)
          (temperatureOf scale bias mm.maxvalue bg e) mintemp maxtemp).2⟩ := by
    rw [irHeader, hmm]
  refine ⟨_, hh, hmm, rfl, rfl, ?_, ?_, ?_⟩
  · rintro ⟨h1, h2⟩
    subst h1 h2
    simp only [selectScale_auto]
    exact ⟨trivial, trivial⟩
  · intro hne
    simp only [selectScale_manual _ _ _ _ hne]
    exact ⟨trivial, trivial⟩
  · intro img himg
    rw [decodeIR, hh] at himg
    simp only at himg
    split at himg
    · exact absurd himg (by simp)
    · split at himg
      · exact absurd himg (by simp)
      · injection himg with himg
        rw [← himg]

/-- C8: in both IR decoders, on a file that holds the 320x240 samples, the colour scale is
the frame's own observed (min temperature, max temperature) when the caller passes
`mintemp = 0` and `maxtemp = 0`, and for every other pair (one zero only, or
`mintemp >= maxtemp`, included) it is the caller's pair, taken as it is. -/
theorem scale_selection (offset : ℕ) (file : List Byte) (bg e mintemp maxtemp : ℝ)
    (hlen : 153600 ≤ (file.drop offset).length) :
    (∃ h, irHeader 0.662 228 offset file bg e mintemp maxtemp = some h ∧
      minMaxScan (file.drop offset) = some h.minmax ∧
      h.mintemperature = temperatureOld h.minmax.minvalue bg e ∧
      h.maxtemperature = temperatureOld h.minmax.maxvalue bg e ∧
      (mintemp = 0 ∧ maxtemp = 0 →
        h.mintemperaturescale = h.mintemperature ∧
          h.maxtemperaturescale = h.maxtemperature) ∧
      (¬(mintemp = 0 ∧ maxtemp = 0) →
        h.mintemperaturescale = mintemp ∧ h.maxtemperaturescale = maxtemp) ∧
      ∀ img, decodeIS2IRBinaryData2JPG offset file bg e mintemp maxtemp = .ok img →
        img.header = h) ∧
    (∃ h, irHeader 0.201 154.035 offset file bg e mintemp maxtemp = some h ∧
      minMaxScan (file.drop offset) = some h.minmax ∧
      h.mintemperature = temperatureNew h.minmax.minvalue bg e ∧
      h.maxtemperature = temperatureNew h.minmax.maxvalue bg e ∧
      (mintemp = 0 ∧ maxtemp = 0 →
        h.mintemperaturescale = h.mintemperature ∧
          h.maxtemperaturescale = h.maxtemperature) ∧
      (¬(mintemp = 0 ∧ maxtemp = 0) →
        h.mintemperaturescale = mintemp ∧ h.maxtemperaturescale = maxtemp) ∧
      ∀ img, decodeNEWIS2IRBinaryData2JPG offset file bg e mintemp maxtemp = .ok img →
        img.header = h) :=
  ⟨irHeader_spec 0.662 228 offset file bg e mintemp maxtemp hlen,
    irHeader_spec 0.201 154.035 offset file bg e mintemp maxtemp hlen⟩

/-- C8, at a concrete frame: 153600 zero bytes decoded with background 20, emissivity 0.95
and the pair (0,0): the header exists and its scale is the observed pair. -/
theorem scale_selection_witness :
    153600 ≤ ((List.replicate 153600 (0 : Byte)).drop 0).length ∧
    ∃ h, irHeader 0.662 228 0 (List.replicate 153600 (0 : Byte)) 20 0.95 0 0 = some h ∧
      h.mintemperaturescale = h.mintemperature ∧
      h.maxtemperaturescale = h.maxtemperature := by
  have hlen : 153600 ≤ ((List.replicate 153600 (0 : Byte)).drop 0).length := by
    rw [List.drop_zero, List.length_replicate]
  obtain ⟨h, h1, -, -, -, h5, -, -⟩ :=
    (scale_selection 0 (List.replicate 153600 (0 : Byte)) 20 0.95 0 0 hlen).1
  exact ⟨hlen, h, h1, h5 ⟨rfl, rfl⟩⟩

/-! ## The min/max pass -/

theorem sampleAt_le (file : List Byte) (k : ℕ) : sampleAt file k ≤ 65535 := by
  have h0 := (file.getD (2 * k) 0).isLt
  have h1 := (file.getD (2 * k + 1) 0).isLt
  unfold sampleAt
  omega

theorem readUint16_drop (file : List Byte) (m : ℕ) (h : 2 * m + 2 ≤ file.length) :
    readUint16 (file.drop (2 * m)) = some (sampleAt file m, file.drop (2 * (m + 1))) := by
  have h0 : 2 * m < file.length := by omega
  have h1 : 2 * m + 1 < file.length := by omega
  have e : file.drop (2 * m) =
      file[2 * m] :: file[2 * m + 1] :: file.drop (2 * (m + 1)) := by
    rw [List.drop_eq_getElem_cons h0, List.drop_eq_getElem_cons h1]
    rfl
  rw [e, readUint16, sampleAt, List.getD_eq_getElem _ _ h0, List.getD_eq_getElem _ _ h1]

theorem scanInv_init (file : List Byte) : ScanInv file 0 MinMax.init := by
  refine ⟨fun k hk => by omega, by decide, by decide, fun _ => rfl, fun h => by omega⟩

theorem MinMax.step_eq (s : MinMax) (w x y : ℕ) :
    s.step w x y =
      ⟨if s.minvalue > w then w else s.minvalue, if s.maxvalue < w then w else s.maxvalue,
        if s.minvalue > w then x else s.mintemppointx,
        if s.minvalue > w then y else s.mintemppointy,
        if s.maxvalue < w then x else s.maxtemppointx,
        if s.maxvalue < w then y else s.maxtemppointy⟩ := by
  cases s
  simp only [MinMax.step]
  split_ifs <;> rfl

/-- One iteration of the min/max pass keeps the invariant. -/
theorem scanInv_step (file : List Byte) (x y w : ℕ) (s : MinMax) (hx : x < 320)
    (hw0 : sampleAt file (y * 320 + x) = w) (h : ScanInv file (y * 320 + x) s) :
    ScanInv file (y * 320 + x + 1) (s.step w x y) := by
  unfold ScanInv at h ⊢
  obtain ⟨hall, hminx, hmaxx, hzero, hpos⟩ := h
  have hw : w ≤ 65535 := by rw [← hw0]; exact sampleAt_le _ _
  rw [MinMax.step_eq]
  dsimp only
  rcases Nat.eq_zero_or_pos (y * 320 + x) with hm | hm
  · -- the first sample
    have hs := hzero hm
    have hy : y = 0 := by omega
    have hx0 : x = 0 := by omega
    subst hs hy hx0
    have hw1 : sampleAt file 0 = w := by simpa using hw0
    have hi1 : MinMax.init.minvalue = 65535 := rfl
    have hi2 : MinMax.init.maxvalue = 0 := rfl
    have hi3 : MinMax.init.mintemppointx = 0 := rfl
    have hi4 : MinMax.init.mintemppointy = 0 := rfl
    have hi5 : MinMax.init.maxtemppointx = 0 := rfl
    have hi6 : MinMax.init.maxtemppointy = 0 := rfl
    simp only [hi1, hi2, hi3, hi4, hi5, hi6, ite_self]
    refine ⟨fun k hk => ?_, by omega, by omega, fun h0 => by omega, fun _ => ?_⟩
    · have : k = 0 := by omega
      subst this
      rw [hw1]
      constructor <;> split_ifs <;> omega
    · rw [hw1]
      refine ⟨by omega, ?_, fun k hk => by omega, by omega, ?_, fun k hk => by omega⟩ <;>
        split_ifs <;> omega
  · obtain ⟨a1, a2, a3, b1, b2, b3⟩ := hpos hm
    have hmin := hall _ a1
    have hmax := hall _ b1
    rw [a2] at hmin
    rw [b2] at hmax
    refine ⟨fun k hk => ?_, by split_ifs <;> omega, by split_ifs <;> omega,
      fun h0 => by omega, fun _ => ?_⟩
    · rcases Nat.lt_or_ge k (y * 320 + x) with hk1 | hk1
      · have := hall k hk1
        constructor <;> split_ifs <;> omega
      · have : k = y * 320 + x := by omega
        subst this
        rw [hw0]
        constructor <;> split_ifs <;> omega
    · by_cases h1 : s.minvalue > w
      · have h2 : ¬ s.maxvalue < w := by omega
        simp only [if_pos h1, if_neg h2]
        refine ⟨by omega, hw0, fun k hk => ?_, by omega, b2, b3⟩
        have := hall k hk
        omega
      · by_cases h2 : s.maxvalue < w
        · simp only [if_neg h1, if_pos h2]
          refine ⟨by omega, a2, a3, by omega, hw0, fun k hk => ?_⟩
          have := hall k hk
          omega
        · simp only [if_neg h1, if_neg h2]
          exact ⟨by omega, a2, a3, by omega, b2, b3⟩

theorem minMaxRow_inv (file : List Byte) (y n : ℕ) :
    ∀ (x : ℕ) (s : MinMax), x + n ≤ 320 → 2 * (y * 320 + x + n) ≤ file.length →
      ScanInv file (y * 320 + x) s →
      ∃ s1, minMaxRow y n x (file.drop (2 * (y * 320 + x))) s =
          some (s1, file.drop (2 * (y * 320 + x + n))) ∧
        ScanInv file (y * 320 + x + n) s1 := by
  induction n with
  | zero =>
    intro x s _ _ h
    exact ⟨s, by rw [Nat.add_zero, minMaxRow], by rw [Nat.add_zero]; exact h⟩
  | succ n ih =>
    intro x s hx hlen h
    have hread := readUint16_drop file (y * 320 + x) (by omega)
    have hstep := scanInv_step file x y _ s (by omega) rfl h
    have e1 : y * 320 + x + 1 = y * 320 + (x + 1) := by omega
    have e2 : y * 320 + x + (n + 1) = y * 320 + (x + 1) + n := by omega
    rw [e1] at hstep hread
    obtain ⟨s1, hs1, hinv⟩ := ih (x + 1) _ (by omega) (by omega) hstep
    refine ⟨s1, ?_, by rw [e2]; exact hinv⟩
    rw [minMaxRow, hread, e2]
    exact hs1

theorem minMaxRows_inv (file : List Byte) (n : ℕ) :
    ∀ (y : ℕ) (s : MinMax), 2 * ((y + n) * 320) ≤ file.length →
      ScanInv file (y * 320) s →
      ∃ s1, minMaxRows n y (file.drop (2 * (y * 320))) s =
          some (s1, file.drop (2 * ((y + n) * 320))) ∧
        ScanInv file ((y + n) * 320) s1 := by
  induction n with
  | zero =>
    intro y s _ h
    exact ⟨s, by rw [Nat.add_zero, minMaxRows], by rw [Nat.add_zero]; exact h⟩
  | succ n ih =>
    intro y s hlen h
    obtain ⟨s1, hs1, hinv1⟩ := minMaxRow_inv file y 320 0 s (by omega) (by omega)
      (by simpa using h)
    have e1 : y * 320 + 0 + 320 = (y + 1) * 320 := by omega
    have e0 : y * 320 + 0 = y * 320 := by omega
    rw [e1] at hs1 hinv1
    rw [e0] at hs1
    have e2 : (y + (n + 1)) * 320 = (y + 1 + n) * 320 := by ring
    obtain ⟨s2, hs2, hinv2⟩ := ih (y + 1) s1 (by rw [← e2]; exact hlen) hinv1
    refine ⟨s2, ?_, by rw [e2]; exact hinv2⟩
    rw [minMaxRows, hs1, e2]
    exact hs2

/-- The min/max pass on a file that holds the 320x240 samples: it succeeds, and its result
satisfies the invariant for all 76800 samples. -/
theorem minMaxScan_inv (file : List Byte) (h : 153600 ≤ file.length) :
    ∃ mm, minMaxScan file = some mm ∧ ScanInv file 76800 mm := by
  obtain ⟨s1, hs1, hinv⟩ := minMaxRows_inv file 240 0 MinMax.init (by omega)
    (by simpa using scanInv_init file)
  refine ⟨s1, ?_, by simpa using hinv⟩
  have e : file.drop (2 * (0 * 320)) = file := by simp
  rw [e] at hs1
  rw [minMaxScan, hs1]
  rfl

/-- C17: for every 320x240 frame of raw counts, after the min/max pass `minvalue` is the
minimum and `maxvalue` the maximum of all 76800 samples, and the two marker points are the
coordinates of the first sample in row-major order that holds the minimum, respectively the
maximum; in particular, when every sample is 65535 (every sample is 0) the comparison
against the initial 65535 (0) never fires and the min (max) point stays (0,0). -/
theorem minMaxScan_first_extremes (file : List Byte) (hlen : 153600 ≤ file.length) :
    ∃ mm, minMaxScan file = some mm ∧
      (∀ k, k < 76800 → mm.minvalue ≤ sampleAt file k ∧ sampleAt file k ≤ mm.maxvalue) ∧
      mm.mintemppointx < 320 ∧ mm.mintemppointy < 240 ∧
      sampleAt file (mm.mintemppointy * 320 + mm.mintemppointx) = mm.minvalue ∧
      (∀ k, k < mm.mintemppointy * 320 + mm.mintemppointx →
        sampleAt file k ≠ mm.minvalue) ∧
      mm.maxtemppointx < 320 ∧ mm.maxtemppointy < 240 ∧
      sampleAt file (mm.maxtemppointy * 320 + mm.maxtemppointx) = mm.maxvalue ∧
      (∀ k, k < mm.maxtemppointy * 320 + mm.maxtemppointx →
        sampleAt file k ≠ mm.maxvalue) ∧
      ((∀ k, k < 76800 → sampleAt file k = 65535) →
        mm.minvalue = 65535 ∧ mm.mintemppointx = 0 ∧ mm.mintemppointy = 0) ∧
      ((∀ k, k < 76800 → sampleAt file k = 0) →
        mm.maxvalue = 0 ∧ mm.maxtemppointx = 0 ∧ mm.maxtemppointy = 0) := by
  obtain ⟨mm, hmm, hall, hminx, hmaxx, -, hpos⟩ := minMaxScan_inv file hlen
  obtain ⟨a1, a2, a3, b1, b2, b3⟩ := hpos (by norm_num)
  refine ⟨mm, hmm, hall, hminx, by omega, a2, fun k hk => ?_, hmaxx, by omega, b2,
    fun k hk => ?_, fun hc => ?_, fun hc => ?_⟩
  · have := a3 k hk; omega
  · have := b3 k hk; omega
  · have h0 := hc _ a1
    rw [a2] at h0
    have hp : mm.mintemppointy * 320 + mm.mintemppointx = 0 := by
      by_contra hne
      have := a3 0 (by omega)
      have := hc 0 (by norm_num)
      omega
    exact ⟨h0, by omega, by omega⟩
  · have h0 := hc _ b1
    rw [b2] at h0
    have hp : mm.maxtemppointy * 320 + mm.maxtemppointx = 0 := by
      by_contra hne
      have := b3 0 (by omega)
      have := hc 0 (by norm_num)
      omega
    exact ⟨h0, by omega, by omega⟩

/-- C17, at a concrete frame: 153600 zero bytes. -/
theorem minMaxScan_first_extremes_witness :
    ∃ mm, minMaxScan (List.replicate 153600 (0 : Byte)) = some mm ∧
      (∀ k, k < 76800 → mm.minvalue ≤ sampleAt (List.replicate 153600 (0 : Byte)) k ∧
        sampleAt (List.replicate 153600 (0 : Byte)) k ≤ mm.maxvalue) ∧
      mm.mintemppointx < 320 ∧ mm.mintemppointy < 240 := by
  obtain ⟨mm, h1, h2, h3, h4, -⟩ :=
    minMaxScan_first_extremes (List.replicate 153600 (0 : Byte))
      (by rw [List.length_replicate])
  exact ⟨mm, h1, h2, h3, h4⟩

/-! ## The pixel pass and the legend pass -/

set_option maxRecDepth 100000 in
theorem ironpalette_length : ironpalette.length = 433 := rfl

theorem paletteAt_some (i : ℤ) (h0 : 0 ≤ i) (h1 : i ≤ 432) : ∃ c, paletteAt i = some c := by
  have hlt : i.toNat < ironpalette.length := by
    rw [ironpalette_length]; omega
  exact ⟨ironpalette[i.toNat], by rw [paletteAt, if_pos h0, List.getElem?_eq_getElem hlt]⟩

theorem paletteAt_none (i : ℤ) (h : i < 0) : paletteAt i = none := by
  rw [paletteAt, if_neg (by omega)]

/-- The legend pass never fails: all of its 221 lookups are in bounds. -/
theorem legendLines_ok (n : ℕ) :
    ∀ y, y + n ≤ 221 → ∃ l, legendLines n y = .ok l ∧ l.length = n := by
  induction n with
  | zero => intro y _; exact ⟨[], by rw [legendLines], rfl⟩
  | succ n ih =>
    intro y hy
    have hidx := legendIndex_eq ℝ y (by omega)
    have hy1 : (y : ℤ) ≤ 220 := by exact_mod_cast (by omega : y ≤ 220)
    have hy0 : (0 : ℤ) ≤ (y : ℤ) := Int.natCast_nonneg y
    obtain ⟨c, hc⟩ := paletteAt_some (legendIndex ℝ y) (by rw [hidx]; omega)
      (by rw [hidx]; omega)
    obtain ⟨l, hl, hlen⟩ := ih (y + 1) (by omega)
    exact ⟨c :: l, by rw [legendLines, hc]; simp only; rw [hl], by simp [hlen]⟩

/-- A row of the pixel pass succeeds when the file holds its samples and each of them gets
a palette index in [0,432]. -/
theorem pixelRow_ok (scale bias bg e smin smax : ℝ) (file : List Byte)
    (hidx : ∀ k, k < 76800 → ∃ ci,
      pixelIndexOf smin smax (temperatureOf scale bias (sampleAt file k) bg e) = some ci ∧
        0 ≤ ci ∧ ci ≤ 432) (n : ℕ) :
    ∀ m, m + n ≤ 76800 → 2 * (m + n) ≤ file.length →
      ∃ row, pixelRow scale bias bg e smin smax n (file.drop (2 * m)) =
        .ok (row, file.drop (2 * (m + n))) := by
  induction n with
  | zero => intro m _ _; exact ⟨[], by rw [Nat.add_zero, pixelRow]⟩
  | succ n ih =>
    intro m hm hlen
    have hread := readUint16_drop file m (by omega)
    obtain ⟨ci, hci, h0, h1⟩ := hidx m (by omega)
    obtain ⟨c, hc⟩ := paletteAt_some ci h0 h1
    obtain ⟨row, hrow⟩ := ih (m + 1) (by omega) (by omega)
    have e2 : m + (n + 1) = m + 1 + n := by omega
    refine ⟨c :: row, ?_⟩
    rw [pixelRow, hread]
    simp only
    rw [hci]
    simp only
    rw [hc]
    simp only
    rw [hrow, e2]

theorem pixelRows_ok (scale bias bg e smin smax : ℝ) (file : List Byte)
    (hidx : ∀ k, k < 76800 → ∃ ci,
      pixelIndexOf smin smax (temperatureOf scale bias (sampleAt file k) bg e) = some ci ∧
        0 ≤ ci ∧ ci ≤ 432) (n : ℕ) :
    ∀ y, y + n ≤ 240 → 2 * ((y + n) * 320) ≤ file.length →
      ∃ rows, pixelRows scale bias bg e smin smax n (file.drop (2 * (y * 320))) =
        .ok rows := by
  induction n with
  | zero => intro y _ _; exact ⟨[], by rw [pixelRows]⟩
  | succ n ih =>
    intro y hy hlen
    obtain ⟨row, hrow⟩ := pixelRow_ok scale bias bg e smin smax file hidx 320 (y * 320)
      (by omega) (by omega)
    have e1 : y * 320 + 320 = (y + 1) * 320 := by omega
    rw [e1] at hrow
    obtain ⟨rows, hrows⟩ := ih (y + 1) (by omega) (by
      have : (y + 1 + n) * 320 = (y + (n + 1)) * 320 := by ring
      rw [this]; exact hlen)
    refine ⟨row :: rows, ?_⟩
    rw [pixelRows, hrow]
    simp only
    rw [hrows]

/-- An IR decode on a file that holds the 320x240 samples finishes when every sample gets a
palette index in [0,432] under the scale of the header. -/
theorem decodeIR_ok (scale bias : ℝ) (offset : ℕ) (file : List Byte)
    (bg e mintemp maxtemp : ℝ) (hlen : 153600 ≤ (file.drop offset).length) (h : IRHeader)
    (hh : irHeader scale bias offset file bg e mintemp maxtemp = some h)
    (hidx : ∀ k, k < 76800 → ∃ ci,
      pixelIndexOf h.mintemperaturescale h.maxtemperaturescale
        (temperatureOf scale bias (sampleAt (file.drop offset) k) bg e) = some ci ∧
        0 ≤ ci ∧ ci ≤ 432) :
    ∃ img, decodeIR scale bias offset file bg e mintemp maxtemp = .ok img ∧
      img.header = h ∧ img.legend.length = 221 := by
  obtain ⟨rows, hrows⟩ := pixelRows_ok scale bias bg e h.mintemperaturescale
    h.maxtemperaturescale (file.drop offset) hidx 240 0 (by omega) (by omega)
  have e0 : (file.drop offset).drop (2 * (0 * 320)) = file.drop offset := by simp
  rw [e0] at hrows
  obtain ⟨l, hl, hlen1⟩ := legendLines_ok 221 0 (by omega)
  refine ⟨⟨h, rows, l, legendTicks h.mintemperaturescale h.maxtemperaturescale⟩, ?_, rfl,
    hlen1⟩
  rw [decodeIR, hh]
  simp only
  rw [hrows]
  simp only
  rw [hl]

theorem pixelIndex_at_min {K : Type} [LinearOrderedField K] [FloorRing K] (smin step : K) :
    pixelIndex smin step smin = 0 := by
  have h0 : AbsFloat64 (smin - smin) * step = 0 := by
    unfold AbsFloat64
    simp
  rw [pixelIndex]
  simp only [h0]
  rw [if_neg (by norm_num), floatToInt, if_pos (le_refl _), Int.floor_zero]

theorem pixelIndex_at_max {K : Type} [LinearOrderedField K] [FloorRing K] (smin smax : K)
    (h : smin < smax) : pixelIndex smin (colorstepOf smin smax) smax = 432 := by
  have hne : smax - smin ≠ 0 := by
    have : 0 < smax - smin := by linarith
    exact ne_of_gt this
  have h0 : AbsFloat64 (smin - smax) * colorstepOf smin smax = 433 := by
    unfold AbsFloat64 colorstepOf
    rw [if_pos (by linarith)]
    field_simp
  rw [pixelIndex]
  simp only [h0]
  rw [if_pos (by norm_num), floatToInt, if_pos (by norm_num)]
  have : ((432 : ℤ) : K) = 432 := by norm_num
  rw [← this, Int.floor_intCast]

/-- The float64 `AbsFloat64(mintemperaturescale-temperature)` for a finite scale minimum:
`+Inf`, or the finite absolute value. -/
theorem F64.abs_sub_cases (smin t : ℝ) :
    (F64.sub (.fin smin) (F64.ofReal t)).abs = .posInf ∨
      (F64.sub (.fin smin) (F64.ofReal t)).abs = .fin (AbsFloat64 (smin - t)) := by
  unfold F64.ofReal
  by_cases h1 : maxFloat64 < t
  · left; simp [h1, F64.sub, F64.abs]
  · by_cases h2 : t < -maxFloat64
    · left; simp [h1, h2, F64.sub, F64.abs]
    · simp only [h1, h2, if_false, F64.sub]
      unfold F64.ofReal
      by_cases h3 : maxFloat64 < smin - t
      · left; simp [h3, F64.abs]
      · by_cases h4 : smin - t < -maxFloat64
        · left; simp [h3, h4, F64.abs]
        · right; simp [h3, h4, F64.abs]

/-- For a finite scale with `smin < smax` and a finite `colorstep`, every temperature,
finite or not, gets an index in [0,432]. -/
theorem pixelIndexOf_bounds (smin smax : ℝ) (hlt : smin < smax) (h1 : -maxFloat64 ≤ smin)
    (h2 : smax ≤ maxFloat64) (h3 : smax - smin ≤ maxFloat64)
    (h4 : 433 / (smax - smin) ≤ maxFloat64) (t : ℝ) :
    ∃ i, pixelIndexOf smin smax t = some i ∧ 0 ≤ i ∧ i ≤ 432 := by
  have hM := maxFloat64_large
  have h64 : (0 : ℝ) < 2 ^ 64 := by norm_num
  have hr : 0 < smax - smin := by linarith
  have hs : 0 < 433 / (smax - smin) := div_pos (by norm_num) hr
  have e1 : F64.ofReal smin = .fin smin := F64.ofReal_fin _ h1 (by linarith)
  have e2 : F64.ofReal smax = .fin smax := F64.ofReal_fin _ (by linarith) h2
  have e3 : F64.ofReal (smax - smin) = .fin (smax - smin) :=
    F64.ofReal_fin _ (by linarith) h3
  have e4 : F64.ofReal (433 / (smax - smin)) = .fin (433 / (smax - smin)) :=
    F64.ofReal_fin _ (by linarith) h4
  have hstep : F64.div (.fin 433) (F64.sub (F64.ofReal smax) (F64.ofReal smin)) =
      .fin (433 / (smax - smin)) := by
    rw [e1, e2, F64.sub, e3, F64.div, if_neg (ne_of_gt hr), e4]
  unfold pixelIndexOf
  simp only [hstep]
  rw [e1]
  rcases F64.abs_sub_cases smin t with h | h
  · rw [h]
    simp only [F64.mul, F64.infTimes, if_pos hs, if_true]
    exact ⟨432, F64.index_posInf, by norm_num, by norm_num⟩
  · rw [h]
    simp only [F64.mul]
    have hnn : 0 ≤ AbsFloat64 (smin - t) * (433 / (smax - smin)) :=
      mul_nonneg (AbsFloat64_nonneg _) hs.le
    exact F64.index_of_nonneg _ _ hnn (F64.ofReal_nonneg _ hnn)

/-- Under the same conditions a pixel of the temperature `smin` gets the index 0. -/
theorem pixelIndexOf_at_min (smin smax : ℝ) (hlt : smin < smax) (h1 : -maxFloat64 ≤ smin)
    (h2 : smax ≤ maxFloat64) (h3 : smax - smin ≤ maxFloat64)
    (h4 : 433 / (smax - smin) ≤ maxFloat64) : pixelIndexOf smin smax smin = some 0 := by
  have hM := maxFloat64_large
  have h64 : (0 : ℝ) < 2 ^ 64 := by norm_num
  have hr : 0 < smax - smin := by linarith
  have hs : 0 < 433 / (smax - smin) := div_pos (by norm_num) hr
  have hfin : pixelIndexOf smin smax smin =
      some (pixelIndex smin (colorstepOf smin smax) smin) := by
    have ha : AbsFloat64 (smin - smin) = 0 := by unfold AbsFloat64; simp
    apply pixelIndexOf_finite smin smax smin ⟨h1, by linarith⟩ ⟨by linarith, h2⟩
      ⟨h1, by linarith⟩ ⟨by linarith, h3⟩ (ne_of_gt hr) ⟨by linarith, h4⟩
    · rw [sub_self]; exact ⟨by linarith, by linarith⟩
    · rw [ha, zero_mul]; exact ⟨by linarith, by linarith⟩
    · rw [ha, zero_mul]
      have : (0 : ℝ) < 2 ^ 63 := by norm_num
      linarith
  rw [hfin, pixelIndex_at_min]

/-- Under the same conditions a pixel of the temperature `smax` gets the index 432. -/
theorem pixelIndexOf_at_max (smin smax : ℝ) (hlt : smin < smax) (h1 : -maxFloat64 ≤ smin)
    (h2 : smax ≤ maxFloat64) (h3 : smax - smin ≤ maxFloat64)
    (h4 : 433 / (smax - smin) ≤ maxFloat64) : pixelIndexOf smin smax smax = some 432 := by
  have hM := maxFloat64_large
  have h64 : (0 : ℝ) < 2 ^ 64 := by norm_num
  have hr : 0 < smax - smin := by linarith
  have hs : 0 < 433 / (smax - smin) := div_pos (by norm_num) hr
  have ha : AbsFloat64 (smin - smax) = smax - smin := by
    unfold AbsFloat64
    rw [if_pos (by linarith)]
    ring
  have hp : AbsFloat64 (smin - smax) * (433 / (smax - smin)) = 433 := by
    rw [ha]
    field_simp
  have hfin : pixelIndexOf smin smax smax =
      some (pixelIndex smin (colorstepOf smin smax) smax) := by
    apply pixelIndexOf_finite smin smax smax ⟨h1, by linarith⟩ ⟨by linarith, h2⟩
      ⟨by linarith, h2⟩ ⟨by linarith, h3⟩ (ne_of_gt hr) ⟨by linarith, h4⟩
    · exact ⟨by linarith, by linarith⟩
    · rw [hp]; exact ⟨by linarith, by linarith⟩
    · rw [hp]
      have : (0 : ℝ) < 2 ^ 63 := by norm_num
      linarith
  rw [hfin, pixelIndex_at_max smin smax hlt]

theorem temperatureOf_ge (scale bias : ℝ) (w : ℕ) (bg e : ℝ) :
    -30 ≤ temperatureOf scale bias w bg e := by
  rw [temperatureOf, raypower2degrees_eq, specTemperature]
  exact le_max_left _ _

/-- Automatic scale with distinct observed temperatures, for a calibration that keeps
`uint16(w*scale+bias)` from wrapping, when the observed max temperature, the range and
`colorstep` are finite float64 values: every pixel temperature lies between the observed
ones, every palette index is in [0,432], a pixel with the minimum raw count gets index 0 and
one with the maximum raw count gets index 432; the decode finishes. -/
theorem autoScale_pixels (scale bias : ℝ) (hs : 0 ≤ scale) (hb : 0 ≤ bias)
    (hmax : 65535 * scale + bias < 65536) (offset : ℕ) (file : List Byte) (bg e : ℝ)
    (he : 0 < e) (hlen : 153600 ≤ (file.drop offset).length) (h : IRHeader)
    (hh : irHeader scale bias offset file bg e 0 0 = some h)
    (hlt : h.mintemperature < h.maxtemperature)
    (hfin : h.maxtemperature ≤ maxFloat64)
    (hrange : h.maxtemperature - h.mintemperature ≤ maxFloat64)
    (hstep : 433 / (h.maxtemperature - h.mintemperature) ≤ maxFloat64) :
    (∀ k, k < 76800 →
      h.mintemperature ≤ temperatureOf scale bias (sampleAt (file.drop offset) k) bg e ∧
      temperatureOf scale bias (sampleAt (file.drop offset) k) bg e ≤ h.maxtemperature ∧
      ∃ ci, pixelIndexOf h.mintemperaturescale h.maxtemperaturescale
          (temperatureOf scale bias (sampleAt (file.drop offset) k) bg e) = some ci ∧
        0 ≤ ci ∧ ci ≤ 432 ∧
        (sampleAt (file.drop offset) k = h.minmax.minvalue → ci = 0) ∧
        (sampleAt (file.drop offset) k = h.minmax.maxvalue → ci = 432)) ∧
    ∃ img, decodeIR scale bias offset file bg e 0 0 = .ok img ∧ img.header = h := by
  obtain ⟨h1, hh1, hscan, ht1, ht2, hauto, -, -⟩ :=
    irHeader_spec scale bias offset file bg e 0 0 hlen
  have heq : h1 = h := by
    rw [hh1] at hh
    exact Option.some.inj hh
  subst heq
  obtain ⟨hs1, hs2⟩ := hauto ⟨rfl, rfl⟩
  obtain ⟨mm, hmm, hall, -, -, -, hpos⟩ := minMaxScan_inv (file.drop offset) hlen
  have hmmeq : mm = h1.minmax := by
    rw [hmm] at hscan
    exact Option.some.inj hscan
  subst hmmeq
  obtain ⟨-, -, -, b1, b2, -⟩ := hpos (by norm_num)
  have hmaxle : h1.minmax.maxvalue ≤ 65535 := by rw [← b2]; exact sampleAt_le _ _
  have hM := maxFloat64_large
  have hminge : -maxFloat64 ≤ h1.mintemperature := by
    have := temperatureOf_ge scale bias h1.minmax.minvalue bg e
    rw [← ht1] at this
    have h64 : (30 : ℝ) < 2 ^ 64 := by norm_num
    linarith
  have key : ∀ k, k < 76800 →
      h1.mintemperature ≤ temperatureOf scale bias (sampleAt (file.drop offset) k) bg e ∧
      temperatureOf scale bias (sampleAt (file.drop offset) k) bg e ≤ h1.maxtemperature ∧
      ∃ ci, pixelIndexOf h1.mintemperaturescale h1.maxtemperaturescale
          (temperatureOf scale bias (sampleAt (file.drop offset) k) bg e) = some ci ∧
        0 ≤ ci ∧ ci ≤ 432 ∧
        (sampleAt (file.drop offset) k = h1.minmax.minvalue → ci = 0) ∧
        (sampleAt (file.drop offset) k = h1.minmax.maxvalue → ci = 432) := by
    intro k hk
    obtain ⟨hlo, hhi⟩ := hall k hk
    obtain ⟨ci, hci, c0, c1⟩ := pixelIndexOf_bounds h1.mintemperature h1.maxtemperature hlt
      hminge hfin hrange hstep
      (temperatureOf scale bias (sampleAt (file.drop offset) k) bg e)
    refine ⟨?_, ?_, ci, by rw [hs1, hs2]; exact hci, c0, c1, ?_, ?_⟩
    · rw [ht1]
      exact temperatureOf_mono scale bias hs hb hmax bg e he _ _ hlo (sampleAt_le _ _)
    · rw [ht2]
      exact temperatureOf_mono scale bias hs hb hmax bg e he _ _ hhi hmaxle
    · intro hk1
      rw [hk1, ← ht1, pixelIndexOf_at_min _ _ hlt hminge hfin hrange hstep] at hci
      exact (Option.some.inj hci).symm
    · intro hk1
      rw [hk1, ← ht2, pixelIndexOf_at_max _ _ hlt hminge hfin hrange hstep] at hci
      exact (Option.some.inj hci).symm
  refine ⟨key, ?_⟩
  obtain ⟨img, himg, hhd, -⟩ := decodeIR_ok scale bias offset file bg e 0 0 hlen h1 hh1
    (fun k hk => by
      obtain ⟨-, -, ci, c1, c2, c3, -⟩ := key k hk
      exact ⟨ci, c1, c2, c3⟩)
  exact ⟨img, himg, hhd⟩

/-- Automatic scale mode when nothing overflows: the caller passes (0,0), for both decoders,
every emissivity in (0,1] and every frame whose observed min temperature is strictly below
its observed max temperature, where the max temperature, the range `max - min` and
`colorstep = 433/(max - min)` are finite float64 values. Then every pixel temperature lies in
[min temperature, max temperature], every palette index lies in [0,432] (so the decode
finishes without an out-of-range lookup), a pixel with the minimum raw count gets index 0
and a pixel with the maximum raw count gets index 432. -/
theorem autoScale_in_range (offset : ℕ) (file : List Byte) (bg e : ℝ) (he0 : 0 < e)
    (_he1 : e ≤ 1) (hlen : 153600 ≤ (file.drop offset).length) :
    (∀ h, irHeader 0.662 228 offset file bg e 0 0 = some h →
      h.mintemperature < h.maxtemperature →
      h.maxtemperature ≤ maxFloat64 →
      h.maxtemperature - h.mintemperature ≤ maxFloat64 →
      433 / (h.maxtemperature - h.mintemperature) ≤ maxFloat64 →
      (∀ k, k < 76800 →
        h.mintemperature ≤ temperatureOld (sampleAt (file.drop offset) k) bg e ∧
        temperatureOld (sampleAt (file.drop offset) k) bg e ≤ h.maxtemperature ∧
        ∃ ci, pixelIndexOf h.mintemperaturescale h.maxtemperaturescale
            (temperatureOld (sampleAt (file.drop offset) k) bg e) = some ci ∧
          0 ≤ ci ∧ ci ≤ 432 ∧
          (sampleAt (file.drop offset) k = h.minmax.minvalue → ci = 0) ∧
          (sampleAt (file.drop offset) k = h.minmax.maxvalue → ci = 432)) ∧
      ∃ img, decodeIS2IRBinaryData2JPG offset file bg e 0 0 = .ok img ∧ img.header = h) ∧
    (∀ h, irHeader 0.201 154.035 offset file bg e 0 0 = some h →
      h.mintemperature < h.maxtemperature →
      h.maxtemperature ≤ maxFloat64 →
      h.maxtemperature - h.mintemperature ≤ maxFloat64 →
      433 / (h.maxtemperature - h.mintemperature) ≤ maxFloat64 →
      (∀ k, k < 76800 →
        h.mintemperature ≤ temperatureNew (sampleAt (file.drop offset) k) bg e ∧
        temperatureNew (sampleAt (file.drop offset) k) bg e ≤ h.maxtemperature ∧
        ∃ ci, pixelIndexOf h.mintemperaturescale h.maxtemperaturescale
            (temperatureNew (sampleAt (file.drop offset) k) bg e) = some ci ∧
          0 ≤ ci ∧ ci ≤ 432 ∧
          (sampleAt (file.drop offset) k = h.minmax.minvalue → ci = 0) ∧
          (sampleAt (file.drop offset) k = h.minmax.maxvalue → ci = 432)) ∧
      ∃ img, decodeNEWIS2IRBinaryData2JPG offset file bg e 0 0 = .ok img ∧
        img.header = h) :=
  ⟨fun h hh hlt hfin hrange hstep =>
      autoScale_pixels 0.662 228 (by norm_num) (by norm_num) (by norm_num)
        offset file bg e he0 hlen h hh hlt hfin hrange hstep,
    fun h hh hlt hfin hrange hstep =>
      autoScale_pixels 0.201 154.035 (by norm_num) (by norm_num) (by norm_num)
        offset file bg e he0 hlen h hh hlt hfin hrange hstep⟩

theorem root_228_le : ((228 : ℝ) / (5.67e-8 * 2.4)) ^ ((1 : ℝ) / 4) ≤ 245.65 := by
  have hroot : ((245.65 : ℝ) ^ 4) ^ ((1 : ℝ) / 4) = 245.65 := by
    rw [← Real.rpow_natCast, ← Real.rpow_mul (by norm_num)]
    norm_num
  calc ((228 : ℝ) / (5.67e-8 * 2.4)) ^ ((1 : ℝ) / 4)
      ≤ ((245.65 : ℝ) ^ 4) ^ ((1 : ℝ) / 4) :=
        Real.rpow_le_rpow (by norm_num) (by norm_num) (by norm_num)
    _ = 245.65 := hroot

theorem root_43612_bounds :
    (700 : ℝ) ≤ ((43612 : ℝ) / (5.67e-8 * 2.4)) ^ ((1 : ℝ) / 4) ∧
    ((43612 : ℝ) / (5.67e-8 * 2.4)) ^ ((1 : ℝ) / 4) ≤ 1000 := by
  have hlo : ((700 : ℝ) ^ 4) ^ ((1 : ℝ) / 4) = 700 := by
    rw [← Real.rpow_natCast, ← Real.rpow_mul (by norm_num)]
    norm_num
  have hhi : ((1000 : ℝ) ^ 4) ^ ((1 : ℝ) / 4) = 1000 := by
    rw [← Real.rpow_natCast, ← Real.rpow_mul (by norm_num)]
    norm_num
  constructor
  · calc (700 : ℝ) = ((700 : ℝ) ^ 4) ^ ((1 : ℝ) / 4) := hlo.symm
      _ ≤ _ := Real.rpow_le_rpow (by positivity) (by norm_num) (by norm_num)
  · calc ((43612 : ℝ) / (5.67e-8 * 2.4)) ^ ((1 : ℝ) / 4)
        ≤ ((1000 : ℝ) ^ 4) ^ ((1 : ℝ) / 4) :=
          Real.rpow_le_rpow (by norm_num) (by norm_num) (by norm_num)
      _ = 1000 := hhi

theorem floor_adjusted_65535 : ⌊((65535 : ℕ) : ℝ) * 0.662 + 228⌋₊ = 43612 := by
  rw [Nat.floor_eq_iff (by norm_num)]
  constructor <;> norm_num

/-- The temperature of the raw count 65535 (old format, background 20) for an emissivity
`e` in (0,1]: the corrected value, which is not floored. -/
theorem temperatureOld_65535_eq (e : ℝ) (he : 0 < e) :
    temperatureOld 65535 20 e =
      (((43612 : ℝ) / (5.67e-8 * 2.4)) ^ ((1 : ℝ) / 4) - 273.15 - 20) / e + 20 := by
  rw [temperatureOld, temperatureOf_eq 0.662 228 (by norm_num) (by norm_num) (by norm_num)
    65535 (by norm_num), floor_adjusted_65535, specTemperature, specCorrected]
  push_cast
  apply max_eq_right
  have h := root_43612_bounds.1
  have : 0 ≤ (((43612 : ℝ) / (5.67e-8 * 2.4)) ^ ((1 : ℝ) / 4) - 273.15 - 20) / e :=
    div_nonneg (by linarith) he.le
  linarith

theorem temperatureOld_65535 : -30 < temperatureOld 65535 20 0.95 := by
  rw [temperatureOld_65535_eq 0.95 (by norm_num)]
  have h := root_43612_bounds.1
  have : 0 ≤ (((43612 : ℝ) / (5.67e-8 * 2.4)) ^ ((1 : ℝ) / 4) - 273.15 - 20) / 0.95 :=
    div_nonneg (by linarith) (by norm_num)
  linarith

theorem temperatureOld_65535_bounds :
    448 ≤ temperatureOld 65535 20 0.95 ∧ temperatureOld 65535 20 0.95 ≤ 765 := by
  rw [temperatureOld_65535_eq 0.95 (by norm_num)]
  obtain ⟨h1, h2⟩ := root_43612_bounds
  have e1 : ((700 : ℝ) - 273.15 - 20) / 0.95 ≤
      (((43612 : ℝ) / (5.67e-8 * 2.4)) ^ ((1 : ℝ) / 4) - 273.15 - 20) / 0.95 :=
    div_le_div_of_nonneg_right (by linarith) (by norm_num)
  have e2 : (((43612 : ℝ) / (5.67e-8 * 2.4)) ^ ((1 : ℝ) / 4) - 273.15 - 20) / 0.95 ≤
      ((1000 : ℝ) - 273.15 - 20) / 0.95 :=
    div_le_div_of_nonneg_right (by linarith) (by norm_num)
  have n1 : (448 : ℝ) - 20 ≤ ((700 : ℝ) - 273.15 - 20) / 0.95 := by norm_num
  have n2 : ((1000 : ℝ) - 273.15 - 20) / 0.95 ≤ 765 - 20 := by norm_num
  constructor <;> linarith

/-- With the emissivity 1e-306 the temperature of the raw count 65535 is beyond the largest
finite float64: the code holds `+Inf`. -/
theorem temperatureOld_65535_overflow : maxFloat64 < temperatureOld 65535 20 1e-306 := by
  rw [temperatureOld_65535_eq 1e-306 (by norm_num)]
  have h := root_43612_bounds.1
  have e1 : ((700 : ℝ) - 273.15 - 20) / 1e-306 ≤
      (((43612 : ℝ) / (5.67e-8 * 2.4)) ^ ((1 : ℝ) / 4) - 273.15 - 20) / 1e-306 :=
    div_le_div_of_nonneg_right (by linarith) (by norm_num)
  have n1 : maxFloat64 < ((700 : ℝ) - 273.15 - 20) / 1e-306 := by
    unfold maxFloat64
    norm_num
  linarith

/-- With the emissivity 1e-306 the temperature of the raw count 0 is floored at -30. -/
theorem temperatureOld_zero_tiny : temperatureOld 0 20 1e-306 = -30 := by
  have hfl : ⌊((0 : ℕ) : ℝ) * 0.662 + 228⌋₊ = 228 := by
    rw [Nat.floor_eq_iff (by norm_num)]
    constructor <;> norm_num
  have hX := root_228_le
  have hcorr : specCorrected 228 20 1e-306 ≤ -30 := by
    unfold specCorrected
    have h3 : (((228 : ℝ) / (5.67e-8 * 2.4)) ^ ((1 : ℝ) / 4) - 273.15 - 20) / 1e-306 ≤
        ((245.65 : ℝ) - 273.15 - 20) / 1e-306 :=
      div_le_div_of_nonneg_right (by linarith) (by norm_num)
    have h4 : ((245.65 : ℝ) - 273.15 - 20) / 1e-306 ≤ -50 := by norm_num
    linarith
  rw [temperatureOld, temperatureOf_eq 0.662 228 (by norm_num) (by norm_num) (by norm_num)
    0 (by norm_num), hfl, specTemperature]
  push_cast
  exact max_eq_left hcorr

theorem sampleAt_zero (a b : Byte) (rest : List Byte) :
    sampleAt (a :: b :: rest) 0 = a.val + 256 * b.val := rfl

theorem sampleAt_one (a b c d : Byte) (rest : List Byte) :
    sampleAt (a :: b :: c :: d :: rest) 1 = c.val + 256 * d.val := rfl

/-- The header of the frame whose first raw count is 0 and whose other raw counts are all
65535 (old format, automatic scale): the extreme raw counts and the observed
temperatures. -/
theorem hotFrame_header (bg e : ℝ) :
    ∃ h, irHeader 0.662 228 0 (0 :: 0 :: List.replicate 153598 (255 : Byte)) bg e 0 0
        = some h ∧
      h.minmax.minvalue = 0 ∧ h.minmax.maxvalue = 65535 ∧
      h.mintemperature = temperatureOld 0 bg e ∧
      h.maxtemperature = temperatureOld 65535 bg e ∧
      h.mintemperaturescale = h.mintemperature ∧
      h.maxtemperaturescale = h.maxtemperature := by
  have hlen : 153600 ≤ ((0 :: 0 :: List.replicate 153598 (255 : Byte)).drop 0).length := by
    rw [List.drop_zero, List.length_cons, List.length_cons, List.length_replicate]
  obtain ⟨h, hh, hscan, ht1, ht2, hauto, -, -⟩ :=
    irHeader_spec 0.662 228 0 (0 :: 0 :: List.replicate 153598 (255 : Byte)) bg e 0 0 hlen
  rw [List.drop_zero] at hscan hlen
  obtain ⟨mm, hmm, hall, -, -, -, hpos⟩ := minMaxScan_inv _ hlen
  have hmmeq : mm = h.minmax := by
    rw [hmm] at hscan
    exact Option.some.inj hscan
  subst hmmeq
  obtain ⟨-, -, -, b1, b2, -⟩ := hpos (by norm_num)
  have h0 := (hall 0 (by norm_num)).1
  rw [sampleAt_zero] at h0
  have hfile : (0 :: 0 :: List.replicate 153598 (255 : Byte)) =
      0 :: 0 :: 255 :: 255 :: List.replicate 153596 (255 : Byte) := rfl
  have h1 := (hall 1 (by norm_num)).2
  rw [hfile, sampleAt_one] at h1
  have hle : h.minmax.maxvalue ≤ 65535 := by rw [← b2]; exact sampleAt_le _ _
  have hmin : h.minmax.minvalue = 0 := by
    have : ((0 : Byte).val + 256 * (0 : Byte).val) = 0 := by decide
    omega
  have hmaxv : h.minmax.maxvalue = 65535 := by
    have : ((255 : Byte).val + 256 * (255 : Byte).val) = 65535 := by decide
    omega
  obtain ⟨hs1, hs2⟩ := hauto ⟨rfl, rfl⟩
  exact ⟨h, hh, hmin, hmaxv, by rw [ht1, hmin]; rfl, by rw [ht2, hmaxv]; rfl, hs1, hs2⟩

/-- A scale whose maximum has overflowed to `+Inf` over a finite minimum: `colorstep` is
`433/+Inf = 0`, a pixel of the minimum temperature gets index 0, and a pixel of the maximum
temperature has `ci = +Inf * 0`, a NaN, and no defined index. -/
theorem pixelIndexOf_overflow (smin smax : ℝ) (h1 : -maxFloat64 ≤ smin)
    (h2 : smin ≤ maxFloat64) (h3 : maxFloat64 < smax) :
    pixelIndexOf smin smax smax = none ∧ pixelIndexOf smin smax smin = some 0 := by
  have hM := maxFloat64_large
  have h64 : (0 : ℝ) < 2 ^ 64 := by norm_num
  have e1 : F64.ofReal smin = .fin smin := F64.ofReal_fin _ h1 h2
  have e2 : F64.ofReal smax = .posInf := F64.ofReal_posInf _ h3
  have e0 : F64.ofReal 0 = .fin 0 := F64.ofReal_fin _ (by linarith) (by linarith)
  constructor
  · simp [pixelIndexOf, e1, e2, F64.sub, F64.div, F64.abs, F64.mul, F64.infTimes,
      F64.clamp432, F64.toInt64]
  · have ha : AbsFloat64 (0 : ℝ) = 0 := by unfold AbsFloat64; simp
    have hidx := F64.index_fin 0 (by
      have : (0 : ℝ) < 2 ^ 63 := by norm_num
      linarith)
    rw [if_neg (by norm_num), floatToInt, if_pos (le_refl _), Int.floor_zero] at hidx
    simp only [pixelIndexOf, e1, e2, F64.sub, F64.div, F64.abs, F64.mul, sub_self, e0, ha,
      mul_zero]
    exact hidx

theorem pixelRows_second_nan (scale bias bg e smin smax : ℝ) (file : List Byte)
    (hlen : 4 ≤ file.length) (i : ℤ)
    (h0 : pixelIndexOf smin smax (temperatureOf scale bias (sampleAt file 0) bg e) = some i)
    (hi0 : 0 ≤ i) (hi1 : i ≤ 432)
    (h1 : pixelIndexOf smin smax (temperatureOf scale bias (sampleAt file 1) bg e) = none)
    (n : ℕ) : pixelRows scale bias bg e smin smax (n + 1) file = .error .nanIndex := by
  have hread0 := readUint16_drop file 0 (by omega)
  rw [Nat.mul_zero, List.drop_zero] at hread0
  have hread1 := readUint16_drop file 1 (by omega)
  obtain ⟨c, hc⟩ := paletteAt_some i hi0 hi1
  have hrow1 : pixelRow scale bias bg e smin smax (318 + 1) (file.drop (2 * (0 + 1))) =
      .error .nanIndex := by
    rw [pixelRow, hread1]
    simp only
    rw [h1]
  have hrow : pixelRow scale bias bg e smin smax (319 + 1) file = .error .nanIndex := by
    rw [pixelRow, hread0]
    simp only
    rw [h0]
    simp only
    rw [hc]
    simp only
    rw [hrow1]
  rw [pixelRows, hrow]

/-- C18 (where the code departs from the claim): an old-format frame whose first raw count
is 0 and whose other raw counts are 65535, decoded with background 20, automatic scale and
the emissivity 1e-306, which lies in (0,1]. The observed min temperature is -30 and lies
below the observed max temperature, which is beyond the largest finite float64, so that the
code holds `+Inf`, `colorstep` is 0, and the second pixel, which has the maximum raw count,
has the NaN `ci = +Inf * 0`. The test `ci > 432` is false for a NaN, so the index is not 432
but is left to the implementation by `int64(ci)`, and the decode does not finish with a
picture. -/
theorem autoScale_tiny_emissivity_nan :
    (0 : ℝ) < 1e-306 ∧ (1e-306 : ℝ) ≤ 1 ∧
    ∃ h, irHeader 0.662 228 0 (0 :: 0 :: List.replicate 153598 (255 : Byte)) 20 1e-306 0 0
        = some h ∧
      h.mintemperature < h.maxtemperature ∧
      maxFloat64 < h.maxtemperature ∧
      sampleAt ((0 :: 0 :: List.replicate 153598 (255 : Byte)).drop 0) 1
        = h.minmax.maxvalue ∧
      pixelIndexOf h.mintemperaturescale h.maxtemperaturescale
        (temperatureOld
          (sampleAt ((0 :: 0 :: List.replicate 153598 (255 : Byte)).drop 0) 1) 20 1e-306)
        = none ∧
      decodeIS2IRBinaryData2JPG 0 (0 :: 0 :: List.replicate 153598 (255 : Byte)) 20 1e-306
        0 0 = .error .nanIndex := by
  refine ⟨by norm_num, by norm_num, ?_⟩
  obtain ⟨h, hh, -, hmaxv, ht1, ht2, hs1, hs2⟩ := hotFrame_header 20 1e-306
  have hM := maxFloat64_large
  have h64 : (2 : ℝ) ^ 64 = 18446744073709551616 := by norm_num
  have hmin : h.mintemperature = -30 := by rw [ht1]; exact temperatureOld_zero_tiny
  have hover : maxFloat64 < h.maxtemperature := by
    rw [ht2]; exact temperatureOld_65535_overflow
  have hfile : (0 :: 0 :: List.replicate 153598 (255 : Byte)) =
      0 :: 0 :: 255 :: 255 :: List.replicate 153596 (255 : Byte) := rfl
  have hs0 : sampleAt (0 :: 0 :: List.replicate 153598 (255 : Byte)) 0 = 0 := by
    rw [sampleAt_zero]; decide
  have hs1' : sampleAt (0 :: 0 :: List.replicate 153598 (255 : Byte)) 1 = 65535 := by
    rw [hfile, sampleAt_one]; decide
  obtain ⟨hnone, hzero⟩ := pixelIndexOf_overflow h.mintemperature h.maxtemperature
    (by rw [hmin]; linarith) (by rw [hmin]; linarith) hover
  have hidx1 : pixelIndexOf h.mintemperaturescale h.maxtemperaturescale
      (temperatureOld (sampleAt (0 :: 0 :: List.replicate 153598 (255 : Byte)) 1) 20 1e-306)
      = none := by
    rw [hs1', hs1, hs2, ← ht2]; exact hnone
  have hidx0 : pixelIndexOf h.mintemperaturescale h.maxtemperaturescale
      (temperatureOld (sampleAt (0 :: 0 :: List.replicate 153598 (255 : Byte)) 0) 20 1e-306)
      = some 0 := by
    rw [hs0, hs1, hs2, ← ht1]; exact hzero
  refine ⟨h, hh, by rw [hmin]; linarith, hover, by rw [List.drop_zero, hs1', hmaxv], by
    rw [List.drop_zero]; exact hidx1, ?_⟩
  rw [decodeIS2IRBinaryData2JPG, decodeIR, hh]
  simp only
  rw [List.drop_zero]
  rw [pixelRows_second_nan 0.662 228 20 1e-306 _ _ _ (by
    rw [List.length_cons, List.length_cons, List.length_replicate]; norm_num) 0 hidx0
    (le_refl _) (by norm_num) hidx1]

/-- Automatic scale at a concrete frame of the old format: first raw count 0, all the others
65535, with background 20 and emissivity 0.95. -/
theorem autoScale_in_range_example :
    ∃ h, irHeader 0.662 228 0 (0 :: 0 :: List.replicate 153598 (255 : Byte)) 20 0.95 0 0
        = some h ∧
      h.mintemperature < h.maxtemperature ∧
      (∀ k, k < 76800 →
        h.mintemperature ≤ temperatureOld
          (sampleAt ((0 :: 0 :: List.replicate 153598 (255 : Byte)).drop 0) k) 20 0.95 ∧
        temperatureOld
          (sampleAt ((0 :: 0 :: List.replicate 153598 (255 : Byte)).drop 0) k) 20 0.95
            ≤ h.maxtemperature) := by
  obtain ⟨h, hh, -, -, ht1, ht2, -, -⟩ := hotFrame_header 20 0.95
  have hM := maxFloat64_large
  have h64 : (2 : ℝ) ^ 64 = 18446744073709551616 := by norm_num
  have hmin : h.mintemperature = -30 := by rw [ht1]; exact temperatureOld_zero
  obtain ⟨b1, b2⟩ := temperatureOld_65535_bounds
  rw [← ht2] at b1 b2
  have hlt : h.mintemperature < h.maxtemperature := by rw [hmin]; linarith
  have hfin : h.maxtemperature ≤ maxFloat64 := by linarith
  have hrange : h.maxtemperature - h.mintemperature ≤ maxFloat64 := by rw [hmin]; linarith
  have hstep : 433 / (h.maxtemperature - h.mintemperature) ≤ maxFloat64 := by
    have hpos : (0 : ℝ) < h.maxtemperature - h.mintemperature := by linarith
    have : 433 / (h.maxtemperature - h.mintemperature) ≤ 433 / 433 :=
      div_le_div_of_nonneg_left (by norm_num) (by norm_num) (by rw [hmin]; linarith)
    have e1 : (433 : ℝ) / 433 = 1 := by norm_num
    linarith
  obtain ⟨hk, -⟩ := (autoScale_in_range 0 (0 :: 0 :: List.replicate 153598 (255 : Byte))
    20 0.95 (by norm_num) (by norm_num)
    (by rw [List.drop_zero, List.length_cons, List.length_cons, List.length_replicate])).1
    h hh hlt hfin hrange hstep
  exact ⟨h, hh, hlt, fun k hk1 => ⟨(hk k hk1).1, (hk k hk1).2.1⟩⟩

/-! ## A frame of one raw count -/

theorem sampleAt_replicate (n k : ℕ) (b : Byte) (hk : 2 * k + 1 < n) :
    sampleAt (List.replicate n b) k = b.val + 256 * b.val := by
  have h0 : 2 * k < (List.replicate n b).length := by rw [List.length_replicate]; omega
  have h1 : 2 * k + 1 < (List.replicate n b).length := by rw [List.length_replicate]; omega
  rw [sampleAt, List.getD_eq_getElem _ _ h0, List.getD_eq_getElem _ _ h1,
    List.getElem_replicate, List.getElem_replicate]

theorem pixelRows_first_nan (scale bias bg e smin smax : ℝ) (file : List Byte)
    (hlen : 2 ≤ file.length)
    (hnan : pixelIndexOf smin smax (temperatureOf scale bias (sampleAt file 0) bg e) = none)
    (n : ℕ) : pixelRows scale bias bg e smin smax (n + 1) file = .error .nanIndex := by
  have hread := readUint16_drop file 0 (by omega)
  rw [Nat.mul_zero, List.drop_zero] at hread
  have hrow : pixelRow scale bias bg e smin smax (319 + 1) file = .error .nanIndex := by
    rw [pixelRow, hread]
    simp only
    rw [hnan]
  rw [pixelRows, hrow]

/-- A frame whose 76800 samples all hold the raw count `v`, decoded with automatic scale:
the observed min and max temperatures coincide, `colorstep` is `433/0`, and the first pixel
reaches `int64(ci)` with `ci` the NaN `0 * +Inf`. -/
theorem constantFrame_nanIndex (scale bias : ℝ) (offset : ℕ) (file : List Byte)
    (bg e : ℝ) (v : ℕ) (hlen : 153600 ≤ (file.drop offset).length)
    (hconst : ∀ k, k < 76800 → sampleAt (file.drop offset) k = v) :
    ∃ h, irHeader scale bias offset file bg e 0 0 = some h ∧
      h.minmax.minvalue = v ∧ h.minmax.maxvalue = v ∧
      h.mintemperature = h.maxtemperature ∧
      decodeIR scale bias offset file bg e 0 0 = .error .nanIndex := by
  obtain ⟨h, hh, hscan, ht1, ht2, hauto, -, -⟩ :=
    irHeader_spec scale bias offset file bg e 0 0 hlen
  obtain ⟨hs1, hs2⟩ := hauto ⟨rfl, rfl⟩
  obtain ⟨mm, hmm, -, -, -, -, hpos⟩ := minMaxScan_inv (file.drop offset) hlen
  have hmmeq : mm = h.minmax := by
    rw [hmm] at hscan
    exact Option.some.inj hscan
  subst hmmeq
  obtain ⟨a1, a2, -, b1, b2, -⟩ := hpos (by norm_num)
  have hmin : h.minmax.minvalue = v := by rw [← a2]; exact hconst _ a1
  have hmaxv : h.minmax.maxvalue = v := by rw [← b2]; exact hconst _ b1
  have hteq : h.mintemperature = h.maxtemperature := by rw [ht1, ht2, hmin, hmaxv]
  refine ⟨h, hh, hmin, hmaxv, hteq, ?_⟩
  have hnan : pixelIndexOf h.mintemperaturescale h.maxtemperaturescale
      (temperatureOf scale bias (sampleAt (file.drop offset) 0) bg e) = none := by
    rw [hconst 0 (by norm_num), hs1, hs2, ← hteq, ht1, hmin]
    exact pixelIndexOf_self _
  rw [decodeIR, hh]
  simp only
  rw [pixelRows_first_nan _ _ _ _ _ _ _ (by omega) hnan]

/-- C15 (where the code departs from the claim): an old-format frame whose samples are all
0, and one whose samples are all 65535, decoded with background 20, emissivity 0.95 and
automatic scale. The observed min and max temperatures are equal, so
`colorstep = 433/(max-min)` is `+Inf`, the first pixel has `ci = 0 * +Inf`, a NaN that passes
the check `ci > 432`, and the index `int64(ci)` is left to the implementation by Go: the
decode does not reach a palette lookup with a defined index. -/
theorem constantFrame_index_undefined :
    (∃ h, irHeader 0.662 228 0 (List.replicate 153600 (0 : Byte)) 20 0.95 0 0 = some h ∧
      h.minmax.minvalue = 0 ∧ h.minmax.maxvalue = 0 ∧
      h.mintemperature = h.maxtemperature) ∧
    decodeIS2IRBinaryData2JPG 0 (List.replicate 153600 (0 : Byte)) 20 0.95 0 0 =
      .error .nanIndex ∧
    (∃ h, irHeader 0.662 228 0 (List.replicate 153600 (255 : Byte)) 20 0.95 0 0 = some h ∧
      h.minmax.minvalue = 65535 ∧ h.minmax.maxvalue = 65535 ∧
      h.mintemperature = h.maxtemperature) ∧
    decodeIS2IRBinaryData2JPG 0 (List.replicate 153600 (255 : Byte)) 20 0.95 0 0 =
      .error .nanIndex := by
  have hlen : ∀ b : Byte, 153600 ≤ ((List.replicate 153600 b).drop 0).length := by
    intro b; rw [List.drop_zero, List.length_replicate]
  have hconst : ∀ b : Byte, ∀ k, k < 76800 →
      sampleAt ((List.replicate 153600 b).drop 0) k = b.val + 256 * b.val := by
    intro b k hk
    rw [List.drop_zero]
    exact sampleAt_replicate _ _ _ (by omega)
  obtain ⟨h0, a1, a2, a3, a4, a5⟩ := constantFrame_nanIndex 0.662 228 0
    (List.replicate 153600 (0 : Byte)) 20 0.95 _ (hlen 0) (hconst 0)
  obtain ⟨h1, b1, b2, b3, b4, b5⟩ := constantFrame_nanIndex 0.662 228 0
    (List.replicate 153600 (255 : Byte)) 20 0.95 _ (hlen 255) (hconst 255)
  exact ⟨⟨h0, a1, a2, a3, a4⟩, a5, ⟨h1, b1, b2, b3, b4⟩, b5⟩

/-! ## Legend axis -/

theorem tickLoop_pos {K : Type} [LinearOrderedField K] (smin step : K) (n i : ℕ)
    (hn : 0 < n) (hi : i < 224) :
    tickLoop smin step n i =
      (i, (step * ((((224 - (i : K)) - 24) / 25) + 1)) + smin) ::
        tickLoop smin step (n - 1) (i + 25) := by
  obtain ⟨m, rfl⟩ : ∃ m, n = m + 1 := ⟨n - 1, by omega⟩
  rw [tickLoop, if_pos hi]
  rfl

theorem tickLoop_stop {K : Type} [LinearOrderedField K] (smin step : K) (n i : ℕ)
    (hi : ¬ i < 224) : tickLoop smin step n i = [] := by
  cases n with
  | zero => rfl
  | succ m => rw [tickLoop, if_neg hi]

/-- The eight ticks of the legend axis, whatever the scale. -/
theorem legendTicks_eq (smin smax : ℝ) :
    legendTicks smin smax =
      [(24, smax - (24 / 225) * (smax - smin)), (49, smax - (49 / 225) * (smax - smin)),
       (74, smax - (74 / 225) * (smax - smin)), (99, smax - (99 / 225) * (smax - smin)),
       (124, smax - (124 / 225) * (smax - smin)), (149, smax - (149 / 225) * (smax - smin)),
       (174, smax - (174 / 225) * (smax - smin)),
       (199, smax - (199 / 225) * (smax - smin))] := by
  rw [legendTicks,
    tickLoop_pos _ _ 224 24 (by norm_num) (by norm_num),
    tickLoop_pos _ _ (224 - 1) (24 + 25) (by norm_num) (by norm_num),
    tickLoop_pos _ _ (224 - 1 - 1) (24 + 25 + 25) (by norm_num) (by norm_num),
    tickLoop_pos _ _ (224 - 1 - 1 - 1) (24 + 25 + 25 + 25) (by norm_num) (by norm_num),
    tickLoop_pos _ _ (224 - 1 - 1 - 1 - 1) (24 + 25 + 25 + 25 + 25) (by norm_num)
      (by norm_num),
    tickLoop_pos _ _ (224 - 1 - 1 - 1 - 1 - 1) (24 + 25 + 25 + 25 + 25 + 25) (by norm_num)
      (by norm_num),
    tickLoop_pos _ _ (224 - 1 - 1 - 1 - 1 - 1 - 1) (24 + 25 + 25 + 25 + 25 + 25 + 25)
      (by norm_num) (by norm_num),
    tickLoop_pos _ _ (224 - 1 - 1 - 1 - 1 - 1 - 1 - 1)
      (24 + 25 + 25 + 25 + 25 + 25 + 25 + 25) (by norm_num) (by norm_num),
    tickLoop_stop _ _ _ _ (by norm_num)]
  norm_num
  refine ⟨?_, ?_, ?_, ?_, ?_, ?_, ?_, ?_⟩ <;> ring

/-- C16, counterexample: with the scale (0, 225) the legend axis carries 8 interior ticks,
not 9, and the topmost one, at height 24, is labelled 201, which is not the value 207.4..
that linear interpolation between the tick lines `y = 8` and `y = 213` gives there. -/
theorem legendTicks_not_nine :
    (legendTicks (0 : ℝ) 225).length ≠ 9 ∧
    (legendTicks (0 : ℝ) 225).head? = some (24, 201) ∧
    specTickLabel (0 : ℝ) 225 24 ≠ 201 := by
  rw [legendTicks_eq]
  refine ⟨by simp, ?_, ?_⟩
  · simp only [List.head?_cons]
    norm_num
  · unfold specTickLabel
    norm_num

/-- C16, amended: the legend axis carries exactly 8 interior ticks, at the heights
24, 49, .., 199 (25 apart, between the max tick line `y = 8` and the min tick line
`y = 213`), and the label of the tick at height `i` is
`scaleMax - (i/225) * (scaleMax - scaleMin)`, the linear interpolation that takes `scaleMax`
at height 0 and `scaleMin` at height 225; it is handed to the `%.0f` format. -/
theorem legendTicks_spec (smin smax : ℝ) :
    legendTicks smin smax =
      List.map (fun i : ℕ => (i, smax - ((i : ℝ) / 225) * (smax - smin)))
        [24, 49, 74, 99, 124, 149, 174, 199] ∧
    (legendTicks smin smax).length = 8 := by
  rw [legendTicks_eq]
  refine ⟨?_, rfl⟩
  simp only [List.map_cons, List.map_nil, Nat.cast_ofNat]

/-- A finished IR decode carries the ticks of its own colour scale. -/
theorem decodeIR_ticks (scale bias : ℝ) (offset : ℕ) (file : List Byte)
    (bg e mintemp maxtemp : ℝ) (img : IRImage)
    (h : decodeIR scale bias offset file bg e mintemp maxtemp = .ok img) :
    img.ticks =
      legendTicks img.header.mintemperaturescale img.header.maxtemperaturescale := by
  rw [decodeIR] at h
  split at h
  · exact absurd h (by simp)
  · split at h
    · exact absurd h (by simp)
    · split at h
      · exact absurd h (by simp)
      · injection h with h
        rw [← h]

/-! ## Paths and extraction -/

theorem clean_examples :
    Clean "./temp_x".toList = "temp_x".toList ∧ Clean "".toList = ".".toList ∧
    Clean "a//b/./c/..".toList = "a/b".toList ∧ Clean "/../a".toList = "/a".toList ∧
    Clean "../../x".toList = "../../x".toList ∧
    Join "./temp_x".toList "Images/Main/IR.data".toList = "temp_x/Images/Main/IR.data".toList ∧
    Join "./temp_x".toList "../evil.txt".toList = "evil.txt".toList ∧
    Join "..".toList "../evil.txt".toList = "../../evil.txt".toList := by
  decide

theorem splitSlash_ne_nil (s : Path) : splitSlash s ≠ [] := by
  cases s with
  | nil => simp [splitSlash]
  | cons c cs =>
    rw [splitSlash]
    split_ifs
    · simp
    · split <;> simp

theorem splitSlash_append (a b : Path) :
    splitSlash (a ++ '/' :: b) = splitSlash a ++ splitSlash b := by
  induction a with
  | nil => simp [splitSlash]
  | cons c cs ih =>
    rw [List.cons_append, splitSlash, splitSlash, ih]
    split_ifs with hc
    · rfl
    · cases hcs : splitSlash cs with
      | nil => exact absurd hcs (splitSlash_ne_nil cs)
      | cons e es => rfl

theorem joinSlash_cons_cons (e e1 : Path) (es : List Path) :
    joinSlash (e :: e1 :: es) = e ++ '/' :: joinSlash (e1 :: es) := by
  rw [joinSlash]
  intro h
  exact absurd h (by simp)

theorem joinSlash_concat (l : List Path) (x : Path) :
    joinSlash (l ++ [x]) = (if l = [] then [] else joinSlash l ++ ['/']) ++ x := by
  induction l with
  | nil => simp [joinSlash]
  | cons e es ih =>
    cases es with
    | nil => simp [joinSlash]
    | cons e1 es1 =>
      have h1 : (e :: e1 :: es1) ++ [x] = e :: e1 :: (es1 ++ [x]) := rfl
      have h2 : (e1 :: es1) ++ [x] = e1 :: (es1 ++ [x]) := rfl
      rw [h1, joinSlash_cons_cons, ← h2, ih, joinSlash_cons_cons]
      simp

/-- The cleaned form of a path whose last kept element is `top`: a part that depends on the
elements before it only, followed by `top`. -/
theorem clean_of_stack (path : Path) (top : Path) (rest : List Path)
    (h : (splitSlash path).foldl (cleanStep (path.head? == some '/')) [] = top :: rest) :
    Clean path =
      ((if (path.head? == some '/') = true then ['/'] else []) ++
        (if rest.reverse = [] then [] else joinSlash rest.reverse ++ ['/'])) ++ top := by
  have hel : cleanElements path = rest.reverse ++ [top] := by
    rw [cleanElements, h, List.reverse_cons]
  rw [Clean, hel, joinSlash_concat]
  by_cases hr : (path.head? == some '/') = true
  · simp [hr]
  · simp [hr]

theorem not_slash_prefix_evil (top : Path) :
    ¬ (top ++ ['/']) <+: "evil.txt".toList := by
  intro h
  have hmem : '/' ∈ "evil.txt".toList := h.subset (by simp)
  exact absurd hmem (by decide)

theorem cleanStep_evil (rooted : Bool) (stack : List Path) :
    cleanStep rooted stack "evil.txt".toList = "evil.txt".toList :: stack := by
  unfold cleanStep
  rw [if_neg (by decide), if_neg (by decide)]

theorem cleanStep_dotdot_pop (rooted : Bool) (top : Path) (rest : List Path)
    (h : top ≠ ['.', '.']) : cleanStep rooted (top :: rest) ['.', '.'] = rest := by
  unfold cleanStep
  rw [if_neg (by decide), if_pos rfl]
  simp only [if_neg h]

/-- An entry named `../evil.txt` fails the check of `Unzip` for every destination whose
cleaned path does not end in a `..` element. -/
theorem evil_rejected (dest : Path)
    (hlast : (cleanElements dest).getLast? ≠ some ['.', '.']) :
    List.isPrefixOf (Clean dest ++ ['/']) (Join dest "../evil.txt".toList) = false := by
  cases dest with
  | nil => decide
  | cons c cs =>
    have hjoin : Join (c :: cs) "../evil.txt".toList =
        Clean ((c :: cs) ++ '/' :: "../evil.txt".toList) := by
      rw [Join, if_neg (by simp), if_neg (by decide)]
    have hhead : ((c :: cs) ++ '/' :: "../evil.txt".toList).head? = (c :: cs).head? := rfl
    have hsplit : splitSlash ((c :: cs) ++ '/' :: "../evil.txt".toList) =
        splitSlash (c :: cs) ++ [['.', '.'], "evil.txt".toList] := by
      rw [splitSlash_append]
      rfl
    have hfold : (splitSlash ((c :: cs) ++ '/' :: "../evil.txt".toList)).foldl
        (cleanStep (((c :: cs) ++ '/' :: "../evil.txt".toList).head? == some '/')) [] =
        cleanStep ((c :: cs).head? == some '/')
          (cleanStep ((c :: cs).head? == some '/')
            ((splitSlash (c :: cs)).foldl (cleanStep ((c :: cs).head? == some '/')) [])
            ['.', '.']) "evil.txt".toList := by
      rw [hsplit, hhead, List.foldl_append]
      rfl
    rw [hjoin]
    cases hS : (splitSlash (c :: cs)).foldl (cleanStep ((c :: cs).head? == some '/')) [] with
    | nil =>
      have hel : cleanElements (c :: cs) = [] := by rw [cleanElements, hS]; rfl
      rw [hS] at hfold
      by_cases hr : ((c :: cs).head? == some '/') = true
      · have hst : cleanStep ((c :: cs).head? == some '/') [] ['.', '.'] = [] := by
          rw [hr]; rfl
        rw [hst, cleanStep_evil] at hfold
        have h1 := clean_of_stack _ _ _ hfold
        rw [hhead] at h1
        have h2 : Clean (c :: cs) = ['/'] := by
          rw [Clean, if_pos hr, hel]; rfl
        rw [h1, h2]
        simp only [hr]
        decide
      · have hr' : ((c :: cs).head? == some '/') = false := by simpa using hr
        have hst : cleanStep ((c :: cs).head? == some '/') [] ['.', '.'] = [['.', '.']] := by
          rw [hr']; rfl
        rw [hst, cleanStep_evil] at hfold
        have h1 := clean_of_stack _ _ _ hfold
        rw [hhead] at h1
        have h2 : Clean (c :: cs) = ['.'] := by
          rw [Clean, if_neg hr, if_pos hel]
        rw [h1, h2]
        simp only [hr']
        decide
    | cons top rest =>
      have hel : cleanElements (c :: cs) = rest.reverse ++ [top] := by
        rw [cleanElements, hS, List.reverse_cons]
      have htop : top ≠ ['.', '.'] := by
        intro h
        apply hlast
        rw [hel, List.getLast?_append, h]
        rfl
      rw [hS, cleanStep_dotdot_pop _ _ _ htop, cleanStep_evil] at hfold
      have h1 := clean_of_stack _ _ _ hfold
      rw [hhead] at h1
      have h2 := clean_of_stack _ _ _ hS
      rw [h1, h2]
      apply Bool.eq_false_iff.2
      intro hp
      rw [ List.isPrefixOf_iff_prefix, List.append_assoc, List.prefix_append_right_inj] at hp
      exact not_slash_prefix_evil top hp

/-- The argument of a change as the code wrote it: for `mkdirAllDir fpath` the path `fpath`
itself, of which `filepath.Dir` is made. -/
theorem unzipLoop_ops_checked (dest : Path) (files : List ZipEntry) :
    ∀ (filenames : List Path) (op : FsOp), op ∈ (unzipLoop dest files filenames).ops →
      ∃ fpath, List.isPrefixOf (Clean dest ++ ['/']) fpath = true ∧
        (op = .mkdirAll fpath ∨ op = .mkdirAllDir fpath ∨ op = .create fpath ∨
          ∃ data, op = .write fpath data) := by
  induction files with
  | nil => intro fn op h; simp [unzipLoop] at h
  | cons f rest ih =>
    intro fn op h
    rw [unzipLoop] at h
    by_cases hp : List.isPrefixOf (Clean dest ++ ['/']) (Join dest f.name) = true
    · simp only [hp, Bool.not_true, Bool.false_eq_true, if_false] at h
      by_cases hd : f.isDir = true
      · simp only [hd, if_true, List.mem_cons] at h
        rcases h with h | h
        · exact ⟨_, hp, Or.inl h⟩
        · exact ih _ _ h
      · simp only [hd, Bool.false_eq_true, if_false] at h
        cases hio : f.io with
        | ok =>
          simp only [hio, List.mem_cons] at h
          rcases h with h | h | h | h
          · exact ⟨_, hp, Or.inr (Or.inl h)⟩
          · exact ⟨_, hp, Or.inr (Or.inr (Or.inl h))⟩
          · exact ⟨_, hp, Or.inr (Or.inr (Or.inr ⟨_, h⟩))⟩
          · exact ih _ _ h
        | mkdirFails => simp [hio] at h
        | openFileFails =>
          simp only [hio, List.mem_cons, List.mem_nil_iff, or_false] at h
          exact ⟨_, hp, Or.inr (Or.inl h)⟩
        | openFails =>
          simp only [hio, List.mem_cons, List.mem_nil_iff, or_false] at h
          rcases h with h | h
          · exact ⟨_, hp, Or.inr (Or.inl h)⟩
          · exact ⟨_, hp, Or.inr (Or.inr (Or.inl h))⟩
        | copyFails n =>
          simp only [hio, List.mem_cons, List.mem_nil_iff, or_false] at h
          rcases h with h | h | h
          · exact ⟨_, hp, Or.inr (Or.inl h)⟩
          · exact ⟨_, hp, Or.inr (Or.inr (Or.inl h))⟩
          · exact ⟨_, hp, Or.inr (Or.inr (Or.inr ⟨_, h⟩))⟩
    · have hp' : List.isPrefixOf (Clean dest ++ ['/']) (Join dest f.name) = false :=
        Bool.eq_false_iff.2 hp
      simp [hp'] at h

/-- An entry that fails the check ends the extraction with an error, and the changes made
are those of the entries before it. -/
theorem unzipLoop_stops (dest : Path) (f : ZipEntry) (post : List ZipEntry)
    (hbad : List.isPrefixOf (Clean dest ++ ['/']) (Join dest f.name) = false)
    (pre : List ZipEntry) :
    ∀ filenames : List Path,
      (unzipLoop dest (pre ++ f :: post) filenames).err ≠ none ∧
      (unzipLoop dest (pre ++ f :: post) filenames).ops =
        (unzipLoop dest pre filenames).ops ∧
      ((unzipLoop dest pre filenames).err = none →
        (unzipLoop dest (pre ++ f :: post) filenames).err =
          some (.badDirectory (Join dest f.name))) := by
  induction pre with
  | nil =>
    intro fn
    rw [List.nil_append, unzipLoop]
    simp [hbad, unzipLoop]
  | cons g rest ih =>
    intro fn
    rw [List.cons_append, unzipLoop, unzipLoop]
    by_cases hp : List.isPrefixOf (Clean dest ++ ['/']) (Join dest g.name) = true
    · simp only [hp, Bool.not_true, Bool.false_eq_true, if_false]
      obtain ⟨i1, i2, i3⟩ := ih (fn ++ [Join dest g.name])
      by_cases hd : g.isDir = true
      · simp only [hd, if_true]
        exact ⟨i1, by rw [i2], i3⟩
      · simp only [hd, Bool.false_eq_true, if_false]
        cases hio : g.io with
        | ok => exact ⟨i1, by simp only [i2], i3⟩
        | mkdirFails => simp
        | openFileFails => simp
        | openFails => simp
        | copyFails n => simp
    · have hp' : List.isPrefixOf (Clean dest ++ ['/']) (Join dest g.name) = false :=
        Bool.eq_false_iff.2 hp
      simp [hp']

/-- C11 (where the code departs from the claim and from its own comment `Check for
ZipSlip`): for the destination `..` an archive with the one entry `../evil.txt` is extracted
without error. The joined path `../../evil.txt` starts with `../`, the cleaned destination
followed by the separator, so the check passes, and the file is created two levels up,
outside the destination. -/
theorem Unzip_dotdot_destination_accepts_evil :
    Unzip (some [⟨"../evil.txt".toList, false, [1, 2, 3], .ok⟩]) "..".toList =
      ⟨["../../evil.txt".toList], none,
        [.mkdirAllDir "../../evil.txt".toList, .create "../../evil.txt".toList,
          .write "../../evil.txt".toList [1, 2, 3]]⟩ := by
  decide

/-- What the check of `Unzip` does achieve, for every archive and every destination `dest`:
(1) each path that `Unzip` hands to `os.MkdirAll`, `filepath.Dir`, `os.OpenFile` or `io.Copy`
starts with `filepath.Clean(dest)` followed by the separator; (2) an entry whose joined path
`filepath.Join(dest, name)` does not start so makes `Unzip` return an error, and nothing is
created for that entry or for any later one: the changes made are those of the entries before
it; (3) when the cleaned `dest` does not end in a `..` element, an entry named `../evil.txt`
is such an entry. -/
theorem Unzip_check_stops_entry (dest : Path) :
    (∀ (files : List ZipEntry) (op : FsOp), op ∈ (Unzip (some files) dest).ops →
      ∃ fpath, List.isPrefixOf (Clean dest ++ ['/']) fpath = true ∧
        (op = .mkdirAll fpath ∨ op = .mkdirAllDir fpath ∨ op = .create fpath ∨
          ∃ data, op = .write fpath data)) ∧
    (∀ (pre : List ZipEntry) (f : ZipEntry) (post : List ZipEntry),
      List.isPrefixOf (Clean dest ++ ['/']) (Join dest f.name) = false →
      (Unzip (some (pre ++ f :: post)) dest).err ≠ none ∧
      (Unzip (some (pre ++ f :: post)) dest).ops = (Unzip (some pre) dest).ops ∧
      ((Unzip (some pre) dest).err = none →
        (Unzip (some (pre ++ f :: post)) dest).err =
          some (.badDirectory (Join dest f.name)))) ∧
    ((cleanElements dest).getLast? ≠ some ['.', '.'] →
      ∀ (pre : List ZipEntry) (f : ZipEntry) (post : List ZipEntry),
        f.name = "../evil.txt".toList →
        (Unzip (some (pre ++ f :: post)) dest).err ≠ none ∧
        (Unzip (some (pre ++ f :: post)) dest).ops = (Unzip (some pre) dest).ops) := by
  refine ⟨fun files op h => unzipLoop_ops_checked dest files [] op h,
    fun pre f post hbad => unzipLoop_stops dest f post hbad pre [],
    fun hlast pre f post hname => ?_⟩
  have hbad : List.isPrefixOf (Clean dest ++ ['/']) (Join dest f.name) = false := by
    rw [hname]; exact evil_rejected dest hlast
  obtain ⟨h1, h2, -⟩ := unzipLoop_stops dest f post hbad pre []
  exact ⟨h1, h2⟩

/-- At the destination `./temp_x` an archive with a sound entry followed by `../evil.txt`
gives an error, and only the sound entry is extracted. -/
theorem Unzip_check_stops_entry_example :
    (Unzip (some ([⟨"a.txt".toList, false, [1], .ok⟩] ++
        ⟨"../evil.txt".toList, false, [2], .ok⟩ :: [])) "./temp_x".toList).err ≠ none ∧
    (Unzip (some ([⟨"a.txt".toList, false, [1], .ok⟩] ++
        ⟨"../evil.txt".toList, false, [2], .ok⟩ :: [])) "./temp_x".toList).ops =
      (Unzip (some [⟨"a.txt".toList, false, [1], .ok⟩]) "./temp_x".toList).ops :=
  (Unzip_check_stops_entry "./temp_x".toList).2.2 (by decide)
    [⟨"a.txt".toList, false, [1], .ok⟩] ⟨"../evil.txt".toList, false, [2], .ok⟩ [] rfl

/-- The directory that `os.MkdirAll(filepath.Dir(fpath))` makes for a file directly in the
destination is the destination itself, which does not start with the cleaned destination
followed by the separator. -/
theorem Dir_examples :
    Dir "temp_x/a.txt".toList = "temp_x".toList ∧
    Dir "temp_x/Images/Main/IR.data".toList = "temp_x/Images/Main".toList ∧
    Dir "../../evil.txt".toList = "../..".toList ∧
    Dir "a.txt".toList = ".".toList ∧
    Dir "/a.txt".toList = "/".toList := by
  decide

/-! ## The file decoders and the dispatcher -/

theorem tempDir_examples :
    tempDir "x.is2".toList = "./temp_x".toList ∧
    tempDir "/data/IR_0001.IS2".toList = "./temp_IR_0001".toList ∧
    friendlyname "/data/IR_0001.IS2".toList = "IR_0001.jpg".toList ∧
    Clean (tempDir "x.is2".toList ++ "/Images/Main/IR.data".toList) =
      Join (tempDir "x.is2".toList) "Images/Main/IR.data".toList := by
  decide

/-- The function `decodeNewIS2` returns an error exactly on its two early returns: `Unzip`
failed, or the extraction left nothing at the path of `IR.data`. -/
theorem decodeNewIS2_returnedErr_iff (env : Env) (src : IS2File)
    (filename irfilepath visfilepath : Path) (bg e mintemp maxtemp : ℝ) :
    (decodeNewIS2 env src filename irfilepath visfilepath bg e mintemp maxtemp).ending =
        .returnedErr ↔
      ((Unzip src.zip (tempDir filename)).err ≠ none ∨
        nodeAt (Unzip src.zip (tempDir filename)).ops
          (Clean (tempDir filename ++ "/Images/Main/IR.data".toList)) = .absent) := by
  unfold decodeNewIS2
  simp only
  generalize Clean (tempDir filename ++ "/Images/Main/IR.data".toList) = irdataPath
  generalize Unzip src.zip (tempDir filename) = u
  cases herr : u.err with
  | some err => simp
  | none =>
    simp only
    cases hex : nodeAt u.ops irdataPath with
    | absent => simp
    | dir => simp
    | file irdata =>
      simp only
      split
      · simp
      · simp
      · rename_i hne1 hne2 heq
        simp only [ne_eq, not_true_eq_false, false_or]
        constructor
        · intro h
          exact absurd h hne1
        · intro h
          exact absurd h (by simp)

theorem ConvertIS2_oldRun (env : Env) (src : IS2File)
    (filename irfilepath visfilepath : Path) (bg e mintemp maxtemp : ℝ) :
    ((ConvertIS2 env src filename irfilepath visfilepath bg e mintemp maxtemp).oldRun.isSome
        = true ↔
      (decodeNewIS2 env src filename irfilepath visfilepath bg e mintemp maxtemp).ending =
        .returnedErr) ∧
    ((ConvertIS2 env src filename irfilepath visfilepath bg e mintemp maxtemp).oldRun.isSome
        = true ∨
      ((ConvertIS2 env src filename irfilepath visfilepath bg e mintemp maxtemp).oldRun
          = none ∧
        (ConvertIS2 env src filename irfilepath visfilepath bg e mintemp maxtemp).ending =
          (decodeNewIS2 env src filename irfilepath visfilepath bg e mintemp
            maxtemp).ending)) := by
  unfold ConvertIS2
  simp only
  generalize decodeNewIS2 env src filename irfilepath visfilepath bg e mintemp maxtemp = r
  generalize decodeOldIS2 env src filename irfilepath visfilepath bg e mintemp maxtemp = o
  cases hr : r.ending <;> simp only
  · simp
  · constructor
    · cases o.ending <;> simp
    · left
      cases o.ending <;> simp
  · simp
  · simp
  · simp

/-- C12, counterexample: an archive whose one entry is `../evil.txt`, and an archive whose
one entry cannot be written by the operating system. In both cases `Unzip` fails after the
input was recognised as an archive, `decodeNewIS2` returns that error, and `ConvertIS2`
calls `decodeOldIS2`. -/
theorem ConvertIS2_falls_back_on_unsafe_entry :
    (Unzip (some [⟨"../evil.txt".toList, false, [], .ok⟩]) (tempDir "x.is2".toList)).err =
      some (.badDirectory "evil.txt".toList) ∧
    (ConvertIS2 ⟨fun _ => false⟩ ⟨[], some [⟨"../evil.txt".toList, false, [], .ok⟩]⟩
      "x.is2".toList "ir.jpg".toList "vis.jpg".toList 20 0.95 20 70).oldRun.isSome = true ∧
    (Unzip (some [⟨"a.txt".toList, false, [1], .openFileFails⟩])
      (tempDir "x.is2".toList)).err = some .io ∧
    (ConvertIS2 ⟨fun _ => false⟩ ⟨[], some [⟨"a.txt".toList, false, [1], .openFileFails⟩]⟩
      "x.is2".toList "ir.jpg".toList "vis.jpg".toList 20 0.95 20 70).oldRun.isSome = true := by
  refine ⟨by decide, ?_, by decide, ?_⟩
  · rw [(ConvertIS2_oldRun _ _ _ _ _ _ _ _ _).1, decodeNewIS2_returnedErr_iff]
    left
    decide
  · rw [(ConvertIS2_oldRun _ _ _ _ _ _ _ _ _).1, decodeNewIS2_returnedErr_iff]
    left
    decide

/-- C12, amended: `ConvertIS2` calls the Legacy decoder exactly when `decodeNewIS2` returns
an error, that is when `Unzip` fails for whatever reason (the input is not an archive, an
entry is unsafe, the operating system fails during extraction) or the extraction left
nothing at the path of `IR.data`, so that `os.Open` fails; in every other case, in particular
after a failure of the IR decoding once `IR.data` was opened (as a file or as a directory),
the Legacy decoder is not called and the call ends as `decodeNewIS2` ended. -/
theorem ConvertIS2_fallback (env : Env) (src : IS2File)
    (filename irfilepath visfilepath : Path) (bg e mintemp maxtemp : ℝ) :
    ((ConvertIS2 env src filename irfilepath visfilepath bg e mintemp maxtemp).oldRun.isSome
        = true ↔
      ((Unzip src.zip (tempDir filename)).err ≠ none ∨
        nodeAt (Unzip src.zip (tempDir filename)).ops
          (Clean (tempDir filename ++ "/Images/Main/IR.data".toList)) = .absent)) ∧
    ((ConvertIS2 env src filename irfilepath visfilepath bg e mintemp maxtemp).oldRun.isSome
        = true ∨
      ((ConvertIS2 env src filename irfilepath visfilepath bg e mintemp maxtemp).oldRun
          = none ∧
        (ConvertIS2 env src filename irfilepath visfilepath bg e mintemp maxtemp).ending =
          (decodeNewIS2 env src filename irfilepath visfilepath bg e mintemp
            maxtemp).ending ∧
        (ConvertIS2 env src filename irfilepath visfilepath bg e mintemp maxtemp).ending ≠
          .returnedErr)) := by
  obtain ⟨h1, h2⟩ := ConvertIS2_oldRun env src filename irfilepath visfilepath bg e mintemp
    maxtemp
  refine ⟨h1.trans (decodeNewIS2_returnedErr_iff _ _ _ _ _ _ _ _ _), ?_⟩
  rcases h2 with h | ⟨h3, h4⟩
  · exact Or.inl h
  · by_cases hs : (ConvertIS2 env src filename irfilepath visfilepath bg e mintemp
        maxtemp).oldRun.isSome = true
    · exact Or.inl hs
    · refine Or.inr ⟨h3, h4, ?_⟩
      rw [h4]
      exact fun hc => hs (h1.2 hc)

/-- On its two early returns `decodeNewIS2` leaves the changes of `Unzip` as they are: no
`os.RemoveAll` follows. -/
theorem decodeNewIS2_early_return (env : Env) (src : IS2File)
    (filename irfilepath visfilepath : Path) (bg e mintemp maxtemp : ℝ)
    (h : (Unzip src.zip (tempDir filename)).err ≠ none ∨
      nodeAt (Unzip src.zip (tempDir filename)).ops
        (Clean (tempDir filename ++ "/Images/Main/IR.data".toList)) = .absent) :
    (decodeNewIS2 env src filename irfilepath visfilepath bg e mintemp maxtemp).ops =
        (Unzip src.zip (tempDir filename)).ops ∧
      (decodeNewIS2 env src filename irfilepath visfilepath bg e mintemp maxtemp).irDecoded =
        false := by
  unfold decodeNewIS2
  simp only
  revert h
  generalize Clean (tempDir filename ++ "/Images/Main/IR.data".toList) = irdataPath
  generalize Unzip src.zip (tempDir filename) = u
  intro h
  cases herr : u.err with
  | some err => simp
  | none =>
    simp only
    cases hex : nodeAt u.ops irdataPath with
    | absent => simp
    | dir =>
      rcases h with h | h
      · exact absurd herr h
      · rw [hex] at h
        exact absurd h (by simp)
    | file irdata =>
      rcases h with h | h
      · exact absurd herr h
      · rw [hex] at h
        exact absurd h (by simp)

/-- When the extraction left a directory at the path of `IR.data`, `decodeNewIS2` calls the
IR decoder, removes the temporary directory and ends in `log.Fatalln`. -/
theorem decodeNewIS2_irdata_dir (env : Env) (src : IS2File)
    (filename irfilepath visfilepath : Path) (bg e mintemp maxtemp : ℝ)
    (herr : (Unzip src.zip (tempDir filename)).err = none)
    (hdir : nodeAt (Unzip src.zip (tempDir filename)).ops
      (Clean (tempDir filename ++ "/Images/Main/IR.data".toList)) = .dir) :
    (decodeNewIS2 env src filename irfilepath visfilepath bg e mintemp maxtemp).ending =
        .fatal ∧
      (decodeNewIS2 env src filename irfilepath visfilepath bg e mintemp maxtemp).irDecoded =
        true ∧
      (decodeNewIS2 env src filename irfilepath visfilepath bg e mintemp maxtemp).ops =
        (Unzip src.zip (tempDir filename)).ops ++ [.removeAll (tempDir filename)] := by
  unfold decodeNewIS2
  simp only
  rw [herr]
  simp only
  rw [hdir]
  exact ⟨rfl, rfl, rfl⟩

/-- An archive whose `Images/Main/IR.data` is a directory entry, and an archive with a file
below that path: `os.Open` opens the directory, the IR decoder fails, the temporary
directory is removed and the run ends in `log.Fatalln`; the Legacy decoder is not called. -/
theorem ConvertIS2_irdata_directory :
    nodeAt (Unzip (some [⟨"Images/Main/IR.data/".toList, true, [], .ok⟩])
        (tempDir "x.is2".toList)).ops
      (Clean (tempDir "x.is2".toList ++ "/Images/Main/IR.data".toList)) = .dir ∧
    (ConvertIS2 ⟨fun _ => false⟩
      ⟨[], some [⟨"Images/Main/IR.data/".toList, true, [], .ok⟩]⟩
      "x.is2".toList "ir.jpg".toList "vis.jpg".toList 20 0.95 20 70).oldRun.isSome = false ∧
    (ConvertIS2 ⟨fun _ => false⟩
      ⟨[], some [⟨"Images/Main/IR.data/".toList, true, [], .ok⟩]⟩
      "x.is2".toList "ir.jpg".toList "vis.jpg".toList 20 0.95 20 70).ending = .fatal ∧
    nodeAt (Unzip (some [⟨"Images/Main/IR.data/a.txt".toList, false, [1], .ok⟩])
        (tempDir "x.is2".toList)).ops
      (Clean (tempDir "x.is2".toList ++ "/Images/Main/IR.data".toList)) = .dir ∧
    (ConvertIS2 ⟨fun _ => false⟩
      ⟨[], some [⟨"Images/Main/IR.data/a.txt".toList, false, [1], .ok⟩]⟩
      "x.is2".toList "ir.jpg".toList "vis.jpg".toList 20 0.95 20 70).oldRun.isSome = false := by
  have hd1 : nodeAt (Unzip (some [⟨"Images/Main/IR.data/".toList, true, [], .ok⟩])
        (tempDir "x.is2".toList)).ops
      (Clean (tempDir "x.is2".toList ++ "/Images/Main/IR.data".toList)) = .dir := by decide
  have hd2 : nodeAt (Unzip (some [⟨"Images/Main/IR.data/a.txt".toList, false, [1], .ok⟩])
        (tempDir "x.is2".toList)).ops
      (Clean (tempDir "x.is2".toList ++ "/Images/Main/IR.data".toList)) = .dir := by decide
  have he1 : (decodeNewIS2 ⟨fun _ => false⟩
      ⟨[], some [⟨"Images/Main/IR.data/".toList, true, [], .ok⟩]⟩
      "x.is2".toList "ir.jpg".toList "vis.jpg".toList 20 0.95 20 70).ending = .fatal :=
    (decodeNewIS2_irdata_dir _ _ _ _ _ _ _ _ _ (by decide) hd1).1
  have he2 : (decodeNewIS2 ⟨fun _ => false⟩
      ⟨[], some [⟨"Images/Main/IR.data/a.txt".toList, false, [1], .ok⟩]⟩
      "x.is2".toList "ir.jpg".toList "vis.jpg".toList 20 0.95 20 70).ending = .fatal :=
    (decodeNewIS2_irdata_dir _ _ _ _ _ _ _ _ _ (by decide) hd2).1
  refine ⟨hd1, ?_, ?_, hd2, ?_⟩
  · apply Bool.eq_false_iff.2
    intro h
    have h3 := (ConvertIS2_oldRun _ _ _ _ _ _ _ _ _).1.1 h
    rw [he1] at h3
    exact absurd h3 (by decide)
  · unfold ConvertIS2
    simp only
    rw [he1]
  · apply Bool.eq_false_iff.2
    intro h
    have h3 := (ConvertIS2_oldRun _ _ _ _ _ _ _ _ _).1.1 h
    rw [he2] at h3
    exact absurd h3 (by decide)

theorem dirPresent_removeAll (dir : Path) (ops : List FsOp) :
    dirPresent dir (ops ++ [.removeAll dir]) = false := by
  simp [dirPresent, nodeAt, nodeStep, List.foldl_append]

/-- When `decodeNewIS2` returns `nil`, its last change is the removal of the temporary
directory. -/
theorem decodeNewIS2_removes_tempdir (env : Env) (src : IS2File)
    (filename irfilepath visfilepath : Path) (bg e mintemp maxtemp : ℝ)
    (h : (decodeNewIS2 env src filename irfilepath visfilepath bg e mintemp
      maxtemp).ending = .returnedNil) :
    dirPresent (tempDir filename)
      (decodeNewIS2 env src filename irfilepath visfilepath bg e mintemp maxtemp).ops =
        false := by
  revert h
  unfold decodeNewIS2
  simp only
  generalize Clean (tempDir filename ++ "/Images/Main/IR.data".toList) = irdataPath
  generalize Unzip src.zip (tempDir filename) = u
  cases herr : u.err with
  | some err => simp
  | none =>
    simp only
    cases hex : nodeAt u.ops irdataPath with
    | absent => simp
    | dir => simp
    | file irdata =>
      simp only
      split
      · simp
      · intro _
        exact dirPresent_removeAll _ _
      · rename_i hne1 hne2 heq
        intro h
        exact absurd h hne2

/-- C13 (where the code departs from the claim): an archive without `Images/Main/IR.data`,
and an archive whose second entry cannot be written. `decodeNewIS2` returns the error of
`os.Open`, respectively of `Unzip`, straight away, and the temporary directory `./temp_x`
with the files extracted so far is still there when it exits. -/
theorem decodeNewIS2_leaves_tempdir :
    ((decodeNewIS2 ⟨fun _ => false⟩ ⟨[], some [⟨"a.txt".toList, false, [1], .ok⟩]⟩
        "x.is2".toList "ir.jpg".toList "vis.jpg".toList 20 0.95 20 70).ending
        = .returnedErr ∧
      (decodeNewIS2 ⟨fun _ => false⟩ ⟨[], some [⟨"a.txt".toList, false, [1], .ok⟩]⟩
        "x.is2".toList "ir.jpg".toList "vis.jpg".toList 20 0.95 20 70).ops =
        [.mkdirAllDir "temp_x/a.txt".toList, .create "temp_x/a.txt".toList,
          .write "temp_x/a.txt".toList [1]] ∧
      dirPresent (tempDir "x.is2".toList)
        (decodeNewIS2 ⟨fun _ => false⟩ ⟨[], some [⟨"a.txt".toList, false, [1], .ok⟩]⟩
          "x.is2".toList "ir.jpg".toList "vis.jpg".toList 20 0.95 20 70).ops = true) ∧
    ((decodeNewIS2 ⟨fun _ => false⟩
        ⟨[], some [⟨"a.txt".toList, false, [1], .ok⟩,
          ⟨"b.txt".toList, false, [2], .openFileFails⟩]⟩
        "x.is2".toList "ir.jpg".toList "vis.jpg".toList 20 0.95 20 70).ending
        = .returnedErr ∧
      dirPresent (tempDir "x.is2".toList)
        (decodeNewIS2 ⟨fun _ => false⟩
          ⟨[], some [⟨"a.txt".toList, false, [1], .ok⟩,
            ⟨"b.txt".toList, false, [2], .openFileFails⟩]⟩
          "x.is2".toList "ir.jpg".toList "vis.jpg".toList 20 0.95 20 70).ops = true) := by
  have h1 : (Unzip (some [⟨"a.txt".toList, false, [1], .ok⟩]) (tempDir "x.is2".toList)).err
        ≠ none ∨
      nodeAt (Unzip (some [⟨"a.txt".toList, false, [1], .ok⟩])
          (tempDir "x.is2".toList)).ops
        (Clean (tempDir "x.is2".toList ++ "/Images/Main/IR.data".toList)) = .absent :=
    Or.inr (by decide)
  have h2 : (Unzip (some [⟨"a.txt".toList, false, [1], .ok⟩,
        ⟨"b.txt".toList, false, [2], .openFileFails⟩]) (tempDir "x.is2".toList)).err
        ≠ none ∨
      nodeAt (Unzip (some [⟨"a.txt".toList, false, [1], .ok⟩,
          ⟨"b.txt".toList, false, [2], .openFileFails⟩]) (tempDir "x.is2".toList)).ops
        (Clean (tempDir "x.is2".toList ++ "/Images/Main/IR.data".toList)) = .absent :=
    Or.inl (by decide)
  refine ⟨⟨(decodeNewIS2_returnedErr_iff _ _ _ _ _ _ _ _ _).2 h1, ?_, ?_⟩,
    ⟨(decodeNewIS2_returnedErr_iff _ _ _ _ _ _ _ _ _).2 h2, ?_⟩⟩
  · rw [(decodeNewIS2_early_return _ _ _ _ _ _ _ _ _ h1).1]
    decide
  · rw [(decodeNewIS2_early_return _ _ _ _ _ _ _ _ _ h1).1]
    decide
  · rw [(decodeNewIS2_early_return _ _ _ _ _ _ _ _ _ h2).1]
    decide

/-- With a caller-supplied finite scale `mintemp < maxtemp` whose `colorstep` is finite, an
IR decode finishes on every file that holds the 320x240 samples. -/
theorem decodeIR_ok_manual (scale bias : ℝ) (offset : ℕ) (file : List Byte)
    (bg e mintemp maxtemp : ℝ) (hlen : 153600 ≤ (file.drop offset).length)
    (hlt : mintemp < maxtemp) (h1 : -maxFloat64 ≤ mintemp) (h2 : maxtemp ≤ maxFloat64)
    (h3 : maxtemp - mintemp ≤ maxFloat64) (h4 : 433 / (maxtemp - mintemp) ≤ maxFloat64) :
    ∃ img, decodeIR scale bias offset file bg e mintemp maxtemp = .ok img := by
  obtain ⟨h, hh, -, -, -, -, hman, -⟩ :=
    irHeader_spec scale bias offset file bg e mintemp maxtemp hlen
  have hne : ¬(mintemp = 0 ∧ maxtemp = 0) := by
    rintro ⟨h1, h2⟩
    rw [h1, h2] at hlt
    exact lt_irrefl _ hlt
  obtain ⟨hs1, hs2⟩ := hman hne
  obtain ⟨img, himg, -, -⟩ := decodeIR_ok scale bias offset file bg e mintemp maxtemp hlen h
    hh (fun k _ => by
      rw [hs1, hs2]
      exact pixelIndexOf_bounds mintemp maxtemp hlt h1 h2 h3 h4 _)
  exact ⟨img, himg⟩

/-- An empty IR destination path in `decodeNewIS2`: once `IR.data` is extracted and decodes,
the IR decoder has been called and the run ends in `log.Fatalln`, with the temporary
directory left in place. -/
theorem decodeNewIS2_empty_irfilepath (env : Env) (src : IS2File)
    (filename visfilepath : Path) (bg e mintemp maxtemp : ℝ) (irdata : List Byte)
    (img : IRImage) (henv : env.isDir [] = false)
    (herr : (Unzip src.zip (tempDir filename)).err = none)
    (hex : nodeAt (Unzip src.zip (tempDir filename)).ops
      (Clean (tempDir filename ++ "/Images/Main/IR.data".toList)) = .file irdata)
    (hdec : decodeNEWIS2IRBinaryData2JPG 640 irdata bg e mintemp maxtemp = .ok img) :
    (decodeNewIS2 env src filename [] visfilepath bg e mintemp maxtemp).ending = .fatal ∧
    (decodeNewIS2 env src filename [] visfilepath bg e mintemp maxtemp).irDecoded = true ∧
    (decodeNewIS2 env src filename [] visfilepath bg e mintemp maxtemp).ops =
      (Unzip src.zip (tempDir filename)).ops := by
  have hres : resolveOut env [] (friendlyname filename) = [] := by
    rw [resolveOut, henv]; rfl
  have hfin : irFinish (decodeNEWIS2IRBinaryData2JPG 640 irdata bg e mintemp maxtemp)
      (resolveOut env [] (friendlyname filename)) = (.fatal, []) := by
    rw [hres, hdec]; rfl
  unfold decodeNewIS2
  simp only
  rw [herr]
  simp only
  rw [hex]
  simp only
  rw [hfin]
  simp

theorem nodeAt_write_last (ops : List FsOp) (p path : Path) (data : List Byte)
    (h : Clean p = path) : nodeAt (ops ++ [.write p data]) path = .file data := by
  simp [nodeAt, nodeStep, List.foldl_append, h]

theorem nodeAt_irdata (data : List Byte) :
    (Unzip (some [⟨"Images/Main/IR.data".toList, false, data, .ok⟩])
        (tempDir "x.is2".toList)).err = none ∧
    nodeAt (Unzip (some [⟨"Images/Main/IR.data".toList, false, data, .ok⟩])
        (tempDir "x.is2".toList)).ops
      (Clean (tempDir "x.is2".toList ++ "/Images/Main/IR.data".toList)) = .file data := by
  have hd : tempDir "x.is2".toList = "./temp_x".toList := by decide
  have hc : Clean ("./temp_x".toList ++ "/Images/Main/IR.data".toList) =
      "temp_x/Images/Main/IR.data".toList := by decide
  have hj : Join "./temp_x".toList "Images/Main/IR.data".toList =
      "temp_x/Images/Main/IR.data".toList := by decide
  have hp : List.isPrefixOf (Clean "./temp_x".toList ++ ['/'])
      "temp_x/Images/Main/IR.data".toList = true := by decide
  have hcc : Clean "temp_x/Images/Main/IR.data".toList =
      "temp_x/Images/Main/IR.data".toList := by decide
  rw [hd, hc]
  simp only [Unzip, unzipLoop, hj, hp]
  refine ⟨by simp, ?_⟩
  exact nodeAt_write_last
    [.mkdirAllDir "temp_x/Images/Main/IR.data".toList,
      .create "temp_x/Images/Main/IR.data".toList]
    "temp_x/Images/Main/IR.data".toList _ data hcc

theorem dirPresent_irdata (data : List Byte) :
    dirPresent (tempDir "x.is2".toList)
      (Unzip (some [⟨"Images/Main/IR.data".toList, false, data, .ok⟩])
        (tempDir "x.is2".toList)).ops = true := by
  have hd : tempDir "x.is2".toList = "./temp_x".toList := by decide
  have hj : Join "./temp_x".toList "Images/Main/IR.data".toList =
      "temp_x/Images/Main/IR.data".toList := by decide
  have hp : List.isPrefixOf (Clean "./temp_x".toList ++ ['/'])
      "temp_x/Images/Main/IR.data".toList = true := by decide
  have hc : List.isPrefixOf (Clean "./temp_x".toList ++ ['/'])
      (Clean "temp_x/Images/Main/IR.data".toList) = true := by decide
  rw [hd]
  simp only [Unzip, unzipLoop, hj, hp]
  simp only [dirPresent, List.foldl, FsOp.path, hc]
  rfl

/-- With both output paths empty `decodeOldIS2` skips both pictures: once the sentinel is
found it returns `nil` without a call of the IR decoder. -/
theorem decodeOldIS2_empty_paths (env : Env) (src : IS2File) (filename : Path)
    (bg e mintemp maxtemp : ℝ) (offset : ℕ) (hs : sentinelScan src.bytes = .found offset) :
    (decodeOldIS2 env src filename [] [] bg e mintemp maxtemp).irDecoded = false ∧
    (decodeOldIS2 env src filename [] [] bg e mintemp maxtemp).ending = .returnedNil ∧
    (decodeOldIS2 env src filename [] [] bg e mintemp maxtemp).visual = none := by
  have h1 : oldIR env src.bytes offset filename [] bg e mintemp maxtemp =
      (.returnedNil, [], false) := by
    rw [oldIR, if_neg (by simp)]
  have h2 : oldVisual env src.bytes offset filename [] = (.returnedNil, [], none) := by
    rw [oldVisual, if_neg (by simp)]
  unfold decodeOldIS2
  rw [hs]
  simp only
  rw [h1]
  simp only
  rw [h2]
  exact ⟨rfl, rfl, rfl⟩

/-- C14 (where the code departs from the claim): a file of the zip based format whose
`IR.data` holds 640 header bytes and a frame of raw counts 0, converted with an empty IR
path and an empty visual path (background 20, emissivity 0.95, scale 20..70).
`decodeNewIS2` has no test of `irfilepath`: the IR decoder is called, `os.Create("")` fails,
`jpeg.Encode` fails on the missing file and the run ends in `log.Fatalln`, with the
temporary directory left behind. The old-format decoder tests `irfilepath != ""` and skips
the IR picture: on a 20-byte file of 0xFF with both paths empty it returns `nil` and has not
called the IR decoder. -/
theorem decodeNewIS2_ignores_empty_irfilepath :
    (decodeNewIS2 ⟨fun _ => false⟩
      ⟨[], some [⟨"Images/Main/IR.data".toList, false, List.replicate 154240 0, .ok⟩]⟩
      "x.is2".toList [] [] 20 0.95 20 70).irDecoded = true ∧
    (decodeNewIS2 ⟨fun _ => false⟩
      ⟨[], some [⟨"Images/Main/IR.data".toList, false, List.replicate 154240 0, .ok⟩]⟩
      "x.is2".toList [] [] 20 0.95 20 70).ending = .fatal ∧
    dirPresent (tempDir "x.is2".toList)
      (decodeNewIS2 ⟨fun _ => false⟩
        ⟨[], some [⟨"Images/Main/IR.data".toList, false, List.replicate 154240 0, .ok⟩]⟩
        "x.is2".toList [] [] 20 0.95 20 70).ops = true ∧
    (decodeOldIS2 ⟨fun _ => false⟩ ⟨List.replicate 20 0xFF, none⟩
      "x.is2".toList [] [] 20 0.95 20 70).irDecoded = false ∧
    (decodeOldIS2 ⟨fun _ => false⟩ ⟨List.replicate 20 0xFF, none⟩
      "x.is2".toList [] [] 20 0.95 20 70).ending = .returnedNil := by
  obtain ⟨img, himg⟩ := decodeIR_ok_manual 0.201 154.035 640
    (List.replicate 154240 (0 : Byte)) 20 0.95 20 70
    (by rw [List.length_drop, List.length_replicate]) (by norm_num)
    (F64.small _ (by constructor <;> norm_num)).1
    (F64.small _ (by constructor <;> norm_num)).2
    (F64.small _ (by constructor <;> norm_num)).2
    (F64.small _ (by constructor <;> norm_num)).2
  obtain ⟨herr, hex⟩ := nodeAt_irdata (List.replicate 154240 (0 : Byte))
  obtain ⟨h1, h2, h3⟩ := decodeNewIS2_empty_irfilepath ⟨fun _ => false⟩
    ⟨[], some [⟨"Images/Main/IR.data".toList, false, List.replicate 154240 0, .ok⟩]⟩
    "x.is2".toList [] 20 0.95 20 70 _ img rfl herr hex himg
  refine ⟨h2, h1, ?_, ?_, ?_⟩
  · rw [h3]
    exact dirPresent_irdata _
  · exact (decodeOldIS2_empty_paths ⟨fun _ => false⟩ ⟨List.replicate 20 0xFF, none⟩ _ _ _ _ _
      20 (by decide)).1
  · exact (decodeOldIS2_empty_paths ⟨fun _ => false⟩ ⟨List.replicate 20 0xFF, none⟩ _ _ _ _ _
      20 (by decide)).2.1

/-- With both output paths empty, the audio of a run of `decodeOldIS2` that found the
sentinel is what the audio block makes of the file. -/
theorem decodeOldIS2_wav (env : Env) (src : IS2File) (filename : Path)
    (bg e mintemp maxtemp : ℝ) (offset : ℕ) (hs : sentinelScan src.bytes = .found offset) :
    (decodeOldIS2 env src filename [] [] bg e mintemp maxtemp).wav = audioBlock src.bytes := by
  have h1 : oldIR env src.bytes offset filename [] bg e mintemp maxtemp =
      (.returnedNil, [], false) := by
    rw [oldIR, if_neg (by simp)]
  have h2 : oldVisual env src.bytes offset filename [] = (.returnedNil, [], none) := by
    rw [oldVisual, if_neg (by simp)]
  unfold decodeOldIS2
  rw [hs]
  simp only
  rw [h1]
  simp only
  rw [h2]
  simp only [oldAudio]
  cases audioBlock src.bytes <;> rfl

end Convertis2
